import Mathlib

/-!
# Cache strategies of `backend/cache/cache.go`

A shallow embedding of `CacheService` (cache-aside, write-through, refresh-ahead,
tag invalidation) over an explicit model of its collaborators:

* the Redis client `c.rdb` is a finite key/value table plus a script of
  connectivity faults, one slot consumed by every command that is issued;
* `encoding/json` is a caller-supplied `Codec`;
* the callbacks (`fetchFunc`, `writeFunc`, `refreshFunc`) act on a state `σ` of the
  source of truth and never on the cache itself;
* `time.Ticker` values live in a heap indexed by creation order.

Executions are sequential (the mutex `c.mu` is not modelled), time does not pass
(no entry expires between two steps), and `log.Printf` is dropped. Concurrent callers
of `GetWithCacheAside` are interleaved at the boundary between the read of the cache
and the rest of the call.

Three more components follow the cache: the broadcast hub `WSHub` of
`ecommerce_demo/main.go` (namespace `Hub`), where a Go map of clients is the flag
`live` on every client, a panic of the goroutine is a flag of the hub, and the loop of
a broadcast visits the live clients one by one in an order that can be chosen; the getters
of the `CacheService` of `ecommerce_demo/main.go` and its profile handler (namespace
`Demo`), over the same model of the Redis client, with the database queries as
callbacks; and the invalidation handler of `ecommerce_demo/backend/main.go`
(namespace `Backend`).
-/

namespace Cache

/-! ## Durations -/

/-- A `time.Duration`: a signed 64-bit count of nanoseconds. -/
abbrev Duration := Int

/-- Two's-complement wrap-around of an integer into the `int64` range. -/
def wrap64 (x : Int) : Int := (x + 2 ^ 63) % 2 ^ 64 - 2 ^ 63

/-- Go's `a - b` on `time.Duration`. -/
def durSub (a b : Duration) : Duration := wrap64 (a - b)

/-- The constant `time.Millisecond`, in nanoseconds. -/
def Millisecond : Duration := 1000000

/-- The constant `time.Second`, in nanoseconds. -/
def Second : Duration := 1000000000

/-- The constant `time.Minute`. -/
def Minute : Duration := 60 * Second

/-- The constant `time.Hour`. -/
def Hour : Duration := 60 * Minute

/-- The function `formatSec` of go-redis: the whole seconds the client sends for a
duration. Go's division truncates; a positive duration below one second is sent as
one second. -/
def formatSec (dur : Duration) : Int :=
  if dur > 0 ∧ dur < Second then 1 else Int.tdiv dur Second

/-! ## Errors -/

/-- The values of Go's `error` that the cache can produce (`nil` is `none`). -/
inductive Error where
  /-- The sentinel `redis.Nil`: the key does not exist. -/
  | redisNil
  /-- The server's `WRONGTYPE` reply. -/
  | wrongType
  /-- The client was closed before the command. -/
  | clientClosed
  /-- The server's reply to a command without its arguments. -/
  | wrongArity
  /-- A connectivity or protocol failure of the store. -/
  | store (msg : String)
  /-- An error returned by a caller-supplied callback. -/
  | source (msg : String)
  /-- An error of `json.Marshal` or `json.Unmarshal`. -/
  | json (msg : String)
  deriving DecidableEq, Repr

/-! ## The JSON codec -/

/-- The two functions of `encoding/json` the cache uses, for application values `V`.
`unmarshal data dest` gives the new content of `dest` and the returned error. -/
structure Codec (V : Type) where
  marshal : V → Except Error String
  unmarshal : String → V → V × Option Error

/-! ## The Redis client -/

/-- A Redis value: a string or a set of strings. -/
inductive RValue where
  | str (data : String)
  | set (members : List String)
  deriving DecidableEq, Repr

/-- A stored entry. `expiration` says what last set the entry's time to live. After a
`SET` it is the duration passed to `Set`: go-redis sends a positive one as `PX` or
`EX`, `-1` (`KeepTTL`) as `KEEPTTL`, and any other without option, which leaves the
key without expiry. After an `EXPIRE` it is the time to live of whole seconds that
the server was sent. It is `0` on a set created by `SADD`, which has no expiry. -/
structure Entry where
  value : RValue
  expiration : Duration
  deriving DecidableEq, Repr

/-- The commands the cache sends to Redis. -/
inductive Cmd where
  | get (key : String)
  | set (key data : String) (expiration : Duration)
  | del (keys : List String)
  | smembers (key : String)
  | sadd (key member : String)
  | expire (key : String) (expiration : Duration)
  | keys (pattern : String)
  | publish (channel payload : String)
  | ping
  deriving DecidableEq, Repr

/-- What an execution does that an observer can count. -/
inductive Event (V : Type) where
  /-- A command was issued to Redis (whether or not it succeeded). -/
  | redis (cmd : Cmd)
  /-- The callback `fetchFunc()` or `refreshFunc()` was invoked. -/
  | fetch
  /-- The callback `writeFunc(v)` was invoked. -/
  | write (v : V)
  /-- A counter of package `metrics` was incremented. -/
  | metric (counter label : String)
  /-- A call of `ticker.Stop()`. -/
  | tickerStop (id : Nat)
  /-- A call of `time.NewTicker(period)`. -/
  | tickerNew (id : Nat) (period : Duration)

/-- A `time.Ticker`. -/
structure Ticker where
  period : Duration
  active : Bool
  deriving DecidableEq, Repr

/-- The goroutine started by `SetWithRefreshAhead`: it ranges over the channel of
ticker `ticker` and captures `key`, `refreshFunc` and `ttl`. -/
structure Routine (σ V : Type) where
  ticker : Nat
  key : String
  refreshFunc : σ → Except Error V × σ
  ttl : Duration

/-- The state an execution runs in. `store`, `closed` and `faults` are the Redis
client `c.rdb`; `refreshers` is the map `c.refreshers` (key to ticker id);
`tickers` is the heap of tickers created so far; `routines` are the goroutines
started so far; `src` is the source of truth; `trace` is the history of events. -/
structure World (σ V : Type) where
  store : List (String × Entry)
  closed : Bool
  faults : List (Option String)
  refreshers : List (String × Nat)
  tickers : List Ticker
  routines : List (Routine σ V)
  src : σ
  trace : List (Event V)

/-- The value bound to `k` in a table, if any. -/
def find {β : Type} (k : String) : List (String × β) → Option β
  | [] => none
  | (k', e) :: rest => if k' = k then some e else find k rest

/-- The table without the keys in `ks`. -/
def erase {β : Type} (ks : List String) (s : List (String × β)) : List (String × β) :=
  s.filter (fun p => !ks.contains p.1)

/-- The table with `k` bound to `e`. -/
def put {β : Type} (k : String) (e : β) (s : List (String × β)) : List (String × β) :=
  (k, e) :: erase [k] s

/-- Whether the client carries out the next `n` commands: it is open and the first
`n` slots of the fault script are empty. -/
def healthy {σ V : Type} (n : Nat) (w : World σ V) : Bool :=
  !w.closed && (w.faults.take n).all Option.isNone

/-- How many times a callback of type `func() (interface{}, error)` has run. -/
def fetchCount {V : Type} : List (Event V) → Nat
  | [] => 0
  | Event.fetch :: rest => fetchCount rest + 1
  | _ :: rest => fetchCount rest

/-- Sends a command: records it, and decides whether the client fails it. A closed
client fails every command; otherwise the next slot of the fault script decides. -/
def issue {σ V : Type} (cmd : Cmd) (w : World σ V) : Option Error × World σ V :=
  let w1 := { w with trace := w.trace ++ [Event.redis cmd] }
  if w.closed then (some Error.clientClosed, w1)
  else
    match w.faults with
    | [] => (none, w1)
    | f :: rest => (f.map Error.store, { w1 with faults := rest })

/-- The command `c.rdb.Get(c.ctx, key).Result()`. -/
def rdbGet {σ V : Type} (key : String) (w : World σ V) : Except Error String × World σ V :=
  match issue (Cmd.get key) w with
  | (some e, w1) => (Except.error e, w1)
  | (none, w1) =>
    match find key w1.store with
    | none => (Except.error Error.redisNil, w1)
    | some ⟨RValue.str d, _⟩ => (Except.ok d, w1)
    | some ⟨RValue.set _, _⟩ => (Except.error Error.wrongType, w1)

/-- The command `c.rdb.Set(c.ctx, key, data, expiration).Err()`. -/
def rdbSet {σ V : Type} (key data : String) (expiration : Duration) (w : World σ V) :
    Option Error × World σ V :=
  match issue (Cmd.set key data expiration) w with
  | (some e, w1) => (some e, w1)
  | (none, w1) => (none, { w1 with store := put key ⟨RValue.str data, expiration⟩ w1.store })

/-- The command `c.rdb.Del(c.ctx, keys...).Err()`. -/
def rdbDel {σ V : Type} (keys : List String) (w : World σ V) : Option Error × World σ V :=
  match issue (Cmd.del keys) w with
  | (some e, w1) => (some e, w1)
  | (none, w1) =>
    if keys.isEmpty then (some Error.wrongArity, w1)
    else (none, { w1 with store := erase keys w1.store })

/-- The command `c.rdb.SMembers(c.ctx, key).Result()`. -/
def rdbSMembers {σ V : Type} (key : String) (w : World σ V) :
    Except Error (List String) × World σ V :=
  match issue (Cmd.smembers key) w with
  | (some e, w1) => (Except.error e, w1)
  | (none, w1) =>
    match find key w1.store with
    | none => (Except.ok [], w1)
    | some ⟨RValue.set ms, _⟩ => (Except.ok ms, w1)
    | some ⟨RValue.str _, _⟩ => (Except.error Error.wrongType, w1)

/-- The command `c.rdb.SAdd(c.ctx, key, member).Err()`. -/
def rdbSAdd {σ V : Type} (key member : String) (w : World σ V) : Option Error × World σ V :=
  match issue (Cmd.sadd key member) w with
  | (some e, w1) => (some e, w1)
  | (none, w1) =>
    match find key w1.store with
    | none => (none, { w1 with store := put key ⟨RValue.set [member], 0⟩ w1.store })
    | some ⟨RValue.set ms, exp⟩ =>
      if ms.contains member then (none, w1)
      else (none, { w1 with store := put key ⟨RValue.set (ms ++ [member]), exp⟩ w1.store })
    | some ⟨RValue.str _, _⟩ => (some Error.wrongType, w1)

/-- The command `c.rdb.Expire(c.ctx, key, expiration)`. go-redis sends
`EXPIRE key formatSec(expiration)`, so the server sets a time to live of that many
whole seconds; a number of seconds that is not positive deletes the key. -/
def rdbExpire {σ V : Type} (key : String) (expiration : Duration) (w : World σ V) :
    Option Error × World σ V :=
  match issue (Cmd.expire key expiration) w with
  | (some e, w1) => (some e, w1)
  | (none, w1) =>
    match find key w1.store with
    | none => (none, w1)
    | some e =>
      if formatSec expiration ≤ 0 then (none, { w1 with store := erase [key] w1.store })
      else
        (none,
          { w1 with
            store := put key { e with expiration := formatSec expiration * Second } w1.store })

/-- Runs a callback of type `func() (interface{}, error)` on the source of truth. -/
def callFetch {σ V : Type} (f : σ → Except Error V × σ) (w : World σ V) :
    Except Error V × World σ V :=
  ((f w.src).1, { w with src := (f w.src).2, trace := w.trace ++ [Event.fetch] })

/-- Runs a callback of type `func(interface{}) error` on the source of truth. -/
def callWrite {σ V : Type} (f : V → σ → Option Error × σ) (v : V) (w : World σ V) :
    Option Error × World σ V :=
  ((f v w.src).1, { w with src := (f v w.src).2, trace := w.trace ++ [Event.write v] })

/-- The counter increment `metrics.RecordCacheMiss(label)`. -/
def RecordCacheMiss {σ V : Type} (label : String) (w : World σ V) : World σ V :=
  { w with trace := w.trace ++ [Event.metric "cache_misses_total" label] }

/-- The counter increment `metrics.RecordCacheHit(label)`. -/
def RecordCacheHit {σ V : Type} (label : String) (w : World σ V) : World σ V :=
  { w with trace := w.trace ++ [Event.metric "cache_hits_total" label] }

/-! ## `CacheService` -/

/-- `CacheService.GetWithCacheAside`: the returned error, the content of `dest`
after the call, and the state after the call. -/
def GetWithCacheAside {σ V : Type} (J : Codec V) (key : String) (dest : V)
    (fetchFunc : σ → Except Error V × σ) (ttl : Duration) (w : World σ V) :
    Option Error × V × World σ V :=
  match rdbGet key w with
  | (Except.error Error.redisNil, w1) =>
    let w2 := RecordCacheMiss "cache-aside" w1
    match callFetch fetchFunc w2 with
    | (Except.error err, w3) => (some err, dest, w3)
    | (Except.ok data, w3) =>
      match J.marshal data with
      | Except.error err => (some err, dest, w3)
      | Except.ok jsonData =>
        let w4 := (rdbSet key jsonData ttl w3).2
        ((J.unmarshal jsonData dest).2, (J.unmarshal jsonData dest).1, w4)
  | (Except.error err, w1) => (some err, dest, w1)
  | (Except.ok val, w1) =>
    let w2 := RecordCacheHit "cache-aside" w1
    ((J.unmarshal val dest).2, (J.unmarshal val dest).1, w2)

/-- `CacheService.SetWithWriteThrough`. -/
def SetWithWriteThrough {σ V : Type} (J : Codec V) (key : String) (value : V)
    (writeFunc : V → σ → Option Error × σ) (ttl : Duration) (w : World σ V) :
    Option Error × World σ V :=
  match callWrite writeFunc value w with
  | (some err, w1) => (some err, w1)
  | (none, w1) =>
    match J.marshal value with
    | Except.error err => (some err, w1)
    | Except.ok data => rdbSet key data ttl w1

/-- `CacheService.Set`. -/
def Set {σ V : Type} (J : Codec V) (key : String) (value : V) (expiration : Duration)
    (w : World σ V) : Option Error × World σ V :=
  match J.marshal value with
  | Except.error err => (some err, w)
  | Except.ok data => rdbSet key data expiration w

/-- `CacheService.Get`: the returned error, the content of `dest` afterwards, and
the state afterwards. -/
def Get {σ V : Type} (J : Codec V) (key : String) (dest : V) (w : World σ V) :
    Option Error × V × World σ V :=
  match rdbGet key w with
  | (Except.error err, w1) => (some err, dest, w1)
  | (Except.ok val, w1) => ((J.unmarshal val dest).2, (J.unmarshal val dest).1, w1)

/-- `CacheService.Delete`. -/
def Delete {σ V : Type} (key : String) (w : World σ V) : Option Error × World σ V :=
  rdbDel [key] w

/-- The call `ticker.Stop()` on the ticker with identity `id`. -/
def stopAt : Nat → List Ticker → List Ticker
  | _, [] => []
  | 0, t :: ts => { t with active := false } :: ts
  | n + 1, t :: ts => t :: stopAt n ts

/-- The first statement of `SetWithRefreshAhead`: stop the ticker registered for
`key`, if there is one. -/
def stopPrevious {σ V : Type} (key : String) (w : World σ V) : World σ V :=
  match find key w.refreshers with
  | some id =>
    { w with tickers := stopAt id w.tickers, trace := w.trace ++ [Event.tickerStop id] }
  | none => w

/-- `CacheService.SetWithRefreshAhead`. -/
def SetWithRefreshAhead {σ V : Type} (J : Codec V) (key : String)
    (refreshFunc : σ → Except Error V × σ) (ttl refreshBefore : Duration) (w : World σ V) :
    Option Error × World σ V :=
  let w1 := stopPrevious key w
  match callFetch refreshFunc w1 with
  | (Except.error err, w2) => (some err, w2)
  | (Except.ok data, w2) =>
    match J.marshal data with
    | Except.error err => (some err, w2)
    | Except.ok jsonData =>
      match rdbSet key jsonData ttl w2 with
      | (some err, w3) => (some err, w3)
      | (none, w3) =>
        let refreshInterval := durSub ttl refreshBefore
        if refreshInterval > 0 then
          let id := w3.tickers.length
          (none,
            { w3 with
              tickers := w3.tickers ++ [⟨refreshInterval, true⟩]
              refreshers := put key id w3.refreshers
              routines := w3.routines ++ [⟨id, key, refreshFunc, ttl⟩]
              trace := w3.trace ++ [Event.tickerNew id refreshInterval] })
        else (none, w3)

/-- Whether `key` is registered with a ticker that has not been stopped. -/
def activeSchedule {σ V : Type} (key : String) (w : World σ V) : Bool :=
  match find key w.refreshers with
  | none => false
  | some id =>
    match w.tickers[id]? with
    | none => false
    | some t => t.active

/-- The loop of `CacheService.SetWithTags` over the remaining tags. -/
def tagLoop {σ V : Type} (key : String) (expiration : Duration) :
    List String → World σ V → Option Error × World σ V
  | [], w => (none, w)
  | tag :: rest, w =>
    let tagKey := "tag:" ++ tag
    match rdbSAdd tagKey key w with
    | (some err, w1) => (some err, w1)
    | (none, w1) =>
      let w2 := if expiration > 0 then (rdbExpire tagKey expiration w1).2 else w1
      tagLoop key expiration rest w2

/-- `CacheService.SetWithTags`. -/
def SetWithTags {σ V : Type} (J : Codec V) (key : String) (value : V) (expiration : Duration)
    (tags : List String) (w : World σ V) : Option Error × World σ V :=
  match Set J key value expiration w with
  | (some err, w1) => (some err, w1)
  | (none, w1) => tagLoop key expiration tags w1

/-- `CacheService.InvalidateByTag`. -/
def InvalidateByTag {σ V : Type} (tag : String) (w : World σ V) : Option Error × World σ V :=
  let tagKey := "tag:" ++ tag
  match rdbSMembers tagKey w with
  | (Except.error err, w1) => (some err, w1)
  | (Except.ok keys, w1) =>
    match (if keys.length > 0 then rdbDel keys w1 else (none, w1)) with
    | (some err, w2) => (some err, w2)
    | (none, w2) => rdbDel [tagKey] w2

/-- Whether the characters `s` match the glob pattern `p` of the `KEYS` command, for
patterns made of literal characters, `?` and `*`. `anySuffix f s` holds when `f`
accepts some suffix of `s`. -/
def anySuffix (f : List Char → Bool) : List Char → Bool
  | [] => f []
  | c :: cs => f (c :: cs) || anySuffix f cs

/-- Glob matching of `KEYS`: `*` stands for any run of characters, `?` for any one
character, every other character for itself. -/
def globMatch : List Char → List Char → Bool
  | [], s => s.isEmpty
  | '*' :: ps, s => anySuffix (globMatch ps) s
  | _ :: _, [] => false
  | p :: ps, c :: cs => (p == '?' || p == c) && globMatch ps cs

/-- The command `c.rdb.Keys(c.ctx, pattern).Result()`. -/
def rdbKeys {σ V : Type} (pattern : String) (w : World σ V) :
    Except Error (List String) × World σ V :=
  match issue (Cmd.keys pattern) w with
  | (some e, w1) => (Except.error e, w1)
  | (none, w1) =>
    (Except.ok ((w1.store.map Prod.fst).filter (fun k => globMatch pattern.data k.data)), w1)

/-- The command `c.rdb.Publish(c.ctx, channel, payload).Err()`. -/
def rdbPublish {σ V : Type} (channel payload : String) (w : World σ V) :
    Option Error × World σ V :=
  issue (Cmd.publish channel payload) w

/-- The call `c.rdb.Close()`: closing a closed client is an error. -/
def rdbClose {σ V : Type} (w : World σ V) : Option Error × World σ V :=
  if w.closed then (some Error.clientClosed, w) else (none, { w with closed := true })

/-- `NewCacheService`: a client for the server that holds `store` and fails commands
after `faults`, an empty registry, and the connection test `Ping`, whose failure is
only logged. -/
def NewCacheService {σ V : Type} (store : List (String × Entry)) (faults : List (Option String))
    (src : σ) : World σ V :=
  (issue Cmd.ping
    { store := store, closed := false, faults := faults, refreshers := [], tickers := [],
      routines := [], src := src, trace := [] }).2

/-- `CacheService.DeletePattern`. -/
def DeletePattern {σ V : Type} (pattern : String) (w : World σ V) : Option Error × World σ V :=
  match rdbKeys pattern w with
  | (Except.error err, w1) => (some err, w1)
  | (Except.ok keys, w1) =>
    if keys.length > 0 then rdbDel keys w1 else (none, w1)

/-- The loop of `CacheService.Close` over the registry: `ticker.Stop()` on every
registered ticker. -/
def stopAll {σ V : Type} : List (String × Nat) → World σ V → World σ V
  | [], w => w
  | (_, id) :: rest, w =>
    stopAll rest
      { w with tickers := stopAt id w.tickers, trace := w.trace ++ [Event.tickerStop id] }

/-- `CacheService.Close`. -/
def Close {σ V : Type} (w : World σ V) : Option Error × World σ V :=
  let w1 := stopAll w.refreshers w
  let w2 := { w1 with refreshers := [] }
  rdbClose w2

/-- The body of the loop `for range ticker.C` in the goroutine of
`SetWithRefreshAhead`: one refresh. -/
def refreshBody {σ V : Type} (J : Codec V) (r : Routine σ V) (w : World σ V) : World σ V :=
  match callFetch r.refreshFunc w with
  | (Except.ok newData, w1) =>
    match J.marshal newData with
    | Except.ok newJsonData => (rdbSet r.key newJsonData r.ttl w1).2
    | Except.error _ => w1
  | (Except.error _, w1) => w1

/-- Whether the ticker with identity `id` exists and has not been stopped. -/
def tickerActive {σ V : Type} (id : Nat) (w : World σ V) : Bool :=
  match w.tickers[id]? with
  | some t => t.active
  | none => false

/-- One firing of the `i`-th goroutine: its ticker, if active, delivers a tick and
the loop body runs once. -/
def tick {σ V : Type} (J : Codec V) (i : Nat) (w : World σ V) : World σ V :=
  match w.routines[i]? with
  | some r => if tickerActive r.ticker w then refreshBody J r w else w
  | none => w

/-- The counter increment `metrics.RecordCacheInvalidation(label)`. -/
def RecordCacheInvalidation {σ V : Type} (label : String) (w : World σ V) : World σ V :=
  { w with trace := w.trace ++ [Event.metric "cache_invalidations_total" label] }

/-- `CacheService.InvalidateWithStrategy`. -/
def InvalidateWithStrategy {σ V : Type} (cacheType : String) (w : World σ V) :
    Option Error × World σ V :=
  let w0 := RecordCacheInvalidation cacheType w
  if cacheType = "bestsellers" then Delete "bestsellers" w0
  else if cacheType = "recommendations" then DeletePattern "recommendations:*" w0
  else if cacheType = "flash-sales" then
    match Delete "flash_sales" w0 with
    | (some err, w1) => (some err, w1)
    | (none, w1) => rdbPublish "cache_invalidated" "flash_sales" w1
  else if cacheType = "profile" then DeletePattern "profile:*" w0
  else Delete cacheType w0

/-- A call of the cache in a run of the service. -/
inductive Call (σ V : Type) where
  | setWithRefreshAhead (key : String) (refreshFunc : σ → Except Error V × σ)
      (ttl refreshBefore : Duration)
  | close

/-- Carries out one call. -/
def Call.run {σ V : Type} (J : Codec V) : Call σ V → World σ V → World σ V
  | Call.setWithRefreshAhead key refreshFunc ttl refreshBefore, w =>
    (SetWithRefreshAhead J key refreshFunc ttl refreshBefore w).2
  | Call.close, w => (Close w).2

/-- Carries out a sequence of calls, one after the other. -/
def runCalls {σ V : Type} (J : Codec V) : List (Call σ V) → World σ V → World σ V
  | [], w => w
  | c :: rest, w => runCalls J rest (c.run J w)

/-- The schedules created for `key` that are still active: the positions of the
goroutines that were started for `key` and whose ticker has not been stopped. -/
def activeSchedules {σ V : Type} (key : String) (w : World σ V) : List Nat :=
  (List.range w.routines.length).filter (fun i =>
    match w.routines[i]? with
    | some r => r.key == key && tickerActive r.ticker w
    | none => false)

/-- The registry invariant of `CacheService`: goroutines and tickers are created
together, the `i`-th goroutine listens to the `i`-th ticker, and a ticker that is
still active is the one registered for the key of its goroutine. -/
def RegistryInv {σ V : Type} (w : World σ V) : Prop :=
  w.routines.length = w.tickers.length ∧
  (∀ (i : Nat) (r : Routine σ V), w.routines[i]? = some r → r.ticker = i) ∧
  (∀ (i : Nat) (r : Routine σ V), w.routines[i]? = some r → tickerActive i w = true →
    find r.key w.refreshers = some i)

/-- The state after one successful round of the loop of `SetWithTags` for `tag`. -/
def afterTag {σ V : Type} (key : String) (expiration : Duration) (tag : String)
    (w : World σ V) : World σ V :=
  if expiration > 0 then
    (rdbExpire ("tag:" ++ tag) expiration (rdbSAdd ("tag:" ++ tag) key w).2).2
  else (rdbSAdd ("tag:" ++ tag) key w).2

/-- The state in which `SetWithTags` enters its loop: the entry has been stored. -/
def afterSet {σ V : Type} (key data : String) (expiration : Duration) (w : World σ V) :
    World σ V :=
  { (issue (Cmd.set key data expiration) w).2 with
    store := put key ⟨RValue.str data, expiration⟩ w.store }

/-- What a caller of `GetWithCacheAside` knows after its read of the cache: the call
is over (hit, or read error), or the key is missing and the caller goes on to fetch. -/
inductive ReadOutcome (V : Type) where
  | done (err : Option Error) (dest : V)
  | miss

/-- The first part of `GetWithCacheAside`: the read of the cache and what follows
from it without the source of truth (the hit path and the read-error path). -/
def cacheAsideRead {σ V : Type} (J : Codec V) (key : String) (dest : V) (w : World σ V) :
    ReadOutcome V × World σ V :=
  match rdbGet key w with
  | (Except.error Error.redisNil, w1) => (ReadOutcome.miss, RecordCacheMiss "cache-aside" w1)
  | (Except.error err, w1) => (ReadOutcome.done (some err) dest, w1)
  | (Except.ok val, w1) =>
    (ReadOutcome.done (J.unmarshal val dest).2 (J.unmarshal val dest).1,
      RecordCacheHit "cache-aside" w1)

/-- The second part of `GetWithCacheAside`, for a caller that missed: fetch, encode,
write to the cache, decode into `dest`. -/
def cacheAsideFinish {σ V : Type} (J : Codec V) (key : String) (dest : V)
    (fetchFunc : σ → Except Error V × σ) (ttl : Duration) :
    ReadOutcome V → World σ V → Option Error × V × World σ V
  | ReadOutcome.done err d, w => (err, d, w)
  | ReadOutcome.miss, w =>
    match callFetch fetchFunc w with
    | (Except.error err, w3) => (some err, dest, w3)
    | (Except.ok data, w3) =>
      match J.marshal data with
      | Except.error err => (some err, dest, w3)
      | Except.ok jsonData =>
        ((J.unmarshal jsonData dest).2, (J.unmarshal jsonData dest).1,
          (rdbSet key jsonData ttl w3).2)

/-- The calls of `n` callers of `GetWithCacheAside` for the same key, one after the
other: what each caller gets, and the final state. -/
def sequentialCalls {σ V : Type} (J : Codec V) (key : String) (dest : V)
    (fetchFunc : σ → Except Error V × σ) (ttl : Duration) :
    Nat → World σ V → List (Option Error × V) × World σ V
  | 0, w => ([], w)
  | n + 1, w =>
    let r := GetWithCacheAside J key dest fetchFunc ttl w
    let rest := sequentialCalls J key dest fetchFunc ttl n r.2.2
    ((r.1, r.2.1) :: rest.1, rest.2)

/-- The reads of `n` concurrent callers, all before any of them goes on. -/
def readAll {σ V : Type} (J : Codec V) (key : String) (dest : V) :
    Nat → World σ V → List (ReadOutcome V) × World σ V
  | 0, w => ([], w)
  | n + 1, w =>
    let r := cacheAsideRead J key dest w
    let rest := readAll J key dest n r.2
    (r.1 :: rest.1, rest.2)

/-- The second parts of concurrent callers, in the order of their reads. -/
def finishAll {σ V : Type} (J : Codec V) (key : String) (dest : V)
    (fetchFunc : σ → Except Error V × σ) (ttl : Duration) :
    List (ReadOutcome V) → World σ V → List (Option Error × V) × World σ V
  | [], w => ([], w)
  | o :: os, w =>
    let r := cacheAsideFinish J key dest fetchFunc ttl o w
    let rest := finishAll J key dest fetchFunc ttl os r.2.2
    ((r.1, r.2.1) :: rest.1, rest.2)

/-- An interleaving of `n` concurrent calls of `GetWithCacheAside` for the same key in
which every caller has read the cache before the first caller writes to it. -/
def overlappedCalls {σ V : Type} (J : Codec V) (key : String) (dest : V)
    (fetchFunc : σ → Except Error V × σ) (ttl : Duration) (n : Nat) (w : World σ V) :
    List (Option Error × V) × World σ V :=
  finishAll J key dest fetchFunc ttl (readAll J key dest n w).1 (readAll J key dest n w).2

/-- The state after the miss path of `GetWithCacheAside` has written `data`. -/
def afterMiss {σ V : Type} (key : String) (fetchFunc : σ → Except Error V × σ)
    (data : String) (ttl : Duration) (w : World σ V) : World σ V :=
  { (issue (Cmd.set key data ttl)
      (callFetch fetchFunc (RecordCacheMiss "cache-aside" (issue (Cmd.get key) w).2)).2).2 with
    store := put key ⟨RValue.str data, ttl⟩ w.store }

/-- `CacheService.GetTTLForDataType`. -/
def GetTTLForDataType (dataType : String) : Duration :=
  if dataType = "bestsellers" then 1 * Hour
  else if dataType = "recommendations" then 1 * Hour
  else if dataType = "flash_sales" then 5 * Minute
  else if dataType = "user_profile" then 30 * Minute
  else if dataType = "top_comments" then 2 * Hour
  else if dataType = "cart" then 10 * Minute
  else 5 * Minute

/-- `CacheService.GetBestsellersWithRefreshAhead`: the returned error, the returned
value and the state afterwards. `zero` is the nil value of the variable `result`. -/
def GetBestsellersWithRefreshAhead {σ V : Type} (J : Codec V) (zero : V)
    (fetchFunc : σ → Except Error V × σ) (w : World σ V) : Option Error × V × World σ V :=
  let key := "bestsellers"
  let ttl := GetTTLForDataType "bestsellers"
  let refreshBefore := 10 * Minute
  match Get J key zero w with
  | (none, result, w1) => (none, result, w1)
  | (some _, result, w1) =>
    match SetWithRefreshAhead J key fetchFunc ttl refreshBefore w1 with
    | (some err, w2) => (some err, zero, w2)
    | (none, w2) => Get J key result w2

/-! ## Auxiliary definitions for the statements -/

/-- The reply `GET` gives on a table when the client carries the command out. -/
def getReply (key : String) (s : List (String × Entry)) : Except Error String :=
  match find key s with
  | none => Except.error Error.redisNil
  | some ⟨RValue.str d, _⟩ => Except.ok d
  | some ⟨RValue.set _, _⟩ => Except.error Error.wrongType

/-- Times to live are kept from the table `s` to the table `t`: a key bound in `s` is
bound in `t` with the same time to live, and a key that is new in `t` has none. -/
def KeepsTTL (s t : List (String × Entry)) : Prop :=
  ∀ k, (∀ e, find k s = some e → ∃ e', find k t = some e' ∧ e'.expiration = e.expiration) ∧
    (find k s = none → ∀ e', find k t = some e' → e'.expiration = 0)

/-- The reply `KEYS pattern` gives on a table when the client carries the command
out: the keys of the table that match the pattern. -/
def keysReply (pattern : String) (s : List (String × Entry)) : List String :=
  (s.map Prod.fst).filter (fun k => globMatch pattern.data k.data)

/-- The reply `SMEMBERS` gives on a table when the client carries the command out. -/
def smembersReply (key : String) (s : List (String × Entry)) : Except Error (List String) :=
  match find key s with
  | none => Except.ok []
  | some ⟨RValue.set ms, _⟩ => Except.ok ms
  | some ⟨RValue.str _, _⟩ => Except.error Error.wrongType

/-- The state in which `SetWithRefreshAhead` sends its `SET`: the previous ticker
is stopped and `refreshFunc` has run. -/
def afterRefresh {σ V : Type} (key : String) (refreshFunc : σ → Except Error V × σ)
    (w : World σ V) : World σ V :=
  (callFetch refreshFunc (stopPrevious key w)).2

/-- The state `SetWithRefreshAhead` reaches after a successful `SET` of `data`. -/
def afterStore {σ V : Type} (key : String) (refreshFunc : σ → Except Error V × σ)
    (data : String) (ttl : Duration) (w : World σ V) : World σ V :=
  { (issue (Cmd.set key data ttl) (afterRefresh key refreshFunc w)).2 with
    store := put key ⟨RValue.str data, ttl⟩ w.store }

/-! ## A concrete instance for evaluation -/

/-- A codec on strings: the empty string has no encoding, the encoding of any
other string is the string after a hash sign, and only data that starts
with a hash sign decodes. -/
def demoCodec : Codec String where
  marshal v :=
    if v = "" then Except.error (Error.json "unsupported value")
    else Except.ok (String.mk ('#' :: v.data))
  unmarshal data dest :=
    match data.data with
    | '#' :: cs => (String.mk cs, none)
    | _ => (dest, some (Error.json "invalid character"))

/-- A source of truth holding one counter: every fetch returns the name of the
current count and advances it. -/
def demoFetch (n : Nat) : Except Error String × Nat :=
  (Except.ok (if n = 0 then "v0" else "v1"), n + 1)

/-- A fetch that always fails. -/
def failFetch (n : Nat) : Except Error String × Nat :=
  (Except.error (Error.source "db down"), n)

/-- A write that is rejected. -/
def failWrite (_ : String) (n : Nat) : Option Error × Nat :=
  (some (Error.source "constraint violated"), n)

/-- An open client with an empty fault script over the given table. -/
def demoWorld (store : List (String × Entry)) : World Nat String :=
  { store := store, closed := false, faults := [], refreshers := [], tickers := [],
    routines := [], src := 0, trace := [] }

/-! ## A fragment of `encoding/json` on integers -/

/-- What an `interface{}` holds in the round-trip example: nothing, an `int64`, or a
`float64` whose value is the integer `n`. -/
inductive GoValue where
  | null
  | int64 (n : Int)
  | float64 (n : Int)
  deriving DecidableEq, Repr

/-- The number of binary digits of `n`, for numbers of at most `fuel` digits. -/
def bitLength : Nat → Nat → Nat
  | 0, _ => 0
  | fuel + 1, n => if n = 0 then 0 else bitLength fuel (n / 2) + 1

/-- The `float64` nearest to the natural number `m` (below `2 ^ 128`): the
significand holds 53 binary digits, the digits below are rounded away, a tie goes to
the even significand. -/
def roundFloat64 (m : Nat) : Nat :=
  let unit := 2 ^ (bitLength 128 m - 53)
  let q := m / unit
  let r := m % unit
  if 2 * r < unit then q * unit
  else if unit < 2 * r then (q + 1) * unit
  else if q % 2 = 0 then q * unit
  else (q + 1) * unit

/-- Reads decimal digits. -/
def parseDigits : List Char → Nat → Option Nat
  | [], acc => some acc
  | c :: cs, acc => if c.isDigit then parseDigits cs (10 * acc + (c.toNat - 48)) else none

/-- Reads the digits of a JSON integer: no empty number and no leading zero. -/
def parseNatural (ds : List Char) : Option Nat :=
  match ds with
  | [] => none
  | ['0'] => some 0
  | '0' :: _ => none
  | _ => parseDigits ds 0

/-- What `json.Unmarshal` stores into an `interface{}` for a JSON integer: every JSON
number becomes the nearest `float64`. -/
def parseInteger (cs : List Char) : Option Int :=
  match cs with
  | '-' :: ds => (parseNatural ds).map (fun m => -(roundFloat64 m : Int))
  | ds => (parseNatural ds).map (fun m => (roundFloat64 m : Int))

/-- The codec `encoding/json` on the values `GoValue`, with a destination of type
`interface{}`, for integers of less than 22 decimal digits. `json.Marshal` writes an
`int64` in decimal, and a `float64` that holds an integer in decimal as well;
`json.Unmarshal` stores `nil` for `null` and a `float64` for a number. Documents
other than `null` and the integer literals are outside the fragment: for them the
codec leaves `dest` as it is and reports an error, as `json.Unmarshal` does for data
that is not JSON. -/
def jsonInterface : Codec GoValue where
  marshal v :=
    match v with
    | GoValue.null => Except.ok "null"
    | GoValue.int64 n => Except.ok (toString n)
    | GoValue.float64 n =>
      if n.natAbs < 10 ^ 21 then Except.ok (toString n)
      else Except.error (Error.json "outside the fragment")
  unmarshal data dest :=
    if data = "null" then (GoValue.null, none)
    else
      match parseInteger data.data with
      | some n => (GoValue.float64 n, none)
      | none => (dest, some (Error.json "outside the fragment"))

/-- An open client with an empty table and an empty fault script, for `GoValue`. -/
def goWorld : World Nat GoValue :=
  { store := [], closed := false, faults := [], refreshers := [], tickers := [],
    routines := [], src := 0, trace := [] }

/-- A source of truth for `GoValue` that counts the fetches. -/
def goFetch (n : Nat) : Except Error GoValue × Nat := (Except.ok GoValue.null, n + 1)

end Cache

/-! # The broadcast hub of `ecommerce_demo/main.go` -/

namespace Hub

/-- A `WSClient` as the hub sees it: the content of its channel `send` (oldest
message first), the buffer size of that channel, whether the channel has been
closed, and `live`, which says whether the client is a key of the map `h.clients`.
A channel of capacity 0 counts as full. -/
structure WSClient where
  send : List String
  capacity : Nat
  closed : Bool
  userID : Nat
  live : Bool
  deriving DecidableEq, Repr

/-- A `WSHub`: every client that exists, by identity (position in the list), and
whether the goroutine of `run` has panicked (after which it processes nothing). -/
structure WSHub where
  clients : List WSClient
  panicked : Bool
  deriving DecidableEq, Repr

/-- Applies `f` to the client with identity `i`. -/
def adjust (f : WSClient → WSClient) : Nat → List WSClient → List WSClient
  | _, [] => []
  | 0, c :: cs => f c :: cs
  | n + 1, c :: cs => c :: adjust f n cs

/-- The case `client := <-h.register` of `WSHub.run`. -/
def registerStep (client : Nat) (h : WSHub) : WSHub :=
  if h.panicked then h
  else { h with clients := adjust (fun c => { c with live := true }) client h.clients }

/-- The case `client := <-h.unregister` of `WSHub.run`; closing a closed channel
panics. -/
def unregisterStep (client : Nat) (h : WSHub) : WSHub :=
  if h.panicked then h
  else
    match h.clients[client]? with
    | some c =>
      if c.live then
        if c.closed then { h with panicked := true }
        else
          { h with
            clients := adjust (fun c => { c with live := false, closed := true }) client h.clients }
      else h
    | none => h

/-- The `select` in the loop over `h.clients` in the broadcast case, for a client
whose channel is open: a non-blocking send, or the removal of the client. A client
outside the live set is not visited and stays as it is. -/
def deliver (message : String) (c : WSClient) : WSClient :=
  if c.live then
    if c.send.length < c.capacity then { c with send := c.send ++ [message] }
    else { c with live := false, closed := true }
  else c

/-- The keys of the map `h.clients`: the identities of the clients in the live set,
in ascending order. -/
def liveClients (h : WSHub) : List Nat :=
  (List.range h.clients.length).filter (fun i =>
    match h.clients[i]? with
    | some c => c.live
    | none => false)

/-- One round of the loop over `h.clients` in the broadcast case, for the client
`client`: a send on a closed channel panics, which ends the goroutine; otherwise the
message is sent without blocking or the client is removed. -/
def visit (message : String) (client : Nat) (h : WSHub) : WSHub :=
  if h.panicked then h
  else
    match h.clients[client]? with
    | some c =>
      if c.live && c.closed then { h with panicked := true }
      else { h with clients := adjust (deliver message) client h.clients }
    | none => h

/-- The loop `for client := range h.clients` of the broadcast case, visiting the
clients in the order `order`. Clients visited before a panic have been served, the
clients after it are not visited. -/
def broadcastLoop (message : String) : List Nat → WSHub → WSHub
  | [], h => h
  | client :: rest, h => broadcastLoop message rest (visit message client h)

/-- The case `message := <-h.broadcast` of `WSHub.run`. Go leaves the order in which
`range` visits a map open; this step visits the live clients in the order of their
identities, and `broadcastLoop` does it in any given order. -/
def broadcastStep (message : String) (h : WSHub) : WSHub :=
  broadcastLoop message (liveClients h) h

/-- What `WSHub.run` receives on its three channels. -/
inductive HubEvent where
  | register (client : Nat)
  | unregister (client : Nat)
  | broadcast (message : String)
  deriving DecidableEq, Repr

/-- One round of the `select` of `WSHub.run`. -/
def step : HubEvent → WSHub → WSHub
  | HubEvent.register client, h => registerStep client h
  | HubEvent.unregister client, h => unregisterStep client h
  | HubEvent.broadcast message, h => broadcastStep message h

/-- `WSHub.run` on the events it receives, in the order it receives them. -/
def WSHub.run : List HubEvent → WSHub → WSHub
  | [], h => h
  | e :: rest, h => WSHub.run rest (step e h)

/-- The clients that a sequence of events registers, in the order of the events. -/
def registrations : List HubEvent → List Nat
  | [] => []
  | HubEvent.register client :: rest => client :: registrations rest
  | HubEvent.unregister _ :: rest => registrations rest
  | HubEvent.broadcast _ :: rest => registrations rest

/-- A hub in which `run` is safe: its goroutine has not panicked and every client in
the live set has an open queue. -/
def Safe (h : WSHub) : Prop :=
  h.panicked = false ∧ ∀ (i : Nat) (c : WSClient), h.clients[i]? = some c → c.live = true →
    c.closed = false

/-- The clients `regs` are new to the hub: not in the live set, with an open queue. -/
def Fresh (regs : List Nat) (h : WSHub) : Prop :=
  ∀ i ∈ regs, ∀ (c : WSClient), h.clients[i]? = some c → c.live = false ∧ c.closed = false

end Hub

/-! # The cache and the handlers of `ecommerce_demo/main.go` -/

namespace Demo

open Cache

/-- The bytes a getter goes on with when it ignores the error of `json.Marshal` or of
the read of the cache: the result on success, no bytes otherwise. -/
def bytesOrNone : Except Error String → String
  | Except.ok s => s
  | Except.error _ => ""

/-- The value a getter goes on with when it ignores the error of a database query:
the rows on success, the untouched variable otherwise. -/
def rowsOr {V : Type} (zero : V) : Except Error V → V
  | Except.ok v => v
  | Except.error _ => zero

/-- `CacheService.GetBestsellers` of the demo: the returned error, the returned
products and the state afterwards. `query` is the database query, `zero` the nil
slice. -/
def GetBestsellers {σ V : Type} (J : Codec V) (zero : V) (query : σ → Except Error V × σ)
    (w : World σ V) : Option Error × V × World σ V :=
  match rdbGet "bestsellers" w with
  | (Except.error Error.redisNil, w1) =>
    match callFetch query w1 with
    | (Except.error err, w2) => (some err, zero, w2)
    | (Except.ok products, w2) =>
      (none, products,
        (rdbSet "bestsellers" (bytesOrNone (J.marshal products)) Hour w2).2)
  | (cached, w1) => (none, (J.unmarshal (bytesOrNone cached) zero).1, w1)

/-- `CacheService.GetRecommendations` of the demo. -/
def GetRecommendations {σ V : Type} (J : Codec V) (zero : V) (userID : Nat)
    (query : σ → Except Error V × σ) (w : World σ V) : Option Error × V × World σ V :=
  let cacheKey := "recommendations:user:" ++ toString userID
  match rdbGet cacheKey w with
  | (Except.error Error.redisNil, w1) =>
    let products := rowsOr zero (callFetch query w1).1
    let w2 := (callFetch query w1).2
    let w3 := (rdbSet cacheKey (bytesOrNone (J.marshal products)) Hour w2).2
    let tagKey := "tag:recommendations:user:" ++ toString userID
    let w4 := (rdbSAdd tagKey cacheKey w3).2
    let w5 := (rdbExpire tagKey Hour w4).2
    (none, products, w5)
  | (cached, w1) => (none, (J.unmarshal (bytesOrNone cached) zero).1, w1)

/-- `CacheService.GetFlashSales` of the demo. -/
def GetFlashSales {σ V : Type} (J : Codec V) (zero : V) (query : σ → Except Error V × σ)
    (w : World σ V) : Option Error × V × World σ V :=
  match rdbGet "flash_sales" w with
  | (Except.error Error.redisNil, w1) =>
    match callFetch query w1 with
    | (Except.error err, w2) => (some err, zero, w2)
    | (Except.ok flashSales, w2) =>
      (none, flashSales,
        (rdbSet "flash_sales" (bytesOrNone (J.marshal flashSales)) (5 * Minute) w2).2)
  | (cached, w1) => (none, (J.unmarshal (bytesOrNone cached) zero).1, w1)

/-- `CacheService.GetUserProfile` of the demo; `first userID` is the database query.
The returned `*User` is its content: `zero` is both the nil pointer of the failing
query and the pointer to an empty `User` that the last `return` gives when nothing
was decoded. -/
def GetUserProfile {σ V : Type} (J : Codec V) (zero : V) (userID : Nat)
    (first : Nat → σ → Except Error V × σ) (w : World σ V) : Option Error × V × World σ V :=
  let cacheKey := "user:profile:" ++ toString userID
  match rdbGet cacheKey w with
  | (Except.error Error.redisNil, w1) =>
    match callFetch (first userID) w1 with
    | (Except.error err, w2) => (some err, zero, w2)
    | (Except.ok user, w2) =>
      (none, user, (rdbSet cacheKey (bytesOrNone (J.marshal user)) (30 * Minute) w2).2)
  | (cached, w1) => (none, (J.unmarshal (bytesOrNone cached) zero).1, w1)

/-- `CacheService.GetTopComments` of the demo. -/
def GetTopComments {σ V : Type} (J : Codec V) (zero : V) (query : σ → Except Error V × σ)
    (w : World σ V) : Option Error × V × World σ V :=
  match rdbGet "top_comments" w with
  | (Except.error Error.redisNil, w1) =>
    match callFetch query w1 with
    | (Except.error err, w2) => (some err, zero, w2)
    | (Except.ok comments, w2) =>
      (none, comments,
        (rdbSet "top_comments" (bytesOrNone (J.marshal comments)) (15 * Minute) w2).2)
  | (cached, w1) => (none, (J.unmarshal (bytesOrNone cached) zero).1, w1)

/-- The demo `Server`: the Redis client and the database of its cache, and its hub. -/
structure Server (σ V : Type) where
  cache : World σ V
  hub : Hub.WSHub

/-- `Server.invalidateUserProfileHandler`: the status of the response and the server
afterwards. The handler's `s.cache.rdb` is the Redis client of the cache, and the send
on `s.hub.broadcast` is the broadcast step of the hub. -/
def invalidateUserProfileHandler {σ V : Type} (s : Server σ V) : Nat × Server σ V :=
  let userID := 1
  let cacheKey := "user_profile:" ++ toString userID
  match rdbDel [cacheKey] s.cache with
  | (some _, w1) => (500, { s with cache := w1 })
  | (none, w1) =>
    let message :=
      "\x7b\x22type\x22:\x22profile_updated\x22,\x22user_id\x22:" ++ toString userID ++ "\x7d"
    (200, { cache := w1, hub := Hub.broadcastStep message s.hub })

/-- A database with one row per user: the query returns the name of the row and
counts the queries. -/
def demoFirst (userID : Nat) (n : Nat) : Except Error String × Nat :=
  (Except.ok (if userID = 1 then "alice" else "bob"), n + 1)

end Demo

/-! # The server of `ecommerce_demo/backend/main.go` -/

namespace Backend

/-- The values the server puts into the `Data` map of a message. -/
inductive JValue where
  | str (s : String)
  | time (t : Nat)
  deriving DecidableEq, Repr

/-- The message `models.WSMessage`. -/
structure WSMessage where
  type : String
  data : List (String × JValue)
  deriving DecidableEq, Repr

/-- A `*websocket.Conn` as the server sees it: the messages written to it, whether
`WriteJSON` fails on it, whether it is closed, and `live`, which says whether it is a
key of the map `s.wsClients`. -/
structure Conn where
  written : List WSMessage
  broken : Bool
  closed : Bool
  live : Bool
  deriving DecidableEq, Repr

/-- The `Server`: its cache and every connection that exists. Metrics, log lines and
the HTTP response body are dropped. -/
structure Server (σ V : Type) where
  cache : Cache.World σ V
  wsClients : List Conn

/-- The body of the loop of `broadcastMessage`: `WriteJSON`, and on its error the
connection is closed and removed. -/
def writeTo (message : WSMessage) (conn : Conn) : Conn :=
  if conn.live then
    if conn.broken || conn.closed then { conn with closed := true, live := false }
    else { conn with written := conn.written ++ [message] }
  else conn

/-- `Server.broadcastMessage`. -/
def broadcastMessage {σ V : Type} (msgType : String) (data : List (String × JValue))
    (s : Server σ V) : Server σ V :=
  { s with wsClients := s.wsClients.map (writeTo ⟨msgType, data⟩) }

/-- `Server.invalidateCacheHandler` for the path variable `cacheType`, at time `now`:
the status of the response written by `Handlers.invalidateCacheHandler`, and the
server afterwards. -/
def invalidateCacheHandler {σ V : Type} (cacheType : String) (now : Nat) (s : Server σ V) :
    Nat × Server σ V :=
  let r := Cache.InvalidateWithStrategy cacheType s.cache
  let status := if r.1.isSome then 500 else 200
  (status,
    broadcastMessage "cache_invalidated"
      [("cache", JValue.str cacheType), ("timestamp", JValue.time now),
        ("message", JValue.str "Cache invalidated")]
      { s with cache := r.2 })

/-- A connection that accepts writes. -/
def demoConn : Conn := { written := [], broken := false, closed := false, live := true }

/-- A server with three subscribers. -/
def demoServer : Server Nat String :=
  { cache := Cache.demoWorld [("bestsellers", ⟨Cache.RValue.str "#top", 3600⟩)],
    wsClients := [demoConn, demoConn, demoConn] }

end Backend

namespace Cache

/-! # Properties -/

/-! ## Whole seconds -/

theorem wholeSeconds_arith (d : Int) :
    (1000000000 ≤ d → 0 < d / 1000000000 ∧ d / 1000000000 * 1000000000 ≤ d ∧
      d < d / 1000000000 * 1000000000 + 1000000000) ∧
    (0 < d → d % 1000000000 = 0 → 1000000000 ≤ d ∧ d / 1000000000 * 1000000000 = d) := by
  omega

theorem formatSec_of_ge (dur : Duration) (h : Second ≤ dur) :
    formatSec dur = (dur : Int) / 1000000000 := by
  have h1 : (1000000000 : Int) ≤ dur := h
  unfold formatSec
  rw [if_neg (fun hc => absurd hc.2 (not_lt.mpr h))]
  exact Int.tdiv_eq_ediv (by omega) (by decide)

theorem formatSec_of_lt (dur : Duration) (h0 : dur > 0) (h : dur < Second) :
    formatSec dur = 1 := by
  unfold formatSec
  rw [if_pos ⟨h0, h⟩]

theorem formatSec_pos (dur : Duration) (h : dur > 0) : formatSec dur > 0 := by
  by_cases hlt : dur < Second
  · rw [formatSec_of_lt dur h hlt]
    decide
  · have hge : Second ≤ dur := not_lt.mp hlt
    rw [formatSec_of_ge dur hge]
    exact ((wholeSeconds_arith dur).1 hge).1

theorem formatSec_whole (dur : Duration) (h : dur > 0) (hw : dur % Second = 0) :
    formatSec dur * Second = dur := by
  obtain ⟨hge, heq⟩ := (wholeSeconds_arith dur).2 h hw
  rw [formatSec_of_ge dur hge]
  exact heq

theorem formatSec_truncates (dur : Duration) (h : Second ≤ dur) :
    formatSec dur * Second ≤ dur ∧ dur < formatSec dur * Second + Second := by
  rw [formatSec_of_ge dur h]
  exact ((wholeSeconds_arith dur).1 h).2

/-! ## Tables -/

theorem erase_nil {β : Type} (ks : List String) : erase ks ([] : List (String × β)) = [] := rfl

theorem erase_cons {β : Type} (ks : List String) (k : String) (e : β)
    (s : List (String × β)) :
    erase ks ((k, e) :: s) = if k ∈ ks then erase ks s else (k, e) :: erase ks s := by
  unfold erase
  by_cases hk : k ∈ ks <;> simp [List.filter_cons, hk]

theorem find_erase_of_mem {β : Type} (ks : List String) (k : String) (s : List (String × β))
    (h : k ∈ ks) : find k (erase ks s) = none := by
  induction s with
  | nil => rfl
  | cons p rest ih =>
    obtain ⟨k', e⟩ := p
    rw [erase_cons]
    by_cases hk : k' ∈ ks
    · rw [if_pos hk]; exact ih
    · have hne : ¬ k' = k := fun heq => hk (heq ▸ h)
      rw [if_neg hk]
      simp only [find, hne, if_false]
      exact ih

theorem find_erase_of_not_mem {β : Type} (ks : List String) (k : String)
    (s : List (String × β)) (h : k ∉ ks) : find k (erase ks s) = find k s := by
  induction s with
  | nil => rfl
  | cons p rest ih =>
    obtain ⟨k', e⟩ := p
    rw [erase_cons]
    by_cases hk : k' ∈ ks
    · have hne : ¬ k' = k := fun heq => h (heq ▸ hk)
      rw [if_pos hk]
      simp only [find, hne, if_false]
      exact ih
    · rw [if_neg hk]
      by_cases heq : k' = k
      · simp only [find, heq, if_true]
      · simp only [find, heq, if_false]
        exact ih

theorem find_put_self {β : Type} (k : String) (e : β) (s : List (String × β)) :
    find k (put k e s) = some e := by
  simp [put, find]

theorem find_put_of_ne {β : Type} (k k' : String) (e : β) (s : List (String × β))
    (h : k' ≠ k) : find k' (put k e s) = find k' s := by
  have hne : ¬ k = k' := fun heq => h heq.symm
  simp only [put, find, hne, if_false]
  exact find_erase_of_not_mem [k] k' s (by simpa using h)

theorem erase_eq_self_of_find_none {β : Type} (k : String) (s : List (String × β))
    (h : find k s = none) : erase [k] s = s := by
  induction s with
  | nil => rfl
  | cons p rest ih =>
    obtain ⟨k', e⟩ := p
    by_cases heq : k' = k
    · simp [find, heq] at h
    · simp only [find, heq, if_false] at h
      have hk : k' ∉ [k] := by simpa using heq
      rw [erase_cons, if_neg hk, ih h]

theorem fetchCount_append {V : Type} (a b : List (Event V)) :
    fetchCount (a ++ b) = fetchCount a + fetchCount b := by
  induction a with
  | nil => simp [fetchCount]
  | cons e rest ih =>
    cases e <;> simp [fetchCount, ih]
    omega

/-! ## The client -/

theorem issue_store {σ V : Type} (cmd : Cmd) (w : World σ V) :
    (issue cmd w).2.store = w.store := by
  unfold issue
  cases w.closed <;> cases w.faults <;> simp

theorem issue_trace {σ V : Type} (cmd : Cmd) (w : World σ V) :
    (issue cmd w).2.trace = w.trace ++ [Event.redis cmd] := by
  unfold issue
  cases w.closed <;> cases w.faults <;> simp

theorem issue_src {σ V : Type} (cmd : Cmd) (w : World σ V) :
    (issue cmd w).2.src = w.src := by
  unfold issue
  cases w.closed <;> cases w.faults <;> simp

theorem issue_healthy {σ V : Type} (cmd : Cmd) (n : Nat) (w : World σ V)
    (h : healthy (n + 1) w = true) :
    (issue cmd w).1 = none ∧ healthy n (issue cmd w).2 = true := by
  unfold healthy at h
  unfold issue healthy
  cases hc : w.closed with
  | true => simp [hc] at h
  | false =>
    cases hf : w.faults with
    | nil => simp
    | cons f rest =>
      cases f with
      | none => simpa [hc, hf, List.take_succ_cons] using h
      | some m => simp [hc, hf, List.take_succ_cons] at h

theorem issue_ne_redisNil {σ V : Type} (cmd : Cmd) (w : World σ V) :
    (issue cmd w).1 ≠ some Error.redisNil := by
  unfold issue
  cases w.closed with
  | true => simp
  | false =>
    cases w.faults with
    | nil => simp
    | cons f rest => cases f <;> simp

theorem rdbGet_of_ok {σ V : Type} (key : String) (w : World σ V)
    (h : (issue (Cmd.get key) w).1 = none) :
    rdbGet key w = (getReply key w.store, (issue (Cmd.get key) w).2) := by
  have hs := issue_store (Cmd.get key) w
  unfold rdbGet getReply
  rcases hi : issue (Cmd.get key) w with ⟨r, w1⟩
  rw [hi] at h hs
  simp only at h hs
  subst h
  simp only [hs]
  rcases find key w.store with _ | ⟨v, ex⟩
  · rfl
  · cases v <;> rfl

theorem rdbGet_of_err {σ V : Type} (key : String) (w : World σ V) (e : Error)
    (h : (issue (Cmd.get key) w).1 = some e) :
    rdbGet key w = (Except.error e, (issue (Cmd.get key) w).2) := by
  unfold rdbGet
  rcases hi : issue (Cmd.get key) w with ⟨r, w1⟩
  rw [hi] at h
  simp only at h
  subst h
  rfl

theorem rdbGet_snd {σ V : Type} (key : String) (w : World σ V) :
    (rdbGet key w).2 = (issue (Cmd.get key) w).2 := by
  cases h : (issue (Cmd.get key) w).1 with
  | none => rw [rdbGet_of_ok key w h]
  | some e => rw [rdbGet_of_err key w e h]

theorem rdbSet_of_ok {σ V : Type} (key data : String) (ex : Duration) (w : World σ V)
    (h : (issue (Cmd.set key data ex) w).1 = none) :
    rdbSet key data ex w =
      (none, { (issue (Cmd.set key data ex) w).2 with
                store := put key ⟨RValue.str data, ex⟩ w.store }) := by
  have hs := issue_store (Cmd.set key data ex) w
  unfold rdbSet
  rcases hi : issue (Cmd.set key data ex) w with ⟨r, w1⟩
  rw [hi] at h hs
  simp only at h hs
  subst h
  simp only [hs]

theorem rdbSet_of_err {σ V : Type} (key data : String) (ex : Duration) (w : World σ V)
    (e : Error) (h : (issue (Cmd.set key data ex) w).1 = some e) :
    rdbSet key data ex w = (some e, (issue (Cmd.set key data ex) w).2) := by
  unfold rdbSet
  rcases hi : issue (Cmd.set key data ex) w with ⟨r, w1⟩
  rw [hi] at h
  simp only at h
  subst h
  rfl

theorem rdbSet_fst {σ V : Type} (key data : String) (ex : Duration) (w : World σ V) :
    (rdbSet key data ex w).1 = (issue (Cmd.set key data ex) w).1 := by
  cases h : (issue (Cmd.set key data ex) w).1 with
  | none => rw [rdbSet_of_ok key data ex w h]
  | some e => rw [rdbSet_of_err key data ex w e h]

theorem Get_of_entry {σ V : Type} (J : Codec V) (key : String) (dest : V) (w : World σ V)
    (data : String) (ex : Duration) (hh : healthy 1 w = true)
    (hf : find key w.store = some ⟨RValue.str data, ex⟩) :
    (Get J key dest w).1 = (J.unmarshal data dest).2 ∧
      (Get J key dest w).2.1 = (J.unmarshal data dest).1 := by
  have hi := (issue_healthy (Cmd.get key) 0 w hh).1
  unfold Get
  rw [rdbGet_of_ok key w hi]
  simp [getReply, hf]

/-! ## Write-through -/

/-- C1: when `writeFunc(value)` returns an error, `SetWithWriteThrough` returns that
error, the store is exactly the store before the call, and no command reached
Redis: the only event of the call is the one invocation of `writeFunc`. -/
theorem SetWithWriteThrough_write_error {σ V : Type} (J : Codec V) (key : String) (value : V)
    (writeFunc : V → σ → Option Error × σ) (ttl : Duration) (w : World σ V) (e : Error)
    (h : (writeFunc value w.src).1 = some e) :
    (SetWithWriteThrough J key value writeFunc ttl w).1 = some e ∧
      (SetWithWriteThrough J key value writeFunc ttl w).2.store = w.store ∧
      (SetWithWriteThrough J key value writeFunc ttl w).2.trace =
        w.trace ++ [Event.write value] := by
  unfold SetWithWriteThrough callWrite
  simp [h]

theorem SetWithWriteThrough_write_error_witness :
    (failWrite "v" (demoWorld [("k", ⟨RValue.str "old", 7⟩)]).src).1
        = some (Error.source "constraint violated") ∧
      ((SetWithWriteThrough demoCodec "k" "v" failWrite 5
            (demoWorld [("k", ⟨RValue.str "old", 7⟩)])).1
          = some (Error.source "constraint violated") ∧
        (SetWithWriteThrough demoCodec "k" "v" failWrite 5
            (demoWorld [("k", ⟨RValue.str "old", 7⟩)])).2.store
          = (demoWorld [("k", ⟨RValue.str "old", 7⟩)]).store ∧
        (SetWithWriteThrough demoCodec "k" "v" failWrite 5
            (demoWorld [("k", ⟨RValue.str "old", 7⟩)])).2.trace
          = (demoWorld [("k", ⟨RValue.str "old", 7⟩)]).trace ++ [Event.write "v"]) :=
  ⟨by decide,
    SetWithWriteThrough_write_error demoCodec "k" "v" failWrite 5
      (demoWorld [("k", ⟨RValue.str "old", 7⟩)]) (Error.source "constraint violated")
      (by decide)⟩

theorem GetWithCacheAside_of_error {σ V : Type} (J : Codec V) (key : String) (dest : V)
    (fetchFunc : σ → Except Error V × σ) (ttl : Duration) (w : World σ V) (e : Error)
    (hr : (rdbGet key w).1 = Except.error e) (hne : e ≠ Error.redisNil) :
    GetWithCacheAside J key dest fetchFunc ttl w =
      (some e, dest, (issue (Cmd.get key) w).2) := by
  have hs := rdbGet_snd key w
  unfold GetWithCacheAside
  rcases hg : rdbGet key w with ⟨res, w1⟩
  rw [hg] at hr hs
  simp only at hr hs
  subst hr hs
  cases e <;> first | exact absurd rfl hne | rfl

theorem GetWithCacheAside_of_ok {σ V : Type} (J : Codec V) (key : String) (dest : V)
    (fetchFunc : σ → Except Error V × σ) (ttl : Duration) (w : World σ V) (val : String)
    (hr : (rdbGet key w).1 = Except.ok val) :
    GetWithCacheAside J key dest fetchFunc ttl w =
      ((J.unmarshal val dest).2, (J.unmarshal val dest).1,
        RecordCacheHit "cache-aside" (issue (Cmd.get key) w).2) := by
  have hs := rdbGet_snd key w
  unfold GetWithCacheAside
  rcases hg : rdbGet key w with ⟨res, w1⟩
  rw [hg] at hr hs
  simp only at hr hs
  subst hr hs
  rfl

theorem GetWithCacheAside_of_nil {σ V : Type} (J : Codec V) (key : String) (dest : V)
    (fetchFunc : σ → Except Error V × σ) (ttl : Duration) (w : World σ V)
    (hr : (rdbGet key w).1 = Except.error Error.redisNil) :
    GetWithCacheAside J key dest fetchFunc ttl w =
      match callFetch fetchFunc (RecordCacheMiss "cache-aside" (issue (Cmd.get key) w).2) with
      | (Except.error err, w3) => (some err, dest, w3)
      | (Except.ok data, w3) =>
        match J.marshal data with
        | Except.error err => (some err, dest, w3)
        | Except.ok jsonData =>
          ((J.unmarshal jsonData dest).2, (J.unmarshal jsonData dest).1,
            (rdbSet key jsonData ttl w3).2) := by
  have hs := rdbGet_snd key w
  unfold GetWithCacheAside
  rcases hg : rdbGet key w with ⟨res, w1⟩
  rw [hg] at hr hs
  simp only at hr hs
  subst hr hs
  rfl

theorem rdbGet_nil_of_absent {σ V : Type} (key : String) (w : World σ V)
    (hh : healthy 1 w = true) (hk : find key w.store = none) :
    (rdbGet key w).1 = Except.error Error.redisNil := by
  rw [rdbGet_of_ok key w (issue_healthy (Cmd.get key) 0 w hh).1]
  simp [getReply, hk]

theorem rdbGet_ne_nil_of_present {σ V : Type} (key : String) (w : World σ V) (en : Entry)
    (hk : find key w.store = some en) :
    (rdbGet key w).1 ≠ Except.error Error.redisNil := by
  cases hi : (issue (Cmd.get key) w).1 with
  | none =>
    rw [rdbGet_of_ok key w hi]
    obtain ⟨v, ex⟩ := en
    cases v <;> simp [getReply, hk]
  | some e =>
    rw [rdbGet_of_err key w e hi]
    intro h
    simp only [Except.error.injEq] at h
    exact issue_ne_redisNil (Cmd.get key) w (h ▸ hi)

theorem rdbSet_trace {σ V : Type} (key data : String) (ex : Duration) (w : World σ V) :
    (rdbSet key data ex w).2.trace = w.trace ++ [Event.redis (Cmd.set key data ex)] := by
  cases h : (issue (Cmd.set key data ex) w).1 with
  | none => rw [rdbSet_of_ok key data ex w h]; exact issue_trace _ w
  | some e => rw [rdbSet_of_err key data ex w e h]; exact issue_trace _ w

theorem GetWithCacheAside_fetchCount_of_nil {σ V : Type} (J : Codec V) (key : String)
    (dest : V) (fetchFunc : σ → Except Error V × σ) (ttl : Duration) (w : World σ V)
    (hr : (rdbGet key w).1 = Except.error Error.redisNil) :
    fetchCount (GetWithCacheAside J key dest fetchFunc ttl w).2.2.trace =
      fetchCount w.trace + 1 := by
  rw [GetWithCacheAside_of_nil J key dest fetchFunc ttl w hr]
  unfold callFetch
  split
  · rename_i err w3 heq
    simp only [Prod.mk.injEq] at heq
    obtain ⟨_, rfl⟩ := heq
    simp [RecordCacheMiss, issue_trace, fetchCount_append, fetchCount]
  · rename_i data w3 heq
    simp only [Prod.mk.injEq] at heq
    obtain ⟨_, rfl⟩ := heq
    split
    · simp [RecordCacheMiss, issue_trace, fetchCount_append, fetchCount]
    · simp [rdbSet_trace, RecordCacheMiss, issue_trace, fetchCount_append, fetchCount]

theorem healthy_of_succ {σ V : Type} (n : Nat) (w : World σ V) (h : healthy (n + 1) w = true) :
    healthy n w = true := by
  unfold healthy at h ⊢
  simp only [Bool.and_eq_true, List.all_eq_true] at h ⊢
  exact ⟨h.1, fun x hx => h.2 x (List.take_subset_take_left w.faults (Nat.le_succ n) hx)⟩

/-- C3: on a key that is absent from the store, with a client that carries out the
read and the write, a `fetchFunc` that succeeds with `d` and an encoding `data` of
`d`: `GetWithCacheAside` runs `fetchFunc` exactly once (the call is the read, the
miss counter, the fetch and the write `SET key data ttl`, in this order), leaves
`key` bound to `data` with time to live `ttl` and every other key as before, and
puts into `dest` and returns what decoding `data` into `dest` gives, so no error
when `data` decodes. -/
theorem GetWithCacheAside_miss {σ V : Type} (J : Codec V) (key : String) (dest : V)
    (fetchFunc : σ → Except Error V × σ) (ttl : Duration) (w : World σ V) (d : V)
    (data : String) (hh : healthy 2 w = true) (hk : find key w.store = none)
    (hf : (fetchFunc w.src).1 = Except.ok d) (hm : J.marshal d = Except.ok data) :
    fetchCount (GetWithCacheAside J key dest fetchFunc ttl w).2.2.trace =
        fetchCount w.trace + 1 ∧
      (GetWithCacheAside J key dest fetchFunc ttl w).2.2.trace =
        w.trace ++ [Event.redis (Cmd.get key), Event.metric "cache_misses_total" "cache-aside",
          Event.fetch, Event.redis (Cmd.set key data ttl)] ∧
      find key (GetWithCacheAside J key dest fetchFunc ttl w).2.2.store =
        some ⟨RValue.str data, ttl⟩ ∧
      (∀ k, k ≠ key →
        find k (GetWithCacheAside J key dest fetchFunc ttl w).2.2.store = find k w.store) ∧
      (GetWithCacheAside J key dest fetchFunc ttl w).2.1 = (J.unmarshal data dest).1 ∧
      (GetWithCacheAside J key dest fetchFunc ttl w).1 = (J.unmarshal data dest).2 ∧
      ((J.unmarshal data dest).2 = none →
        (GetWithCacheAside J key dest fetchFunc ttl w).1 = none) := by
  have h1 := issue_healthy (Cmd.get key) 1 w hh
  have hr := rdbGet_nil_of_absent key w (healthy_of_succ 1 w hh) hk
  rw [GetWithCacheAside_of_nil J key dest fetchFunc ttl w hr]
  have hsrc : (RecordCacheMiss "cache-aside" (issue (Cmd.get key) w).2).src = w.src := by
    simp [RecordCacheMiss, issue_src]
  unfold callFetch
  simp only [hsrc, hf, hm]
  have h3 : (issue (Cmd.set key data ttl)
      { RecordCacheMiss "cache-aside" (issue (Cmd.get key) w).2 with
        src := (fetchFunc w.src).2
        trace := (RecordCacheMiss "cache-aside" (issue (Cmd.get key) w).2).trace ++
          [Event.fetch] }).1 = none :=
    (issue_healthy _ 0 _ (by simpa [healthy, RecordCacheMiss] using h1.2)).1
  rw [rdbSet_of_ok _ _ _ _ h3]
  have htr : ({ (issue (Cmd.set key data ttl)
      { RecordCacheMiss "cache-aside" (issue (Cmd.get key) w).2 with
        src := (fetchFunc w.src).2
        trace := (RecordCacheMiss "cache-aside" (issue (Cmd.get key) w).2).trace ++
          [Event.fetch] }).2 with
        store := put key ⟨RValue.str data, ttl⟩
          (RecordCacheMiss "cache-aside" (issue (Cmd.get key) w).2).store } :
        World σ V).trace =
      w.trace ++ [Event.redis (Cmd.get key), Event.metric "cache_misses_total" "cache-aside",
          Event.fetch, Event.redis (Cmd.set key data ttl)] := by
    simp [issue_trace, RecordCacheMiss]
  refine ⟨?_, htr, ?_, ?_, trivial, trivial, fun h => h⟩
  · rw [htr, fetchCount_append]
    simp [fetchCount]
  · simp [RecordCacheMiss, issue_store, find_put_self]
  · intro k hne
    simp [RecordCacheMiss, issue_store, find_put_of_ne key k _ _ hne]

theorem GetWithCacheAside_miss_witness :
    healthy 2 (demoWorld [("other", ⟨RValue.str "x", 0⟩)]) = true ∧
    find "k" (demoWorld [("other", ⟨RValue.str "x", 0⟩)]).store = none ∧
    (demoFetch (demoWorld [("other", ⟨RValue.str "x", 0⟩)]).src).1 = Except.ok "v0" ∧
    demoCodec.marshal "v0" = Except.ok "#v0" ∧
    (fetchCount (GetWithCacheAside demoCodec "k" "" demoFetch 5
          (demoWorld [("other", ⟨RValue.str "x", 0⟩)])).2.2.trace =
        fetchCount (demoWorld [("other", ⟨RValue.str "x", 0⟩)]).trace + 1 ∧
      (GetWithCacheAside demoCodec "k" "" demoFetch 5
          (demoWorld [("other", ⟨RValue.str "x", 0⟩)])).2.2.trace =
        (demoWorld [("other", ⟨RValue.str "x", 0⟩)]).trace ++
          [Event.redis (Cmd.get "k"), Event.metric "cache_misses_total" "cache-aside",
            Event.fetch, Event.redis (Cmd.set "k" "#v0" 5)] ∧
      find "k" (GetWithCacheAside demoCodec "k" "" demoFetch 5
          (demoWorld [("other", ⟨RValue.str "x", 0⟩)])).2.2.store =
        some ⟨RValue.str "#v0", 5⟩ ∧
      (∀ k, k ≠ "k" →
        find k (GetWithCacheAside demoCodec "k" "" demoFetch 5
            (demoWorld [("other", ⟨RValue.str "x", 0⟩)])).2.2.store =
          find k (demoWorld [("other", ⟨RValue.str "x", 0⟩)]).store) ∧
      (GetWithCacheAside demoCodec "k" "" demoFetch 5
          (demoWorld [("other", ⟨RValue.str "x", 0⟩)])).2.1 =
        (demoCodec.unmarshal "#v0" "").1 ∧
      (GetWithCacheAside demoCodec "k" "" demoFetch 5
          (demoWorld [("other", ⟨RValue.str "x", 0⟩)])).1 =
        (demoCodec.unmarshal "#v0" "").2 ∧
      ((demoCodec.unmarshal "#v0" "").2 = none →
        (GetWithCacheAside demoCodec "k" "" demoFetch 5
          (demoWorld [("other", ⟨RValue.str "x", 0⟩)])).1 = none)) :=
  ⟨by decide, by decide, rfl, rfl,
    GetWithCacheAside_miss demoCodec "k" "" demoFetch 5
      (demoWorld [("other", ⟨RValue.str "x", 0⟩)]) "v0" "#v0"
      (by decide) (by decide) rfl rfl⟩

/-- C4: on a key that is present in the store, `GetWithCacheAside` leaves the store
(values and times to live of all keys) and the source of truth as they were and never
runs `fetchFunc`, whatever the client does with the read; when the entry holds the
bytes `data` and the client carries the read out, `dest` and the returned error are
what decoding `data` into `dest` gives. -/
theorem GetWithCacheAside_hit {σ V : Type} (J : Codec V) (key : String) (dest : V)
    (fetchFunc : σ → Except Error V × σ) (ttl : Duration) (w : World σ V) (en : Entry)
    (hk : find key w.store = some en) :
    (GetWithCacheAside J key dest fetchFunc ttl w).2.2.store = w.store ∧
      fetchCount (GetWithCacheAside J key dest fetchFunc ttl w).2.2.trace =
        fetchCount w.trace ∧
      (GetWithCacheAside J key dest fetchFunc ttl w).2.2.src = w.src ∧
      (∀ data, en.value = RValue.str data → healthy 1 w = true →
        (GetWithCacheAside J key dest fetchFunc ttl w).2.1 = (J.unmarshal data dest).1 ∧
          (GetWithCacheAside J key dest fetchFunc ttl w).1 = (J.unmarshal data dest).2) := by
  have hnil := rdbGet_ne_nil_of_present key w en hk
  cases hr : (rdbGet key w).1 with
  | error e =>
    have hne : e ≠ Error.redisNil := fun h => hnil (h ▸ hr)
    rw [GetWithCacheAside_of_error J key dest fetchFunc ttl w e hr hne]
    refine ⟨issue_store _ w, ?_, issue_src _ w, ?_⟩
    · simp [issue_trace, fetchCount_append, fetchCount]
    · intro data hv hh
      rw [rdbGet_of_ok key w (issue_healthy (Cmd.get key) 0 w hh).1] at hr
      obtain ⟨v, ex⟩ := en
      simp only at hv
      subst hv
      simp [getReply, hk] at hr
  | ok val =>
    rw [GetWithCacheAside_of_ok J key dest fetchFunc ttl w val hr]
    refine ⟨?_, ?_, ?_, ?_⟩
    · simp [RecordCacheHit, issue_store]
    · simp [RecordCacheHit, issue_trace, fetchCount_append, fetchCount]
    · simp [RecordCacheHit, issue_src]
    · intro data hv hh
      rw [rdbGet_of_ok key w (issue_healthy (Cmd.get key) 0 w hh).1] at hr
      obtain ⟨v, ex⟩ := en
      simp only at hv
      subst hv
      simp only [getReply, hk, Except.ok.injEq] at hr
      subst hr
      exact ⟨rfl, rfl⟩

theorem GetWithCacheAside_hit_witness :
    find "k" (demoWorld [("k", ⟨RValue.str "#cached", 9⟩)]).store = some ⟨RValue.str "#cached", 9⟩ ∧
    ((GetWithCacheAside demoCodec "k" "" demoFetch 5 (demoWorld [("k", ⟨RValue.str "#cached", 9⟩)])).2.2.store = (demoWorld [("k", ⟨RValue.str "#cached", 9⟩)]).store ∧
      fetchCount (GetWithCacheAside demoCodec "k" "" demoFetch 5 (demoWorld [("k", ⟨RValue.str "#cached", 9⟩)])).2.2.trace =
        fetchCount (demoWorld [("k", ⟨RValue.str "#cached", 9⟩)]).trace ∧
      (GetWithCacheAside demoCodec "k" "" demoFetch 5 (demoWorld [("k", ⟨RValue.str "#cached", 9⟩)])).2.2.src = (demoWorld [("k", ⟨RValue.str "#cached", 9⟩)]).src ∧
      (∀ data, (⟨RValue.str "#cached", 9⟩ : Entry).value = RValue.str data →
        healthy 1 (demoWorld [("k", ⟨RValue.str "#cached", 9⟩)]) = true →
        (GetWithCacheAside demoCodec "k" "" demoFetch 5 (demoWorld [("k", ⟨RValue.str "#cached", 9⟩)])).2.1 =
            (demoCodec.unmarshal data "").1 ∧
          (GetWithCacheAside demoCodec "k" "" demoFetch 5 (demoWorld [("k", ⟨RValue.str "#cached", 9⟩)])).1 =
            (demoCodec.unmarshal data "").2)) :=
  ⟨by decide, GetWithCacheAside_hit demoCodec "k" "" demoFetch 5 (demoWorld [("k", ⟨RValue.str "#cached", 9⟩)])
    ⟨RValue.str "#cached", 9⟩ (by decide)⟩

/-- C5: on a key that is absent from the store, with a client that carries out the
read, when `fetchFunc` fails with `e`: `GetWithCacheAside` returns `e`, leaves `dest`
and the store as they were (nothing is written for the key), and a call for the same
key made directly afterwards, whose read the client carries out, runs its `fetchFunc`
again. -/
theorem GetWithCacheAside_fetch_error {σ V : Type} (J : Codec V) (key : String) (dest : V)
    (fetchFunc : σ → Except Error V × σ) (ttl : Duration) (w : World σ V) (e : Error)
    (hh : healthy 1 w = true) (hk : find key w.store = none)
    (hf : (fetchFunc w.src).1 = Except.error e) :
    (GetWithCacheAside J key dest fetchFunc ttl w).1 = some e ∧
      (GetWithCacheAside J key dest fetchFunc ttl w).2.1 = dest ∧
      (GetWithCacheAside J key dest fetchFunc ttl w).2.2.store = w.store ∧
      (GetWithCacheAside J key dest fetchFunc ttl w).2.2.trace =
        w.trace ++ [Event.redis (Cmd.get key),
          Event.metric "cache_misses_total" "cache-aside", Event.fetch] ∧
      (∀ (dest2 : V) (fetch2 : σ → Except Error V × σ) (ttl2 : Duration),
        healthy 1 (GetWithCacheAside J key dest fetchFunc ttl w).2.2 = true →
        fetchCount (GetWithCacheAside J key dest2 fetch2 ttl2
            (GetWithCacheAside J key dest fetchFunc ttl w).2.2).2.2.trace =
          fetchCount (GetWithCacheAside J key dest fetchFunc ttl w).2.2.trace + 1) := by
  have hr := rdbGet_nil_of_absent key w hh hk
  have hsrc : (RecordCacheMiss "cache-aside" (issue (Cmd.get key) w).2).src = w.src := by
    simp [RecordCacheMiss, issue_src]
  have hcall : GetWithCacheAside J key dest fetchFunc ttl w =
      (some e, dest,
        { RecordCacheMiss "cache-aside" (issue (Cmd.get key) w).2 with
          src := (fetchFunc w.src).2
          trace := (RecordCacheMiss "cache-aside" (issue (Cmd.get key) w).2).trace ++
            [Event.fetch] }) := by
    rw [GetWithCacheAside_of_nil J key dest fetchFunc ttl w hr]
    unfold callFetch
    simp only [hsrc, hf]
  rw [hcall]
  refine ⟨rfl, rfl, ?_, ?_, ?_⟩
  · simp [RecordCacheMiss, issue_store]
  · simp [RecordCacheMiss, issue_trace]
  · intro dest2 fetch2 ttl2 hh2
    have hk2 : find key ({ RecordCacheMiss "cache-aside" (issue (Cmd.get key) w).2 with
          src := (fetchFunc w.src).2
          trace := (RecordCacheMiss "cache-aside" (issue (Cmd.get key) w).2).trace ++
            [Event.fetch] } : World σ V).store = none := by
      simpa [RecordCacheMiss, issue_store] using hk
    exact GetWithCacheAside_fetchCount_of_nil J key dest2 fetch2 ttl2 _
      (rdbGet_nil_of_absent key _ hh2 hk2)

theorem GetWithCacheAside_fetch_error_witness :
    healthy 1 (demoWorld []) = true ∧ find "k" (demoWorld []).store = none ∧
    (failFetch (demoWorld []).src).1 = Except.error (Error.source "db down") ∧
    ((GetWithCacheAside demoCodec "k" "" failFetch 5 (demoWorld [])).1 =
        some (Error.source "db down") ∧
      (GetWithCacheAside demoCodec "k" "" failFetch 5 (demoWorld [])).2.1 = "" ∧
      (GetWithCacheAside demoCodec "k" "" failFetch 5 (demoWorld [])).2.2.store =
        (demoWorld []).store ∧
      (GetWithCacheAside demoCodec "k" "" failFetch 5 (demoWorld [])).2.2.trace =
        (demoWorld []).trace ++ [Event.redis (Cmd.get "k"),
          Event.metric "cache_misses_total" "cache-aside", Event.fetch] ∧
      (∀ (dest2 : String) (fetch2 : Nat → Except Error String × Nat) (ttl2 : Duration),
        healthy 1 (GetWithCacheAside demoCodec "k" "" failFetch 5 (demoWorld [])).2.2 = true →
        fetchCount (GetWithCacheAside demoCodec "k" dest2 fetch2 ttl2
            (GetWithCacheAside demoCodec "k" "" failFetch 5 (demoWorld [])).2.2).2.2.trace =
          fetchCount (GetWithCacheAside demoCodec "k" "" failFetch 5
            (demoWorld [])).2.2.trace + 1)) :=
  ⟨by decide, by decide, rfl,
    GetWithCacheAside_fetch_error demoCodec "k" "" failFetch 5 (demoWorld [])
      (Error.source "db down") (by decide) (by decide) rfl⟩

/-- C6: whatever the state of the client and of the store, when the read of
`GetWithCacheAside` fails with an error other than `redis.Nil` the call returns that
error, leaves `dest`, the store and the source of truth as they were, and its only
event is the read itself (no fetch, no write); and `fetchFunc` runs (exactly once)
if and only if the read reports `redis.Nil`, and does not run otherwise. -/
theorem GetWithCacheAside_read_error {σ V : Type} (J : Codec V) (key : String) (dest : V)
    (fetchFunc : σ → Except Error V × σ) (ttl : Duration) (w : World σ V) :
    (∀ e, (rdbGet key w).1 = Except.error e → e ≠ Error.redisNil →
        (GetWithCacheAside J key dest fetchFunc ttl w).1 = some e ∧
        (GetWithCacheAside J key dest fetchFunc ttl w).2.1 = dest ∧
        (GetWithCacheAside J key dest fetchFunc ttl w).2.2.store = w.store ∧
        (GetWithCacheAside J key dest fetchFunc ttl w).2.2.src = w.src ∧
        (GetWithCacheAside J key dest fetchFunc ttl w).2.2.trace =
          w.trace ++ [Event.redis (Cmd.get key)]) ∧
      (fetchCount (GetWithCacheAside J key dest fetchFunc ttl w).2.2.trace =
          fetchCount w.trace + 1 ↔
        (rdbGet key w).1 = Except.error Error.redisNil) ∧
      (fetchCount (GetWithCacheAside J key dest fetchFunc ttl w).2.2.trace =
          fetchCount w.trace ↔
        (rdbGet key w).1 ≠ Except.error Error.redisNil) := by
  have hother : (rdbGet key w).1 ≠ Except.error Error.redisNil →
      fetchCount (GetWithCacheAside J key dest fetchFunc ttl w).2.2.trace =
        fetchCount w.trace := by
    intro hne
    cases hr : (rdbGet key w).1 with
    | error e =>
      have hne2 : e ≠ Error.redisNil := fun h => hne (h ▸ hr)
      rw [GetWithCacheAside_of_error J key dest fetchFunc ttl w e hr hne2]
      simp [issue_trace, fetchCount_append, fetchCount]
    | ok val =>
      rw [GetWithCacheAside_of_ok J key dest fetchFunc ttl w val hr]
      simp [RecordCacheHit, issue_trace, fetchCount_append, fetchCount]
  refine ⟨?_, ⟨?_, ?_⟩, ⟨?_, hother⟩⟩
  · intro e hr hne
    rw [GetWithCacheAside_of_error J key dest fetchFunc ttl w e hr hne]
    exact ⟨rfl, rfl, issue_store _ w, issue_src _ w, issue_trace _ w⟩
  · intro hc
    by_contra hne
    have := hother hne
    omega
  · exact GetWithCacheAside_fetchCount_of_nil J key dest fetchFunc ttl w
  · intro hc hnil
    have := GetWithCacheAside_fetchCount_of_nil J key dest fetchFunc ttl w hnil
    omega

theorem GetWithCacheAside_read_error_witness :
    (rdbGet "k" ({ demoWorld [] with faults := [some "i/o timeout"] })).1 =
        Except.error (Error.store "i/o timeout") ∧
      (GetWithCacheAside demoCodec "k" "" demoFetch 5
          { demoWorld [] with faults := [some "i/o timeout"] }).1 =
        some (Error.store "i/o timeout") ∧
      (GetWithCacheAside demoCodec "k" "" demoFetch 5
          { demoWorld [] with faults := [some "i/o timeout"] }).2.2.store = [] ∧
      fetchCount (GetWithCacheAside demoCodec "k" "" demoFetch 5
          { demoWorld [] with faults := [some "i/o timeout"] }).2.2.trace = 0 :=
  ⟨rfl,
    ((GetWithCacheAside_read_error demoCodec "k" "" demoFetch 5
      { demoWorld [] with faults := [some "i/o timeout"] }).1
        (Error.store "i/o timeout") rfl (by decide)).1,
    by decide, by decide⟩

/-! ## Tag invalidation -/

theorem rdbSMembers_of_ok {σ V : Type} (key : String) (w : World σ V)
    (h : (issue (Cmd.smembers key) w).1 = none) :
    rdbSMembers key w = (smembersReply key w.store, (issue (Cmd.smembers key) w).2) := by
  have hs := issue_store (Cmd.smembers key) w
  unfold rdbSMembers smembersReply
  rcases hi : issue (Cmd.smembers key) w with ⟨r, w1⟩
  rw [hi] at h hs
  simp only at h hs
  subst h
  simp only [hs]
  rcases find key w.store with _ | ⟨v, ex⟩
  · rfl
  · cases v <;> rfl

theorem rdbSMembers_of_err {σ V : Type} (key : String) (w : World σ V) (e : Error)
    (h : (issue (Cmd.smembers key) w).1 = some e) :
    rdbSMembers key w = (Except.error e, (issue (Cmd.smembers key) w).2) := by
  unfold rdbSMembers
  rcases hi : issue (Cmd.smembers key) w with ⟨r, w1⟩
  rw [hi] at h
  simp only at h
  subst h
  rfl

theorem rdbDel_of_ok {σ V : Type} (keys : List String) (w : World σ V)
    (h : (issue (Cmd.del keys) w).1 = none) (hne : keys ≠ []) :
    rdbDel keys w =
      (none, { (issue (Cmd.del keys) w).2 with store := erase keys w.store }) := by
  have hs := issue_store (Cmd.del keys) w
  unfold rdbDel
  rcases hi : issue (Cmd.del keys) w with ⟨r, w1⟩
  rw [hi] at h hs
  simp only at h hs
  subst h
  cases keys with
  | nil => exact absurd rfl hne
  | cons k ks => simp [hs]

theorem rdbDel_of_err {σ V : Type} (keys : List String) (w : World σ V) (e : Error)
    (h : (issue (Cmd.del keys) w).1 = some e) :
    rdbDel keys w = (some e, (issue (Cmd.del keys) w).2) := by
  unfold rdbDel
  rcases hi : issue (Cmd.del keys) w with ⟨r, w1⟩
  rw [hi] at h
  simp only at h
  subst h
  rfl

theorem rdbDel_fst {σ V : Type} (keys : List String) (w : World σ V) (hne : keys ≠ []) :
    (rdbDel keys w).1 = (issue (Cmd.del keys) w).1 := by
  cases h : (issue (Cmd.del keys) w).1 with
  | none => rw [rdbDel_of_ok keys w h hne]
  | some e => rw [rdbDel_of_err keys w e h]

theorem rdbDel_store_of_none {σ V : Type} (keys : List String) (w : World σ V)
    (h : (rdbDel keys w).1 = none) : (rdbDel keys w).2.store = erase keys w.store := by
  cases keys with
  | nil =>
    exfalso
    unfold rdbDel at h
    rcases hi : issue (Cmd.del []) w with ⟨r, w1⟩
    rw [hi] at h
    cases r <;> simp at h
  | cons k ks =>
    rw [rdbDel_fst _ _ (by simp)] at h
    rw [rdbDel_of_ok _ _ h (by simp)]

theorem rdbDel_store_of_some {σ V : Type} (keys : List String) (w : World σ V) (e : Error)
    (h : (rdbDel keys w).1 = some e) : (rdbDel keys w).2.store = w.store := by
  unfold rdbDel at h ⊢
  have hs := issue_store (Cmd.del keys) w
  rcases hi : issue (Cmd.del keys) w with ⟨r, w1⟩
  rw [hi] at h hs
  simp only at hs
  cases r with
  | some e1 => simpa using hs
  | none =>
    cases keys with
    | nil => simpa using hs
    | cons k ks => simp at h

theorem erase_no_keys {β : Type} (s : List (String × β)) : erase [] s = s := by
  unfold erase
  simp

theorem InvalidateByTag_store_of_none {σ V : Type} (tag : String) (w : World σ V)
    (h : (InvalidateByTag tag w).1 = none) :
    ∃ keys, smembersReply ("tag:" ++ tag) w.store = Except.ok keys ∧
      (InvalidateByTag tag w).2.store = erase ["tag:" ++ tag] (erase keys w.store) := by
  unfold InvalidateByTag at h ⊢
  simp only at h ⊢
  cases hi : (issue (Cmd.smembers ("tag:" ++ tag)) w).1 with
  | some e =>
    rw [rdbSMembers_of_err _ w e hi] at h
    simp at h
  | none =>
    rw [rdbSMembers_of_ok _ w hi] at h ⊢
    cases hrep : smembersReply ("tag:" ++ tag) w.store with
    | error e =>
      rw [hrep] at h
      simp at h
    | ok keys =>
      rw [hrep] at h
      refine ⟨keys, rfl, ?_⟩
      simp only at h ⊢
      by_cases hlen : keys.length > 0
      · simp only [hlen, if_true] at h ⊢
        cases hd : (rdbDel keys (issue (Cmd.smembers ("tag:" ++ tag)) w).2).1 with
        | some e =>
          rw [show rdbDel keys (issue (Cmd.smembers ("tag:" ++ tag)) w).2 =
            (some e, (rdbDel keys (issue (Cmd.smembers ("tag:" ++ tag)) w).2).2) from
              Prod.ext hd rfl] at h
          simp at h
        | none =>
          have hst := rdbDel_store_of_none keys _ hd
          rw [issue_store] at hst
          rw [show rdbDel keys (issue (Cmd.smembers ("tag:" ++ tag)) w).2 =
            (none, (rdbDel keys (issue (Cmd.smembers ("tag:" ++ tag)) w).2).2) from
              Prod.ext hd rfl] at h ⊢
          simp only at h ⊢
          rw [rdbDel_store_of_none _ _ h, hst]
      · simp only [hlen, if_false] at h ⊢
        have hnil : keys = [] := by
          cases keys with
          | nil => rfl
          | cons k ks => simp at hlen
        subst hnil
        rw [rdbDel_store_of_none _ _ h, issue_store, erase_no_keys]

/-- C7: when `InvalidateByTag(tag)` returns no error (every store command of the call
succeeded), afterwards no member of the set that was stored at `tag:<tag>` is present,
the key `tag:<tag>` is absent, and every key that was neither a member nor the tag
key is bound as before. -/
theorem InvalidateByTag_success {σ V : Type} (tag : String) (w : World σ V)
    (h : (InvalidateByTag tag w).1 = none) :
    (∀ ms ex k, find ("tag:" ++ tag) w.store = some ⟨RValue.set ms, ex⟩ → k ∈ ms →
        find k (InvalidateByTag tag w).2.store = none) ∧
      find ("tag:" ++ tag) (InvalidateByTag tag w).2.store = none ∧
      (∀ k, k ≠ "tag:" ++ tag →
        (∀ ms ex, find ("tag:" ++ tag) w.store = some ⟨RValue.set ms, ex⟩ → k ∉ ms) →
        find k (InvalidateByTag tag w).2.store = find k w.store) := by
  obtain ⟨keys, hrep, hst⟩ := InvalidateByTag_store_of_none tag w h
  rw [hst]
  refine ⟨?_, find_erase_of_mem _ _ _ (by simp), ?_⟩
  · intro ms ex k hf hk
    have hkeys : keys = ms := by
      simp only [smembersReply, hf, Except.ok.injEq] at hrep
      exact hrep.symm
    by_cases hkt : k ∈ ["tag:" ++ tag]
    · exact find_erase_of_mem _ _ _ hkt
    · rw [find_erase_of_not_mem _ _ _ hkt]
      exact find_erase_of_mem _ _ _ (hkeys ▸ hk)
  · intro k hne hnot
    rw [find_erase_of_not_mem _ _ _ (by simpa using hne)]
    apply find_erase_of_not_mem
    intro hk
    unfold smembersReply at hrep
    rcases hf : find ("tag:" ++ tag) w.store with _ | ⟨v, ex⟩
    · rw [hf] at hrep
      simp only [Except.ok.injEq] at hrep
      subst hrep
      simp at hk
    · rw [hf] at hrep
      cases v with
      | str d => simp at hrep
      | set ms =>
        simp only [Except.ok.injEq] at hrep
        subst hrep
        exact hnot ms ex hf hk

theorem InvalidateByTag_success_witness :
    (InvalidateByTag "sale" (demoWorld [("tag:sale", ⟨RValue.set ["p1", "p2"], 0⟩), ("p1", ⟨RValue.str "a", 5⟩),
      ("p2", ⟨RValue.str "b", 5⟩), ("p3", ⟨RValue.str "c", 5⟩)])).1 = none ∧
    ((∀ ms ex k, find ("tag:" ++ "sale") (demoWorld [("tag:sale", ⟨RValue.set ["p1", "p2"], 0⟩), ("p1", ⟨RValue.str "a", 5⟩),
      ("p2", ⟨RValue.str "b", 5⟩), ("p3", ⟨RValue.str "c", 5⟩)]).store = some ⟨RValue.set ms, ex⟩ → k ∈ ms →
        find k (InvalidateByTag "sale" (demoWorld [("tag:sale", ⟨RValue.set ["p1", "p2"], 0⟩), ("p1", ⟨RValue.str "a", 5⟩),
      ("p2", ⟨RValue.str "b", 5⟩), ("p3", ⟨RValue.str "c", 5⟩)])).2.store = none) ∧
      find ("tag:" ++ "sale") (InvalidateByTag "sale" (demoWorld [("tag:sale", ⟨RValue.set ["p1", "p2"], 0⟩), ("p1", ⟨RValue.str "a", 5⟩),
      ("p2", ⟨RValue.str "b", 5⟩), ("p3", ⟨RValue.str "c", 5⟩)])).2.store = none ∧
      (∀ k, k ≠ "tag:" ++ "sale" →
        (∀ ms ex, find ("tag:" ++ "sale") (demoWorld [("tag:sale", ⟨RValue.set ["p1", "p2"], 0⟩), ("p1", ⟨RValue.str "a", 5⟩),
      ("p2", ⟨RValue.str "b", 5⟩), ("p3", ⟨RValue.str "c", 5⟩)]).store = some ⟨RValue.set ms, ex⟩ → k ∉ ms) →
        find k (InvalidateByTag "sale" (demoWorld [("tag:sale", ⟨RValue.set ["p1", "p2"], 0⟩), ("p1", ⟨RValue.str "a", 5⟩),
      ("p2", ⟨RValue.str "b", 5⟩), ("p3", ⟨RValue.str "c", 5⟩)])).2.store = find k (demoWorld [("tag:sale", ⟨RValue.set ["p1", "p2"], 0⟩), ("p1", ⟨RValue.str "a", 5⟩),
      ("p2", ⟨RValue.str "b", 5⟩), ("p3", ⟨RValue.str "c", 5⟩)]).store)) :=
  ⟨by decide, InvalidateByTag_success "sale" (demoWorld [("tag:sale", ⟨RValue.set ["p1", "p2"], 0⟩), ("p1", ⟨RValue.str "a", 5⟩),
      ("p2", ⟨RValue.str "b", 5⟩), ("p3", ⟨RValue.str "c", 5⟩)]) (by decide)⟩

theorem InvalidateByTag_store_of_absent {σ V : Type} (tag : String) (w : World σ V)
    (hk : find ("tag:" ++ tag) w.store = none) : (InvalidateByTag tag w).2.store = w.store := by
  unfold InvalidateByTag
  simp only
  cases hi : (issue (Cmd.smembers ("tag:" ++ tag)) w).1 with
  | some e =>
    rw [rdbSMembers_of_err _ w e hi]
    exact issue_store _ w
  | none =>
    rw [rdbSMembers_of_ok _ w hi]
    simp only [smembersReply, hk, List.length_nil, gt_iff_lt, lt_self_iff_false, if_false]
    cases hd : (rdbDel ["tag:" ++ tag] (issue (Cmd.smembers ("tag:" ++ tag)) w).2).1 with
    | none =>
      rw [rdbDel_store_of_none _ _ hd, issue_store]
      exact erase_eq_self_of_find_none _ _ hk
    | some e =>
      rw [rdbDel_store_of_some _ _ e hd, issue_store]

theorem InvalidateByTag_ok_of_absent {σ V : Type} (tag : String) (w : World σ V)
    (hh : healthy 2 w = true) (hk : find ("tag:" ++ tag) w.store = none) :
    (InvalidateByTag tag w).1 = none := by
  have h1 := issue_healthy (Cmd.smembers ("tag:" ++ tag)) 1 w hh
  unfold InvalidateByTag
  simp only
  rw [rdbSMembers_of_ok _ w h1.1]
  simp only [smembersReply, hk, List.length_nil, gt_iff_lt, lt_self_iff_false, if_false]
  rw [rdbDel_fst _ _ (by simp)]
  exact (issue_healthy _ 0 _ h1.2).1

/-- C8: after an `InvalidateByTag(tag)` that returned no error, a second
`InvalidateByTag(tag)` made directly afterwards leaves the store exactly as the first
call left it, and returns no error when the client carries out its two commands
(`SMEMBERS` and `DEL` of the tag key). -/
theorem InvalidateByTag_twice {σ V : Type} (tag : String) (w : World σ V)
    (h : (InvalidateByTag tag w).1 = none) :
    (InvalidateByTag tag (InvalidateByTag tag w).2).2.store = (InvalidateByTag tag w).2.store ∧
      (healthy 2 (InvalidateByTag tag w).2 = true → (InvalidateByTag tag (InvalidateByTag tag w).2).1 = none) := by
  have habs : find ("tag:" ++ tag) (InvalidateByTag tag w).2.store = none := by
    obtain ⟨keys, _, hst⟩ := InvalidateByTag_store_of_none tag w h
    rw [hst]
    exact find_erase_of_mem _ _ _ (by simp)
  exact ⟨InvalidateByTag_store_of_absent tag _ habs,
    fun hh => InvalidateByTag_ok_of_absent tag _ hh habs⟩

theorem InvalidateByTag_twice_witness :
    (InvalidateByTag "sale" (demoWorld [("tag:sale", ⟨RValue.set ["p1", "p2"], 0⟩), ("p1", ⟨RValue.str "a", 5⟩),
      ("p2", ⟨RValue.str "b", 5⟩), ("p3", ⟨RValue.str "c", 5⟩)])).1 = none ∧
    healthy 2 (InvalidateByTag "sale" (demoWorld [("tag:sale", ⟨RValue.set ["p1", "p2"], 0⟩), ("p1", ⟨RValue.str "a", 5⟩),
      ("p2", ⟨RValue.str "b", 5⟩), ("p3", ⟨RValue.str "c", 5⟩)])).2 = true ∧
    (InvalidateByTag "sale" (InvalidateByTag "sale" (demoWorld [("tag:sale", ⟨RValue.set ["p1", "p2"], 0⟩), ("p1", ⟨RValue.str "a", 5⟩),
      ("p2", ⟨RValue.str "b", 5⟩), ("p3", ⟨RValue.str "c", 5⟩)])).2).2.store =
      (InvalidateByTag "sale" (demoWorld [("tag:sale", ⟨RValue.set ["p1", "p2"], 0⟩), ("p1", ⟨RValue.str "a", 5⟩),
      ("p2", ⟨RValue.str "b", 5⟩), ("p3", ⟨RValue.str "c", 5⟩)])).2.store ∧
    (InvalidateByTag "sale" (InvalidateByTag "sale" (demoWorld [("tag:sale", ⟨RValue.set ["p1", "p2"], 0⟩), ("p1", ⟨RValue.str "a", 5⟩),
      ("p2", ⟨RValue.str "b", 5⟩), ("p3", ⟨RValue.str "c", 5⟩)])).2).1 = none :=
  ⟨by decide, by decide,
    (InvalidateByTag_twice "sale" (demoWorld [("tag:sale", ⟨RValue.set ["p1", "p2"], 0⟩), ("p1", ⟨RValue.str "a", 5⟩),
      ("p2", ⟨RValue.str "b", 5⟩), ("p3", ⟨RValue.str "c", 5⟩)]) (by decide)).1,
    (InvalidateByTag_twice "sale" (demoWorld [("tag:sale", ⟨RValue.set ["p1", "p2"], 0⟩), ("p1", ⟨RValue.str "a", 5⟩),
      ("p2", ⟨RValue.str "b", 5⟩), ("p3", ⟨RValue.str "c", 5⟩)]) (by decide)).2 (by decide)⟩

/-! ## Refresh-ahead -/

theorem stopAt_length (id : Nat) (ts : List Ticker) : (stopAt id ts).length = ts.length := by
  induction ts generalizing id with
  | nil => cases id <;> rfl
  | cons t rest ih =>
    cases id with
    | zero => rfl
    | succ n => simp [stopAt, ih]

theorem stopAt_getElem_self (id : Nat) (ts : List Ticker) :
    (stopAt id ts)[id]? = (ts[id]?).map (fun t => { t with active := false }) := by
  induction ts generalizing id with
  | nil => cases id <;> rfl
  | cons t rest ih =>
    cases id with
    | zero => simp [stopAt]
    | succ n => simp [stopAt, ih]

theorem stopAt_getElem_of_ne (id j : Nat) (ts : List Ticker) (h : j ≠ id) :
    (stopAt id ts)[j]? = ts[j]? := by
  induction ts generalizing id j with
  | nil => cases id <;> rfl
  | cons t rest ih =>
    cases id with
    | zero =>
      cases j with
      | zero => exact absurd rfl h
      | succ m => simp [stopAt]
    | succ n =>
      cases j with
      | zero => simp [stopAt]
      | succ m => simpa [stopAt] using ih n m (by omega)

theorem stopPrevious_store {σ V : Type} (key : String) (w : World σ V) :
    (stopPrevious key w).store = w.store := by
  unfold stopPrevious
  split <;> rfl

theorem stopPrevious_src {σ V : Type} (key : String) (w : World σ V) :
    (stopPrevious key w).src = w.src := by
  unfold stopPrevious
  split <;> rfl

theorem stopPrevious_closed {σ V : Type} (key : String) (w : World σ V) :
    (stopPrevious key w).closed = w.closed := by
  unfold stopPrevious
  split <;> rfl

theorem stopPrevious_faults {σ V : Type} (key : String) (w : World σ V) :
    (stopPrevious key w).faults = w.faults := by
  unfold stopPrevious
  split <;> rfl

theorem stopPrevious_refreshers {σ V : Type} (key : String) (w : World σ V) :
    (stopPrevious key w).refreshers = w.refreshers := by
  unfold stopPrevious
  split <;> rfl

theorem stopPrevious_routines {σ V : Type} (key : String) (w : World σ V) :
    (stopPrevious key w).routines = w.routines := by
  unfold stopPrevious
  split <;> rfl

theorem stopPrevious_tickers_length {σ V : Type} (key : String) (w : World σ V) :
    (stopPrevious key w).tickers.length = w.tickers.length := by
  unfold stopPrevious
  split
  · exact stopAt_length _ _
  · rfl

theorem stopPrevious_registered {σ V : Type} (key : String) (w : World σ V) (id : Nat)
    (h : find key w.refreshers = some id) :
    (stopPrevious key w).tickers[id]? =
      (w.tickers[id]?).map (fun t => { t with active := false }) := by
  unfold stopPrevious
  rw [h]
  exact stopAt_getElem_self id w.tickers

theorem stopPrevious_other {σ V : Type} (key : String) (w : World σ V) (j : Nat)
    (h : find key w.refreshers ≠ some j) :
    (stopPrevious key w).tickers[j]? = w.tickers[j]? := by
  unfold stopPrevious
  split
  · rename_i id hid
    exact stopAt_getElem_of_ne id j w.tickers (fun hj => h (hj ▸ hid))
  · rfl

theorem issue_closed {σ V : Type} (cmd : Cmd) (w : World σ V) :
    (issue cmd w).2.closed = w.closed := by
  unfold issue
  cases w.closed <;> cases w.faults <;> simp

theorem issue_refreshers {σ V : Type} (cmd : Cmd) (w : World σ V) :
    (issue cmd w).2.refreshers = w.refreshers := by
  unfold issue
  cases w.closed <;> cases w.faults <;> simp

theorem issue_tickers {σ V : Type} (cmd : Cmd) (w : World σ V) :
    (issue cmd w).2.tickers = w.tickers := by
  unfold issue
  cases w.closed <;> cases w.faults <;> simp

theorem issue_routines {σ V : Type} (cmd : Cmd) (w : World σ V) :
    (issue cmd w).2.routines = w.routines := by
  unfold issue
  cases w.closed <;> cases w.faults <;> simp

theorem SetWithRefreshAhead_of_stored {σ V : Type} (J : Codec V) (key : String)
    (refreshFunc : σ → Except Error V × σ) (ttl refreshBefore : Duration) (w : World σ V)
    (d : V) (data : String) (hf : (refreshFunc w.src).1 = Except.ok d)
    (hm : J.marshal d = Except.ok data)
    (hi : (issue (Cmd.set key data ttl) (afterRefresh key refreshFunc w)).1 = none) :
    SetWithRefreshAhead J key refreshFunc ttl refreshBefore w =
      if durSub ttl refreshBefore > 0 then
        (none,
          { afterStore key refreshFunc data ttl w with
            tickers := (afterStore key refreshFunc data ttl w).tickers ++
              [⟨durSub ttl refreshBefore, true⟩]
            refreshers := put key (afterStore key refreshFunc data ttl w).tickers.length
              (afterStore key refreshFunc data ttl w).refreshers
            routines := (afterStore key refreshFunc data ttl w).routines ++
              [⟨(afterStore key refreshFunc data ttl w).tickers.length, key, refreshFunc, ttl⟩]
            trace := (afterStore key refreshFunc data ttl w).trace ++
              [Event.tickerNew (afterStore key refreshFunc data ttl w).tickers.length
                (durSub ttl refreshBefore)] })
      else (none, afterStore key refreshFunc data ttl w) := by
  unfold SetWithRefreshAhead
  dsimp only
  have hf2 : (callFetch refreshFunc (stopPrevious key w)).1 = Except.ok d := by
    simp [callFetch, stopPrevious_src, hf]
  rw [show callFetch refreshFunc (stopPrevious key w) =
    (Except.ok d, afterRefresh key refreshFunc w) from Prod.ext hf2 rfl]
  simp only [hm]
  rw [rdbSet_of_ok _ _ _ _ hi]
  have hst : (afterRefresh key refreshFunc w).store = w.store := by
    simp [afterRefresh, callFetch, stopPrevious_store]
  simp only [hst]
  rfl

theorem SetWithRefreshAhead_of_none {σ V : Type} (J : Codec V) (key : String)
    (refreshFunc : σ → Except Error V × σ) (ttl refreshBefore : Duration) (w : World σ V)
    (h : (SetWithRefreshAhead J key refreshFunc ttl refreshBefore w).1 = none) :
    ∃ d data, (refreshFunc w.src).1 = Except.ok d ∧ J.marshal d = Except.ok data ∧
      (issue (Cmd.set key data ttl) (afterRefresh key refreshFunc w)).1 = none := by
  unfold SetWithRefreshAhead at h
  dsimp only at h
  cases hf : (refreshFunc w.src).1 with
  | error e =>
    have hf2 : (callFetch refreshFunc (stopPrevious key w)).1 = Except.error e := by
      simp [callFetch, stopPrevious_src, hf]
    rw [show callFetch refreshFunc (stopPrevious key w) =
      (Except.error e, afterRefresh key refreshFunc w) from Prod.ext hf2 rfl] at h
    simp at h
  | ok d =>
    have hf2 : (callFetch refreshFunc (stopPrevious key w)).1 = Except.ok d := by
      simp [callFetch, stopPrevious_src, hf]
    rw [show callFetch refreshFunc (stopPrevious key w) =
      (Except.ok d, afterRefresh key refreshFunc w) from Prod.ext hf2 rfl] at h
    cases hm : J.marshal d with
    | error e => simp [hm] at h
    | ok data =>
      refine ⟨d, data, rfl, hm, ?_⟩
      simp only [hm] at h
      cases hi : (issue (Cmd.set key data ttl) (afterRefresh key refreshFunc w)).1 with
      | none => rfl
      | some e =>
        rw [rdbSet_of_err _ _ _ _ e hi] at h
        simp at h

theorem afterStore_store {σ V : Type} (key : String) (refreshFunc : σ → Except Error V × σ)
    (data : String) (ttl : Duration) (w : World σ V) :
    (afterStore key refreshFunc data ttl w).store = put key ⟨RValue.str data, ttl⟩ w.store :=
  rfl

theorem afterStore_tickers {σ V : Type} (key : String) (refreshFunc : σ → Except Error V × σ)
    (data : String) (ttl : Duration) (w : World σ V) :
    (afterStore key refreshFunc data ttl w).tickers = (stopPrevious key w).tickers := by
  simp [afterStore, afterRefresh, callFetch, issue_tickers]

theorem afterStore_refreshers {σ V : Type} (key : String)
    (refreshFunc : σ → Except Error V × σ) (data : String) (ttl : Duration) (w : World σ V) :
    (afterStore key refreshFunc data ttl w).refreshers = w.refreshers := by
  simp [afterStore, afterRefresh, callFetch, issue_refreshers, stopPrevious_refreshers]

theorem afterStore_routines {σ V : Type} (key : String)
    (refreshFunc : σ → Except Error V × σ) (data : String) (ttl : Duration) (w : World σ V) :
    (afterStore key refreshFunc data ttl w).routines = w.routines := by
  simp [afterStore, afterRefresh, callFetch, issue_routines, stopPrevious_routines]

theorem afterStore_trace {σ V : Type} (key : String) (refreshFunc : σ → Except Error V × σ)
    (data : String) (ttl : Duration) (w : World σ V) :
    (afterStore key refreshFunc data ttl w).trace =
      (stopPrevious key w).trace ++ [Event.fetch, Event.redis (Cmd.set key data ttl)] := by
  simp [afterStore, afterRefresh, callFetch, issue_trace]

theorem afterRefresh_healthy {σ V : Type} (key : String)
    (refreshFunc : σ → Except Error V × σ) (n : Nat) (w : World σ V) :
    healthy n (afterRefresh key refreshFunc w) = healthy n w := by
  simp [healthy, afterRefresh, callFetch, stopPrevious_closed, stopPrevious_faults]

/-- C9: when `ttl - refreshBefore` (as Go computes it) is not positive, `refreshFunc`
succeeds with a value `d` that has the encoding `data`, and the client carries out
the `SET`: `SetWithRefreshAhead` returns no error and leaves `key` bound to `data`
with time to live `ttl`; it creates no ticker, starts no goroutine and changes no
registry entry (its events are the stop of the previous ticker, the fetch and the
`SET`); and afterwards `key` is not registered with an active ticker. -/
theorem SetWithRefreshAhead_no_schedule {σ V : Type} (J : Codec V) (key : String)
    (refreshFunc : σ → Except Error V × σ) (ttl refreshBefore : Duration) (w : World σ V)
    (d : V) (data : String) (hle : durSub ttl refreshBefore ≤ 0)
    (hh : healthy 1 w = true) (hf : (refreshFunc w.src).1 = Except.ok d)
    (hm : J.marshal d = Except.ok data) :
    (SetWithRefreshAhead J key refreshFunc ttl refreshBefore w).1 = none ∧
      find key (SetWithRefreshAhead J key refreshFunc ttl refreshBefore w).2.store = some ⟨RValue.str data, ttl⟩ ∧
      (SetWithRefreshAhead J key refreshFunc ttl refreshBefore w).2.tickers.length = w.tickers.length ∧
      (SetWithRefreshAhead J key refreshFunc ttl refreshBefore w).2.routines = w.routines ∧
      (SetWithRefreshAhead J key refreshFunc ttl refreshBefore w).2.refreshers = w.refreshers ∧
      (SetWithRefreshAhead J key refreshFunc ttl refreshBefore w).2.trace =
        (stopPrevious key w).trace ++ [Event.fetch, Event.redis (Cmd.set key data ttl)] ∧
      activeSchedule key (SetWithRefreshAhead J key refreshFunc ttl refreshBefore w).2 = false := by
  have hi : (issue (Cmd.set key data ttl) (afterRefresh key refreshFunc w)).1 = none :=
    (issue_healthy _ 0 _ ((afterRefresh_healthy key refreshFunc 1 w).trans hh)).1
  rw [SetWithRefreshAhead_of_stored J key refreshFunc ttl refreshBefore w d data hf hm hi]
  have hnot : ¬ durSub ttl refreshBefore > 0 := not_lt.mpr hle
  rw [if_neg hnot]
  refine ⟨rfl, ?_, ?_, afterStore_routines _ _ _ _ _, afterStore_refreshers _ _ _ _ _,
    afterStore_trace _ _ _ _ _, ?_⟩
  · rw [afterStore_store, find_put_self]
  · rw [afterStore_tickers, stopPrevious_tickers_length]
  · unfold activeSchedule
    rw [afterStore_refreshers, afterStore_tickers]
    cases hreg : find key w.refreshers with
    | none => rfl
    | some id =>
      simp only
      rw [stopPrevious_registered key w id hreg]
      cases w.tickers[id]? <;> rfl

theorem SetWithRefreshAhead_no_schedule_witness :
    durSub 5 10 ≤ 0 ∧ healthy 1 (demoWorld []) = true ∧
    (demoFetch (demoWorld []).src).1 = Except.ok "v0" ∧
    demoCodec.marshal "v0" = Except.ok "#v0" ∧
    ((SetWithRefreshAhead demoCodec "k" demoFetch 5 10 (demoWorld [])).1 = none ∧
      find "k" (SetWithRefreshAhead demoCodec "k" demoFetch 5 10 (demoWorld [])).2.store =
        some ⟨RValue.str "#v0", 5⟩ ∧
      (SetWithRefreshAhead demoCodec "k" demoFetch 5 10 (demoWorld [])).2.tickers.length =
        (demoWorld []).tickers.length ∧
      (SetWithRefreshAhead demoCodec "k" demoFetch 5 10 (demoWorld [])).2.routines =
        (demoWorld []).routines ∧
      (SetWithRefreshAhead demoCodec "k" demoFetch 5 10 (demoWorld [])).2.refreshers =
        (demoWorld []).refreshers ∧
      (SetWithRefreshAhead demoCodec "k" demoFetch 5 10 (demoWorld [])).2.trace =
        (stopPrevious "k" (demoWorld [])).trace ++
          [Event.fetch, Event.redis (Cmd.set "k" "#v0" 5)] ∧
      activeSchedule "k" (SetWithRefreshAhead demoCodec "k" demoFetch 5 10 (demoWorld [])).2 =
        false) :=
  ⟨by decide, by decide, rfl, rfl,
    SetWithRefreshAhead_no_schedule demoCodec "k" demoFetch 5 10 (demoWorld []) "v0" "#v0"
      (by decide) (by decide) rfl rfl⟩

/-- C10: when `ttl - refreshBefore` (as Go computes it) is positive and
`SetWithRefreshAhead` returns no error, the registry maps `key` to a ticker that did
not exist before the call, that is active and whose period is `ttl - refreshBefore`;
the ticker that was registered for `key` before the call is stopped; every other
ticker that existed is as before; the registry entries of other keys are unchanged;
and one goroutine was started, bound to the new ticker, `key`, `refreshFunc` and
`ttl`. -/
theorem SetWithRefreshAhead_schedule {σ V : Type} (J : Codec V) (key : String)
    (refreshFunc : σ → Except Error V × σ) (ttl refreshBefore : Duration) (w : World σ V)
    (hpos : durSub ttl refreshBefore > 0)
    (h : (SetWithRefreshAhead J key refreshFunc ttl refreshBefore w).1 = none) :
    find key (SetWithRefreshAhead J key refreshFunc ttl refreshBefore w).2.refreshers = some w.tickers.length ∧
      (SetWithRefreshAhead J key refreshFunc ttl refreshBefore w).2.tickers[w.tickers.length]? = some ⟨durSub ttl refreshBefore, true⟩ ∧
      (SetWithRefreshAhead J key refreshFunc ttl refreshBefore w).2.tickers.length = w.tickers.length + 1 ∧
      activeSchedule key (SetWithRefreshAhead J key refreshFunc ttl refreshBefore w).2 = true ∧
      (∀ old t, find key w.refreshers = some old → w.tickers[old]? = some t →
        (SetWithRefreshAhead J key refreshFunc ttl refreshBefore w).2.tickers[old]? = some { t with active := false }) ∧
      (∀ j, j < w.tickers.length → find key w.refreshers ≠ some j →
        (SetWithRefreshAhead J key refreshFunc ttl refreshBefore w).2.tickers[j]? = w.tickers[j]?) ∧
      (∀ k, k ≠ key → find k (SetWithRefreshAhead J key refreshFunc ttl refreshBefore w).2.refreshers = find k w.refreshers) ∧
      (SetWithRefreshAhead J key refreshFunc ttl refreshBefore w).2.routines = w.routines ++ [⟨w.tickers.length, key, refreshFunc, ttl⟩] := by
  obtain ⟨d, data, hf, hm, hi⟩ :=
    SetWithRefreshAhead_of_none J key refreshFunc ttl refreshBefore w h
  rw [SetWithRefreshAhead_of_stored J key refreshFunc ttl refreshBefore w d data hf hm hi]
  rw [if_pos hpos]
  have hlen : (afterStore key refreshFunc data ttl w).tickers.length = w.tickers.length := by
    rw [afterStore_tickers, stopPrevious_tickers_length]
  have hnew : ((afterStore key refreshFunc data ttl w).tickers ++
      [(⟨durSub ttl refreshBefore, true⟩ : Ticker)])[w.tickers.length]? =
      some ⟨durSub ttl refreshBefore, true⟩ := by
    rw [← hlen]
    simp
  refine ⟨?_, hnew, ?_, ?_, ?_, ?_, ?_, ?_⟩
  · simp only [hlen]
    exact find_put_self _ _ _
  · simp [hlen]
  · unfold activeSchedule
    simp only [hlen, find_put_self, hnew]
  · intro old t hreg ht
    have hold : old < w.tickers.length := by
      rcases Nat.lt_or_ge old w.tickers.length with hlt | hge
      · exact hlt
      · rw [List.getElem?_eq_none hge] at ht
        cases ht
    show ((afterStore key refreshFunc data ttl w).tickers ++ _)[old]? = _
    rw [List.getElem?_append_left (by omega), afterStore_tickers,
      stopPrevious_registered key w old hreg, ht]
    rfl
  · intro j hj hreg
    show ((afterStore key refreshFunc data ttl w).tickers ++ _)[j]? = _
    rw [List.getElem?_append_left (by omega), afterStore_tickers,
      stopPrevious_other key w j hreg]
  · intro k hk
    show find k (put key _ (afterStore key refreshFunc data ttl w).refreshers) = _
    rw [find_put_of_ne key k _ _ hk, afterStore_refreshers]
  · simp only [hlen, afterStore_routines]

theorem SetWithRefreshAhead_schedule_witness :
    durSub 10 4 > 0 ∧
    (SetWithRefreshAhead demoCodec "k" demoFetch 10 4 ({ demoWorld [] with refreshers := [("k", 0)], tickers := [⟨3, true⟩] })).1 = none ∧
    (find "k" (SetWithRefreshAhead demoCodec "k" demoFetch 10 4 ({ demoWorld [] with refreshers := [("k", 0)], tickers := [⟨3, true⟩] })).2.refreshers =
        some ({ demoWorld [] with refreshers := [("k", 0)], tickers := [⟨3, true⟩] }).tickers.length ∧
      (SetWithRefreshAhead demoCodec "k" demoFetch 10 4 ({ demoWorld [] with refreshers := [("k", 0)], tickers := [⟨3, true⟩] })).2.tickers[({ demoWorld [] with refreshers := [("k", 0)], tickers := [⟨3, true⟩] }).tickers.length]? =
        some ⟨durSub 10 4, true⟩ ∧
      (SetWithRefreshAhead demoCodec "k" demoFetch 10 4 ({ demoWorld [] with refreshers := [("k", 0)], tickers := [⟨3, true⟩] })).2.tickers.length =
        ({ demoWorld [] with refreshers := [("k", 0)], tickers := [⟨3, true⟩] }).tickers.length + 1 ∧
      activeSchedule "k" (SetWithRefreshAhead demoCodec "k" demoFetch 10 4 ({ demoWorld [] with refreshers := [("k", 0)], tickers := [⟨3, true⟩] })).2 = true ∧
      (∀ old t, find "k" ({ demoWorld [] with refreshers := [("k", 0)], tickers := [⟨3, true⟩] }).refreshers = some old → ({ demoWorld [] with refreshers := [("k", 0)], tickers := [⟨3, true⟩] }).tickers[old]? = some t →
        (SetWithRefreshAhead demoCodec "k" demoFetch 10 4 ({ demoWorld [] with refreshers := [("k", 0)], tickers := [⟨3, true⟩] })).2.tickers[old]? =
          some { t with active := false }) ∧
      (∀ j, j < ({ demoWorld [] with refreshers := [("k", 0)], tickers := [⟨3, true⟩] }).tickers.length → find "k" ({ demoWorld [] with refreshers := [("k", 0)], tickers := [⟨3, true⟩] }).refreshers ≠ some j →
        (SetWithRefreshAhead demoCodec "k" demoFetch 10 4 ({ demoWorld [] with refreshers := [("k", 0)], tickers := [⟨3, true⟩] })).2.tickers[j]? =
          ({ demoWorld [] with refreshers := [("k", 0)], tickers := [⟨3, true⟩] }).tickers[j]?) ∧
      (∀ k, k ≠ "k" →
        find k (SetWithRefreshAhead demoCodec "k" demoFetch 10 4 ({ demoWorld [] with refreshers := [("k", 0)], tickers := [⟨3, true⟩] })).2.refreshers =
          find k ({ demoWorld [] with refreshers := [("k", 0)], tickers := [⟨3, true⟩] }).refreshers) ∧
      (SetWithRefreshAhead demoCodec "k" demoFetch 10 4 ({ demoWorld [] with refreshers := [("k", 0)], tickers := [⟨3, true⟩] })).2.routines =
        ({ demoWorld [] with refreshers := [("k", 0)], tickers := [⟨3, true⟩] }).routines ++ [⟨({ demoWorld [] with refreshers := [("k", 0)], tickers := [⟨3, true⟩] }).tickers.length, "k", demoFetch, 10⟩]) :=
  ⟨by decide, by decide,
    SetWithRefreshAhead_schedule demoCodec "k" demoFetch 10 4 ({ demoWorld [] with refreshers := [("k", 0)], tickers := [⟨3, true⟩] }) (by decide) (by decide)⟩

theorem durSub_eq_sub (a b : Int) (hlo : -(2 ^ 63) ≤ a - b) (hhi : a - b < 2 ^ 63) :
    durSub a b = a - b := by
  unfold durSub wrap64
  have h63 : (2 : Int) ^ 63 = 9223372036854775808 := by norm_num
  have h64 : (2 : Int) ^ 64 = 18446744073709551616 := by norm_num
  rw [h63] at hlo hhi
  rw [h63, h64]
  show ((a - b + 9223372036854775808) % 18446744073709551616 - 9223372036854775808 : Int)
    = a - b
  omega

/-! ## Shutdown and the registry invariant -/

theorem stopAt_stopAt_getElem (id j : Nat) (ts : List Ticker) :
    (stopAt id ts)[j]? =
      if j = id then (ts[j]?).map (fun t => { t with active := false }) else ts[j]? := by
  by_cases h : j = id
  · subst h
    simp [stopAt_getElem_self]
  · simp [h, stopAt_getElem_of_ne id j ts h]

theorem stopAll_refreshers {σ V : Type} (regs : List (String × Nat)) (w : World σ V) :
    (stopAll regs w).refreshers = w.refreshers := by
  induction regs generalizing w with
  | nil => rfl
  | cons p rest ih =>
    obtain ⟨k, id⟩ := p
    simp [stopAll, ih]

theorem stopAll_routines {σ V : Type} (regs : List (String × Nat)) (w : World σ V) :
    (stopAll regs w).routines = w.routines := by
  induction regs generalizing w with
  | nil => rfl
  | cons p rest ih =>
    obtain ⟨k, id⟩ := p
    simp [stopAll, ih]

theorem stopAll_tickers_length {σ V : Type} (regs : List (String × Nat)) (w : World σ V) :
    (stopAll regs w).tickers.length = w.tickers.length := by
  induction regs generalizing w with
  | nil => rfl
  | cons p rest ih =>
    obtain ⟨k, id⟩ := p
    simp [stopAll, ih, stopAt_length]

theorem stopAll_getElem {σ V : Type} (regs : List (String × Nat)) (w : World σ V) (j : Nat) :
    (stopAll regs w).tickers[j]? =
      if j ∈ regs.map Prod.snd then (w.tickers[j]?).map (fun t => { t with active := false })
      else w.tickers[j]? := by
  induction regs generalizing w with
  | nil => simp [stopAll]
  | cons p rest ih =>
    obtain ⟨k, id⟩ := p
    simp only [stopAll, ih, stopAt_stopAt_getElem, List.map_cons, List.mem_cons]
    by_cases h1 : j = id
    · subst h1
      by_cases h2 : j ∈ rest.map Prod.snd
      · simp only [h2, if_true, true_or]
        cases w.tickers[j]? <;> rfl
      · simp only [h2, if_true, if_false, true_or]
    · by_cases h2 : j ∈ rest.map Prod.snd
      · simp only [h1, h2, if_true, if_false, or_true]
      · simp only [h1, h2, if_false, or_false]

theorem rdbClose_tickers {σ V : Type} (w : World σ V) : (rdbClose w).2.tickers = w.tickers := by
  unfold rdbClose
  split <;> rfl

theorem rdbClose_refreshers {σ V : Type} (w : World σ V) :
    (rdbClose w).2.refreshers = w.refreshers := by
  unfold rdbClose
  split <;> rfl

theorem rdbClose_routines {σ V : Type} (w : World σ V) :
    (rdbClose w).2.routines = w.routines := by
  unfold rdbClose
  split <;> rfl

theorem Close_refreshers {σ V : Type} (w : World σ V) : (Close w).2.refreshers = [] := by
  unfold Close
  simp [rdbClose_refreshers]

theorem Close_routines {σ V : Type} (w : World σ V) : (Close w).2.routines = w.routines := by
  unfold Close
  simp [rdbClose_routines, stopAll_routines]

theorem Close_tickers {σ V : Type} (w : World σ V) :
    (Close w).2.tickers = (stopAll w.refreshers w).tickers := by
  unfold Close
  simp [rdbClose_tickers]

/-- C12: for every state of the registry, after `Close` every ticker that was
registered is stopped (and every other ticker is as before) and the registry is
empty; a second `Close` leaves the registry, the tickers and the goroutines exactly
as the first call left them. -/
theorem Close_stops_all {σ V : Type} (w : World σ V) :
    (∀ k id t, (k, id) ∈ w.refreshers → w.tickers[id]? = some t →
        (Close w).2.tickers[id]? = some { t with active := false }) ∧
      (∀ id, (∀ k, (k, id) ∉ w.refreshers) → (Close w).2.tickers[id]? = w.tickers[id]?) ∧
      (Close w).2.refreshers = [] ∧
      (Close (Close w).2).2.refreshers = (Close w).2.refreshers ∧
      (Close (Close w).2).2.tickers = (Close w).2.tickers ∧
      (Close (Close w).2).2.routines = (Close w).2.routines := by
  refine ⟨?_, ?_, Close_refreshers w, ?_, ?_, Close_routines _⟩
  · intro k id t hmem ht
    rw [Close_tickers, stopAll_getElem, ht]
    have : id ∈ w.refreshers.map Prod.snd := List.mem_map.mpr ⟨(k, id), hmem, rfl⟩
    simp [this]
  · intro id hnot
    rw [Close_tickers, stopAll_getElem]
    have : id ∉ w.refreshers.map Prod.snd := by
      intro h
      obtain ⟨⟨k, id2⟩, hmem, heq⟩ := List.mem_map.mp h
      simp only at heq
      subst heq
      exact hnot k hmem
    simp [this]
  · rw [Close_refreshers, Close_refreshers]
  · rw [Close_tickers (Close w).2, Close_refreshers]
    rfl

theorem Close_stops_all_witness :
    (Close ({ demoWorld [] with
        refreshers := [("a", 0), ("b", 2)]
        tickers := [⟨3, true⟩, ⟨4, true⟩, ⟨5, true⟩] } : World Nat String)).2.tickers =
      [⟨3, false⟩, ⟨4, true⟩, ⟨5, false⟩] ∧
    (Close ({ demoWorld [] with
        refreshers := [("a", 0), ("b", 2)]
        tickers := [⟨3, true⟩, ⟨4, true⟩, ⟨5, true⟩] } : World Nat String)).2.refreshers = [] ∧
    (Close (Close ({ demoWorld [] with
        refreshers := [("a", 0), ("b", 2)]
        tickers := [⟨3, true⟩, ⟨4, true⟩, ⟨5, true⟩] } : World Nat String)).2).2.tickers =
      (Close ({ demoWorld [] with
        refreshers := [("a", 0), ("b", 2)]
        tickers := [⟨3, true⟩, ⟨4, true⟩, ⟨5, true⟩] } : World Nat String)).2.tickers :=
  ⟨by decide, by decide,
    (Close_stops_all ({ demoWorld [] with
        refreshers := [("a", 0), ("b", 2)]
        tickers := [⟨3, true⟩, ⟨4, true⟩, ⟨5, true⟩] } : World Nat String)).2.2.2.2.1⟩

theorem find_some_mem {β : Type} (k : String) (v : β) (s : List (String × β))
    (h : find k s = some v) : (k, v) ∈ s := by
  induction s with
  | nil => simp [find] at h
  | cons p rest ih =>
    obtain ⟨k', e⟩ := p
    by_cases heq : k' = k
    · simp only [find, heq, if_true, Option.some.injEq] at h
      subst h heq
      exact List.mem_cons_self _ _
    · simp only [find, heq, if_false] at h
      exact List.mem_cons_of_mem _ (ih h)

theorem rdbSet_tickers {σ V : Type} (key data : String) (ex : Duration) (w : World σ V) :
    (rdbSet key data ex w).2.tickers = w.tickers := by
  cases h : (issue (Cmd.set key data ex) w).1 with
  | none => rw [rdbSet_of_ok key data ex w h]; exact issue_tickers _ w
  | some e => rw [rdbSet_of_err key data ex w e h]; exact issue_tickers _ w

theorem rdbSet_routines {σ V : Type} (key data : String) (ex : Duration) (w : World σ V) :
    (rdbSet key data ex w).2.routines = w.routines := by
  cases h : (issue (Cmd.set key data ex) w).1 with
  | none => rw [rdbSet_of_ok key data ex w h]; exact issue_routines _ w
  | some e => rw [rdbSet_of_err key data ex w e h]; exact issue_routines _ w

theorem rdbSet_refreshers {σ V : Type} (key data : String) (ex : Duration) (w : World σ V) :
    (rdbSet key data ex w).2.refreshers = w.refreshers := by
  cases h : (issue (Cmd.set key data ex) w).1 with
  | none => rw [rdbSet_of_ok key data ex w h]; exact issue_refreshers _ w
  | some e => rw [rdbSet_of_err key data ex w e h]; exact issue_refreshers _ w

/-- What `SetWithRefreshAhead` does to the registry, on every path: either it only
stops the ticker registered for `key`, or it also installs one new ticker with its
goroutine and registers it for `key`. -/
theorem SetWithRefreshAhead_registry {σ V : Type} (J : Codec V) (key : String)
    (refreshFunc : σ → Except Error V × σ) (ttl refreshBefore : Duration) (w : World σ V) :
    ((SetWithRefreshAhead J key refreshFunc ttl refreshBefore w).2.tickers =
          (stopPrevious key w).tickers ∧
        (SetWithRefreshAhead J key refreshFunc ttl refreshBefore w).2.routines = w.routines ∧
        (SetWithRefreshAhead J key refreshFunc ttl refreshBefore w).2.refreshers =
          w.refreshers) ∨
      ((SetWithRefreshAhead J key refreshFunc ttl refreshBefore w).2.tickers =
          (stopPrevious key w).tickers ++ [⟨durSub ttl refreshBefore, true⟩] ∧
        (SetWithRefreshAhead J key refreshFunc ttl refreshBefore w).2.routines =
          w.routines ++ [⟨w.tickers.length, key, refreshFunc, ttl⟩] ∧
        (SetWithRefreshAhead J key refreshFunc ttl refreshBefore w).2.refreshers =
          put key w.tickers.length w.refreshers) := by
  have hT : (callFetch refreshFunc (stopPrevious key w)).2.tickers =
      (stopPrevious key w).tickers := rfl
  have hR : (callFetch refreshFunc (stopPrevious key w)).2.routines = w.routines :=
    stopPrevious_routines key w
  have hF : (callFetch refreshFunc (stopPrevious key w)).2.refreshers = w.refreshers :=
    stopPrevious_refreshers key w
  unfold SetWithRefreshAhead
  dsimp only
  rcases hc : callFetch refreshFunc (stopPrevious key w) with ⟨res, w2⟩
  rw [hc] at hT hR hF
  simp only at hT hR hF
  cases res with
  | error e => exact Or.inl ⟨hT, hR, hF⟩
  | ok d =>
    simp only
    cases J.marshal d with
    | error e => exact Or.inl ⟨hT, hR, hF⟩
    | ok data =>
      simp only
      have hT3 := rdbSet_tickers key data ttl w2
      have hR3 := rdbSet_routines key data ttl w2
      have hF3 := rdbSet_refreshers key data ttl w2
      rcases hs : rdbSet key data ttl w2 with ⟨r, w3⟩
      rw [hs] at hT3 hR3 hF3
      simp only at hT3 hR3 hF3
      cases r with
      | some e => exact Or.inl ⟨hT3.trans hT, hR3.trans hR, hF3.trans hF⟩
      | none =>
        simp only
        by_cases hpos : durSub ttl refreshBefore > 0
        · rw [if_pos hpos]
          refine Or.inr ⟨?_, ?_, ?_⟩
          · simp only [hT3, hT]
          · simp only [hR3, hR, hT3, hT, stopPrevious_tickers_length]
          · simp only [hF3, hF, hT3, hT, stopPrevious_tickers_length]
        · rw [if_neg hpos]
          exact Or.inl ⟨hT3.trans hT, hR3.trans hR, hF3.trans hF⟩

theorem stopped_not_active (x : Option Ticker) :
    (match x.map (fun t => ({ t with active := false } : Ticker)) with
      | some t => t.active
      | none => false) = false := by
  cases x <;> rfl

theorem tickerActive_stopPrevious {σ V : Type} (key : String) (w w1 : World σ V) (i : Nat)
    (hT : w1.tickers = (stopPrevious key w).tickers) (h : tickerActive i w1 = true) :
    tickerActive i w = true ∧ find key w.refreshers ≠ some i := by
  unfold tickerActive at h ⊢
  rw [hT] at h
  by_cases hreg : find key w.refreshers = some i
  · rw [stopPrevious_registered key w i hreg, stopped_not_active] at h
    cases h
  · rw [stopPrevious_other key w i hreg] at h
    exact ⟨h, hreg⟩

theorem RegistryInv_stop {σ V : Type} (key : String) (w w1 : World σ V) (h : RegistryInv w)
    (hT : w1.tickers = (stopPrevious key w).tickers) (hR : w1.routines = w.routines)
    (hF : w1.refreshers = w.refreshers) : RegistryInv w1 := by
  obtain ⟨h1, h2, h3⟩ := h
  refine ⟨?_, ?_, ?_⟩
  · rw [hR, hT, stopPrevious_tickers_length, h1]
  · intro i r hr
    rw [hR] at hr
    exact h2 i r hr
  · intro i r hr ha
    rw [hR] at hr
    rw [hF]
    exact h3 i r hr (tickerActive_stopPrevious key w w1 i hT ha).1

theorem RegistryInv_install {σ V : Type} (key : String) (refreshFunc : σ → Except Error V × σ)
    (ttl period : Duration) (w w1 : World σ V) (h : RegistryInv w)
    (hT : w1.tickers = (stopPrevious key w).tickers ++ [⟨period, true⟩])
    (hR : w1.routines = w.routines ++ [⟨w.tickers.length, key, refreshFunc, ttl⟩])
    (hF : w1.refreshers = put key w.tickers.length w.refreshers) : RegistryInv w1 := by
  obtain ⟨h1, h2, h3⟩ := h
  have hlen : (stopPrevious key w).tickers.length = w.tickers.length :=
    stopPrevious_tickers_length key w
  refine ⟨?_, ?_, ?_⟩
  · rw [hR, hT]
    simp [hlen, h1]
  · intro i r hr
    rw [hR] at hr
    rcases Nat.lt_or_ge i w.routines.length with hlt | hge
    · rw [List.getElem?_append_left hlt] at hr
      exact h2 i r hr
    · rw [List.getElem?_append_right hge] at hr
      rcases hi : i - w.routines.length with _ | n
      · rw [hi] at hr
        simp only [List.getElem?_cons_zero, Option.some.injEq] at hr
        subst hr
        simp only
        omega
      · rw [hi] at hr
        simp at hr
  · intro i r hr ha
    rw [hR] at hr
    rw [hF]
    rcases Nat.lt_or_ge i w.routines.length with hlt | hge
    · rw [List.getElem?_append_left hlt] at hr
      have ha2 : tickerActive i
          ({ w1 with tickers := (stopPrevious key w).tickers } : World σ V) = true := by
        unfold tickerActive at ha ⊢
        rw [hT, List.getElem?_append_left (by omega)] at ha
        exact ha
      obtain ⟨hact, hne⟩ := tickerActive_stopPrevious key w _ i rfl ha2
      have hreg := h3 i r hr hact
      have hk : r.key ≠ key := fun hk => hne (hk ▸ hreg)
      rw [find_put_of_ne key r.key _ _ hk]
      exact hreg
    · rw [List.getElem?_append_right hge] at hr
      rcases hi : i - w.routines.length with _ | n
      · rw [hi] at hr
        simp only [List.getElem?_cons_zero, Option.some.injEq] at hr
        subst hr
        simp only
        have : i = w.tickers.length := by omega
        rw [this]
        exact find_put_self _ _ _
      · rw [hi] at hr
        simp at hr

theorem RegistryInv_Close {σ V : Type} (w : World σ V) (h : RegistryInv w) :
    RegistryInv (Close w).2 := by
  obtain ⟨h1, h2, h3⟩ := h
  refine ⟨?_, ?_, ?_⟩
  · rw [Close_routines, Close_tickers, stopAll_tickers_length, h1]
  · intro i r hr
    rw [Close_routines] at hr
    exact h2 i r hr
  · intro i r hr ha
    exfalso
    rw [Close_routines] at hr
    unfold tickerActive at ha
    rw [Close_tickers, stopAll_getElem] at ha
    by_cases hmem : i ∈ w.refreshers.map Prod.snd
    · rw [if_pos hmem, stopped_not_active] at ha
      cases ha
    · rw [if_neg hmem] at ha
      have hreg := h3 i r hr (by unfold tickerActive; exact ha)
      exact hmem (List.mem_map.mpr ⟨(r.key, i), find_some_mem _ _ _ hreg, rfl⟩)

theorem RegistryInv_NewCacheService {σ V : Type} (store : List (String × Entry))
    (faults : List (Option String)) (src : σ) :
    RegistryInv (NewCacheService store faults src : World σ V) := by
  unfold RegistryInv NewCacheService
  simp [issue_routines, issue_tickers]

theorem RegistryInv_run {σ V : Type} (J : Codec V) (c : Call σ V) (w : World σ V)
    (h : RegistryInv w) : RegistryInv (c.run J w) := by
  cases c with
  | close => exact RegistryInv_Close w h
  | setWithRefreshAhead key refreshFunc ttl refreshBefore =>
    rcases SetWithRefreshAhead_registry J key refreshFunc ttl refreshBefore w with
      ⟨hT, hR, hF⟩ | ⟨hT, hR, hF⟩
    · exact RegistryInv_stop key w _ h hT hR hF
    · exact RegistryInv_install key refreshFunc ttl _ w _ h hT hR hF

theorem RegistryInv_runCalls {σ V : Type} (J : Codec V) (calls : List (Call σ V))
    (w : World σ V) (h : RegistryInv w) : RegistryInv (runCalls J calls w) := by
  induction calls generalizing w with
  | nil => exact h
  | cons c rest ih => exact ih _ (RegistryInv_run J c w h)

theorem activeSchedules_length_le_one {σ V : Type} (key : String) (w : World σ V)
    (h : RegistryInv w) : (activeSchedules key w).length ≤ 1 := by
  obtain ⟨_, h2, h3⟩ := h
  have hall : ∀ a ∈ activeSchedules key w, find key w.refreshers = some a := by
    intro a ha
    unfold activeSchedules at ha
    rw [List.mem_filter] at ha
    obtain ⟨_, hp⟩ := ha
    rcases hr : w.routines[a]? with _ | r
    · rw [hr] at hp
      simp at hp
    · rw [hr] at hp
      simp only [Bool.and_eq_true, beq_iff_eq] at hp
      have hidx := h2 a r hr
      rw [hidx] at hp
      have := h3 a r hr hp.2
      rw [hp.1] at this
      exact this
  have hnd : (activeSchedules key w).Nodup :=
    List.Nodup.filter _ (List.nodup_range _)
  rcases hl : activeSchedules key w with _ | ⟨a, _ | ⟨b, t⟩⟩
  · simp
  · simp
  · exfalso
    rw [hl] at hall hnd
    have ha := hall a (by simp)
    have hb := hall b (by simp)
    have hab : a = b := Option.some.inj (ha.symm.trans hb)
    subst hab
    simp at hnd

/-- C11: starting from a freshly constructed `CacheService`, after every finite
sequence of `SetWithRefreshAhead` and `Close` calls (whatever each call returns),
for every key at most one of the schedules ever created for that key is still
active. -/
theorem at_most_one_active_schedule {σ V : Type} (J : Codec V)
    (store : List (String × Entry)) (faults : List (Option String)) (src : σ)
    (calls : List (Call σ V)) (key : String) :
    (activeSchedules key (runCalls J calls (NewCacheService store faults src))).length ≤ 1 :=
  activeSchedules_length_le_one key _
    (RegistryInv_runCalls J calls _ (RegistryInv_NewCacheService store faults src))

theorem at_most_one_active_schedule_witness :
    (runCalls demoCodec
        [Call.setWithRefreshAhead "k" demoFetch 10 4, Call.setWithRefreshAhead "k" demoFetch 10 2,
          Call.setWithRefreshAhead "k" failFetch 10 2, Call.setWithRefreshAhead "j" demoFetch 9 1]
        (NewCacheService [] [] 0)).tickers = [⟨6, false⟩, ⟨8, false⟩, ⟨8, true⟩] ∧
    (activeSchedules "k" (runCalls demoCodec
        [Call.setWithRefreshAhead "k" demoFetch 10 4, Call.setWithRefreshAhead "k" demoFetch 10 2,
          Call.setWithRefreshAhead "k" failFetch 10 2, Call.setWithRefreshAhead "j" demoFetch 9 1]
        (NewCacheService [] [] 0))).length ≤ 1 :=
  ⟨by decide,
    at_most_one_active_schedule demoCodec [] [] 0
      [Call.setWithRefreshAhead "k" demoFetch 10 4, Call.setWithRefreshAhead "k" demoFetch 10 2,
        Call.setWithRefreshAhead "k" failFetch 10 2, Call.setWithRefreshAhead "j" demoFetch 9 1]
      "k"⟩

/-! ## The refresh goroutine -/

theorem refreshBody_fetchCount {σ V : Type} (J : Codec V) (r : Routine σ V) (w : World σ V) :
    fetchCount (refreshBody J r w).trace = fetchCount w.trace + 1 := by
  unfold refreshBody callFetch
  cases (r.refreshFunc w.src).1 with
  | error e => simp [fetchCount_append, fetchCount]
  | ok d =>
    simp only
    cases J.marshal d with
    | error e => simp [fetchCount_append, fetchCount]
    | ok data => simp [rdbSet_trace, fetchCount_append, fetchCount]

theorem refreshBody_registry {σ V : Type} (J : Codec V) (r : Routine σ V) (w : World σ V) :
    (refreshBody J r w).tickers = w.tickers ∧ (refreshBody J r w).refreshers = w.refreshers ∧
      (refreshBody J r w).routines = w.routines := by
  unfold refreshBody callFetch
  cases (r.refreshFunc w.src).1 with
  | error e => exact ⟨rfl, rfl, rfl⟩
  | ok d =>
    simp only
    cases J.marshal d with
    | error e => exact ⟨rfl, rfl, rfl⟩
    | ok data => exact ⟨rdbSet_tickers _ _ _ _, rdbSet_refreshers _ _ _ _, rdbSet_routines _ _ _ _⟩

theorem refreshBody_store_of_error {σ V : Type} (J : Codec V) (r : Routine σ V)
    (w : World σ V) (e : Error) (hf : (r.refreshFunc w.src).1 = Except.error e) :
    (refreshBody J r w).store = w.store := by
  unfold refreshBody callFetch
  simp [hf]

theorem refreshBody_store_of_ok {σ V : Type} (J : Codec V) (r : Routine σ V)
    (w : World σ V) (d : V) (data : String) (hf : (r.refreshFunc w.src).1 = Except.ok d)
    (hm : J.marshal d = Except.ok data) (hh : healthy 1 w = true) :
    (refreshBody J r w).store = put r.key ⟨RValue.str data, r.ttl⟩ w.store := by
  unfold refreshBody callFetch
  simp only [hf, hm]
  have hi : (issue (Cmd.set r.key data r.ttl)
      { w with src := (r.refreshFunc w.src).2, trace := w.trace ++ [Event.fetch] }).1 = none :=
    (issue_healthy _ 0 _ (by simpa [healthy] using hh)).1
  rw [rdbSet_of_ok _ _ _ _ hi]

theorem refreshBody_store_other {σ V : Type} (J : Codec V) (r : Routine σ V) (w : World σ V)
    (k : String) (hk : k ≠ r.key) : find k (refreshBody J r w).store = find k w.store := by
  unfold refreshBody callFetch
  cases (r.refreshFunc w.src).1 with
  | error e => rfl
  | ok d =>
    simp only
    cases J.marshal d with
    | error e => rfl
    | ok data =>
      simp only
      cases hi : (issue (Cmd.set r.key data r.ttl)
          { w with src := (r.refreshFunc w.src).2, trace := w.trace ++ [Event.fetch] }).1 with
      | none =>
        rw [rdbSet_of_ok _ _ _ _ hi]
        exact find_put_of_ne _ _ _ _ hk
      | some e =>
        rw [rdbSet_of_err _ _ _ _ e hi, issue_store]

theorem tick_of_active {σ V : Type} (J : Codec V) (i : Nat) (w : World σ V)
    (r : Routine σ V) (hr : w.routines[i]? = some r) (ha : tickerActive r.ticker w = true) :
    tick J i w = refreshBody J r w := by
  unfold tick
  rw [hr]
  simp [ha]

/-- C13: a firing of the goroutine that `SetWithRefreshAhead` started with `key`,
`refreshFunc` and `ttl` (the `i`-th goroutine, whose ticker is active) runs
`refreshFunc` exactly once; when `refreshFunc` succeeds with a value whose encoding
is `data` and the client carries out the `SET`, afterwards `key` holds `data` with the
`ttl` of the installation and every other key is bound as before; when `refreshFunc`
fails the store is as before; in every case no key other than `key` changes, and the
tickers, the registry and the goroutines are untouched, so the ticker is still active and the next firing runs
`refreshFunc` again. -/
theorem tick_refreshes {σ V : Type} (J : Codec V) (i : Nat) (w : World σ V)
    (r : Routine σ V) (hr : w.routines[i]? = some r) (ha : tickerActive r.ticker w = true) :
    fetchCount (tick J i w).trace = fetchCount w.trace + 1 ∧
      (∀ d data, (r.refreshFunc w.src).1 = Except.ok d → J.marshal d = Except.ok data →
        healthy 1 w = true →
        find r.key (tick J i w).store = some ⟨RValue.str data, r.ttl⟩ ∧
          ∀ k, k ≠ r.key → find k (tick J i w).store = find k w.store) ∧
      (∀ e, (r.refreshFunc w.src).1 = Except.error e → (tick J i w).store = w.store) ∧
      (∀ k, k ≠ r.key → find k (tick J i w).store = find k w.store) ∧
      (tick J i w).tickers = w.tickers ∧
      (tick J i w).refreshers = w.refreshers ∧
      (tick J i w).routines = w.routines ∧
      tickerActive r.ticker (tick J i w) = true ∧
      fetchCount (tick J i (tick J i w)).trace = fetchCount (tick J i w).trace + 1 := by
  have ht := tick_of_active J i w r hr ha
  obtain ⟨hT, hF, hR⟩ := refreshBody_registry J r w
  have ha2 : tickerActive r.ticker (refreshBody J r w) = true := by
    unfold tickerActive at ha ⊢
    rw [hT]
    exact ha
  have hr2 : (refreshBody J r w).routines[i]? = some r := by rw [hR]; exact hr
  rw [tick_of_active J i (tick J i w) r (ht ▸ hr2) (ht ▸ ha2), ht]
  refine ⟨refreshBody_fetchCount J r w, ?_, ?_, refreshBody_store_other J r w, hT, hF, hR, ha2,
    refreshBody_fetchCount J r _⟩
  · intro d data hf hm hh
    rw [refreshBody_store_of_ok J r w d data hf hm hh]
    exact ⟨find_put_self _ _ _, fun k hk => find_put_of_ne _ _ _ _ hk⟩
  · intro e hf
    exact refreshBody_store_of_error J r w e hf

theorem tick_refreshes_witness :
    (SetWithRefreshAhead demoCodec "k" demoFetch 10 4 (demoWorld [])).2.routines[0]? =
        some ⟨0, "k", demoFetch, 10⟩ ∧
    tickerActive 0 (SetWithRefreshAhead demoCodec "k" demoFetch 10 4 (demoWorld [])).2 = true ∧
    find "k" (SetWithRefreshAhead demoCodec "k" demoFetch 10 4 (demoWorld [])).2.store =
        some ⟨RValue.str "#v0", 10⟩ ∧
    find "k" (tick demoCodec 0
        (SetWithRefreshAhead demoCodec "k" demoFetch 10 4 (demoWorld [])).2).store =
        some ⟨RValue.str "#v1", 10⟩ ∧
    fetchCount (tick demoCodec 0
        (SetWithRefreshAhead demoCodec "k" demoFetch 10 4 (demoWorld [])).2).trace =
      fetchCount (SetWithRefreshAhead demoCodec "k" demoFetch 10 4 (demoWorld [])).2.trace + 1 ∧
    tickerActive 0 (tick demoCodec 0
        (SetWithRefreshAhead demoCodec "k" demoFetch 10 4 (demoWorld [])).2) = true :=
  ⟨rfl, by decide, by decide, by decide,
    (tick_refreshes demoCodec 0
      (SetWithRefreshAhead demoCodec "k" demoFetch 10 4 (demoWorld [])).2
      ⟨0, "k", demoFetch, 10⟩ rfl (by decide)).1,
    (tick_refreshes demoCodec 0
      (SetWithRefreshAhead demoCodec "k" demoFetch 10 4 (demoWorld [])).2
      ⟨0, "k", demoFetch, 10⟩ rfl (by decide)).2.2.2.2.2.2.2.1⟩

/-! ## Tagged entries -/

theorem rdbSAdd_world {σ V : Type} (tk m : String) (w : World σ V) :
    (rdbSAdd tk m w).2 =
      { (issue (Cmd.sadd tk m) w).2 with store := (rdbSAdd tk m w).2.store } := by
  unfold rdbSAdd
  rcases issue (Cmd.sadd tk m) w with ⟨r, w1⟩
  cases r with
  | some e => rfl
  | none =>
    simp only
    rcases find tk w1.store with _ | ⟨v, ex⟩
    · rfl
    · cases v with
      | str d => rfl
      | set ms =>
        simp only
        split <;> rfl

theorem rdbExpire_world {σ V : Type} (tk : String) (ex : Duration) (w : World σ V) :
    (rdbExpire tk ex w).2 =
      { (issue (Cmd.expire tk ex) w).2 with store := (rdbExpire tk ex w).2.store } := by
  unfold rdbExpire
  rcases issue (Cmd.expire tk ex) w with ⟨r, w1⟩
  cases r with
  | some e => rfl
  | none =>
    simp only
    rcases find tk w1.store with _ | e
    · rfl
    · simp only
      split <;> rfl

theorem healthy_congr {σ V : Type} (n : Nat) (a b : World σ V) (hc : a.closed = b.closed)
    (hf : a.faults = b.faults) : healthy n a = healthy n b := by
  unfold healthy
  rw [hc, hf]

theorem rdbSAdd_healthy {σ V : Type} (tk m : String) (n : Nat) (w : World σ V)
    (h : healthy (n + 1) w = true) : healthy n (rdbSAdd tk m w).2 = true := by
  rw [rdbSAdd_world]
  exact (healthy_congr n _ _ rfl rfl).trans (issue_healthy (Cmd.sadd tk m) n w h).2

theorem rdbExpire_healthy {σ V : Type} (tk : String) (ex : Duration) (n : Nat)
    (w : World σ V) (h : healthy (n + 1) w = true) :
    healthy n (rdbExpire tk ex w).2 = true := by
  rw [rdbExpire_world]
  exact (healthy_congr n _ _ rfl rfl).trans (issue_healthy (Cmd.expire tk ex) n w h).2

/-- What a successful `SADD` does to the table. -/
theorem rdbSAdd_of_none {σ V : Type} (tk m : String) (w : World σ V)
    (h : (rdbSAdd tk m w).1 = none) :
    (find tk w.store = none ∧
        (rdbSAdd tk m w).2.store = put tk ⟨RValue.set [m], 0⟩ w.store) ∨
      (∃ ms ex, find tk w.store = some ⟨RValue.set ms, ex⟩ ∧
        (((rdbSAdd tk m w).2.store = w.store ∧ m ∈ ms) ∨
          (rdbSAdd tk m w).2.store = put tk ⟨RValue.set (ms ++ [m]), ex⟩ w.store)) := by
  have hs := issue_store (Cmd.sadd tk m) w
  unfold rdbSAdd at h ⊢
  rcases hi : issue (Cmd.sadd tk m) w with ⟨r, w1⟩
  rw [hi] at h hs
  simp only at hs
  cases r with
  | some e => simp at h
  | none =>
    simp only at h ⊢
    rw [hs] at h ⊢
    rcases hf : find tk w.store with _ | ⟨v, ex⟩
    · exact Or.inl ⟨rfl, rfl⟩
    · cases v with
      | str d => rw [hf] at h; simp at h
      | set ms =>
        refine Or.inr ⟨ms, ex, rfl, ?_⟩
        simp only
        by_cases hc : ms.contains m = true
        · rw [if_pos hc]
          exact Or.inl ⟨hs, by simpa using hc⟩
        · rw [if_neg hc]
          exact Or.inr rfl

/-- What `EXPIRE` with a positive time to live does to the table. -/
theorem rdbExpire_store {σ V : Type} (tk : String) (ex : Duration) (w : World σ V)
    (hpos : ex > 0) :
    (rdbExpire tk ex w).2.store = w.store ∨
      ∃ e, find tk w.store = some e ∧
        (rdbExpire tk ex w).2.store = put tk { e with expiration := formatSec ex * Second } w.store := by
  have hs := issue_store (Cmd.expire tk ex) w
  unfold rdbExpire
  rcases hi : issue (Cmd.expire tk ex) w with ⟨r, w1⟩
  rw [hi] at hs
  simp only at hs
  cases r with
  | some e => exact Or.inl hs
  | none =>
    simp only
    rw [hs]
    rcases hf : find tk w.store with _ | e
    · exact Or.inl hs
    · simp only
      rw [if_neg (not_le.mpr (formatSec_pos ex hpos))]
      exact Or.inr ⟨e, rfl, rfl⟩

theorem rdbExpire_store_of_healthy {σ V : Type} (tk : String) (ex : Duration) (w : World σ V)
    (hpos : ex > 0) (hh : healthy 1 w = true) (e : Entry) (hf : find tk w.store = some e) :
    (rdbExpire tk ex w).2.store = put tk { e with expiration := formatSec ex * Second } w.store := by
  have hs := issue_store (Cmd.expire tk ex) w
  have hi := (issue_healthy (Cmd.expire tk ex) 0 w hh).1
  unfold rdbExpire
  rcases hi2 : issue (Cmd.expire tk ex) w with ⟨r, w1⟩
  rw [hi2] at hs hi
  simp only at hs hi
  subst hi
  simp only
  rw [hs, hf]
  simp only
  rw [if_neg (not_le.mpr (formatSec_pos ex hpos))]

theorem find_put {β : Type} (k k' : String) (e : β) (s : List (String × β)) :
    find k' (put k e s) = if k' = k then some e else find k' s := by
  by_cases h : k' = k
  · subst h
    simp [find_put_self]
  · simp [h, find_put_of_ne k k' e s h]

/-- One round of the loop of `SetWithTags` whose `SADD` succeeds: every set keeps its
members and its time to live, except that the tag set gains `key` and, when
`expiration` is positive, may have its time to live set to the whole seconds of
`expiration`. -/
theorem afterTag_facts {σ V : Type} (key : String) (expiration : Duration) (tag : String)
    (w : World σ V) (hS : (rdbSAdd ("tag:" ++ tag) key w).1 = none) :
    (∀ k ms ex, find k w.store = some ⟨RValue.set ms, ex⟩ →
        ∃ ms' ex', find k (afterTag key expiration tag w).store = some ⟨RValue.set ms', ex'⟩ ∧
          ms ⊆ ms' ∧ (ex' = ex ∨ (expiration > 0 ∧ ex' = formatSec expiration * Second))) ∧
      (∃ ms' ex', find ("tag:" ++ tag) (afterTag key expiration tag w).store =
          some ⟨RValue.set ms', ex'⟩ ∧ key ∈ ms' ∧
          (expiration > 0 → healthy 2 w = true → ex' = formatSec expiration * Second)) ∧
      (∀ d e, find key w.store = some ⟨RValue.str d, e⟩ →
        find key (afterTag key expiration tag w).store = some ⟨RValue.str d, e⟩ ∧
          "tag:" ++ tag ≠ key) := by
  -- the table after SADD
  have hadd : ∃ ms1 ex1,
      find ("tag:" ++ tag) (rdbSAdd ("tag:" ++ tag) key w).2.store =
        some ⟨RValue.set ms1, ex1⟩ ∧ key ∈ ms1 ∧
      (∀ k, k ≠ "tag:" ++ tag →
        find k (rdbSAdd ("tag:" ++ tag) key w).2.store = find k w.store) ∧
      (∀ ms ex, find ("tag:" ++ tag) w.store = some ⟨RValue.set ms, ex⟩ →
        ms ⊆ ms1 ∧ ex1 = ex) ∧
      (∀ d e, find ("tag:" ++ tag) w.store ≠ some ⟨RValue.str d, e⟩) := by
    rcases rdbSAdd_of_none _ _ w hS with ⟨hnone, hst⟩ | ⟨ms, ex, hf, ⟨hst, hmem⟩ | hst⟩
    · refine ⟨[key], 0, ?_, by simp, ?_, ?_, ?_⟩
      · rw [hst, find_put_self]
      · intro k hk
        rw [hst, find_put_of_ne _ _ _ _ hk]
      · intro ms ex hf
        rw [hnone] at hf
        cases hf
      · intro d e hf
        rw [hnone] at hf
        cases hf
    · refine ⟨ms, ex, ?_, hmem, ?_, ?_, ?_⟩
      · rw [hst, hf]
      · intro k _
        rw [hst]
      · intro ms2 ex2 hf2
        rw [hf] at hf2
        simp only [Option.some.injEq, Entry.mk.injEq, RValue.set.injEq] at hf2
        obtain ⟨rfl, rfl⟩ := hf2
        exact ⟨List.Subset.refl _, rfl⟩
      · intro d e hf2
        rw [hf] at hf2
        simp at hf2
    · refine ⟨ms ++ [key], ex, ?_, by simp, ?_, ?_, ?_⟩
      · rw [hst, find_put_self]
      · intro k hk
        rw [hst, find_put_of_ne _ _ _ _ hk]
      · intro ms2 ex2 hf2
        rw [hf] at hf2
        simp only [Option.some.injEq, Entry.mk.injEq, RValue.set.injEq] at hf2
        obtain ⟨rfl, rfl⟩ := hf2
        exact ⟨List.subset_append_left _ _, rfl⟩
      · intro d e hf2
        rw [hf] at hf2
        simp at hf2
  obtain ⟨ms1, ex1, hf1, hk1, hoth1, hold1, hnostr⟩ := hadd
  -- the table after the optional EXPIRE
  have hfin : ∃ ex2,
      find ("tag:" ++ tag) (afterTag key expiration tag w).store =
        some ⟨RValue.set ms1, ex2⟩ ∧
      (ex2 = ex1 ∨ (expiration > 0 ∧ ex2 = formatSec expiration * Second)) ∧
      (expiration > 0 → healthy 2 w = true → ex2 = formatSec expiration * Second) ∧
      (∀ k, k ≠ "tag:" ++ tag →
        find k (afterTag key expiration tag w).store = find k w.store) := by
    unfold afterTag
    by_cases hpos : expiration > 0
    · rw [if_pos hpos]
      have hh1 : healthy 2 w = true →
          healthy 1 (rdbSAdd ("tag:" ++ tag) key w).2 = true :=
        fun hh => rdbSAdd_healthy _ _ 1 w hh
      rcases rdbExpire_store ("tag:" ++ tag) expiration
          (rdbSAdd ("tag:" ++ tag) key w).2 hpos with hsame | ⟨e, he, hput⟩
      · refine ⟨ex1, ?_, Or.inl rfl, ?_, ?_⟩
        · rw [hsame, hf1]
        · intro _ hh
          have := rdbExpire_store_of_healthy ("tag:" ++ tag) expiration _ hpos (hh1 hh) _ hf1
          rw [hsame] at this
          have h2 := congrArg (find ("tag:" ++ tag)) this
          rw [hf1, find_put_self] at h2
          simp only [Option.some.injEq, Entry.mk.injEq, true_and] at h2
          exact h2
        · intro k hk
          rw [hsame]
          exact hoth1 k hk
      · rw [hf1] at he
        simp only [Option.some.injEq] at he
        subst he
        refine ⟨formatSec expiration * Second, ?_, Or.inr ⟨hpos, rfl⟩, fun _ _ => rfl, ?_⟩
        · rw [hput, find_put_self]
        · intro k hk
          rw [hput, find_put_of_ne _ _ _ _ hk]
          exact hoth1 k hk
    · rw [if_neg hpos]
      exact ⟨ex1, hf1, Or.inl rfl, fun h => absurd h hpos, hoth1⟩
  obtain ⟨ex2, hf2, hex2, hex2h, hoth2⟩ := hfin
  refine ⟨?_, ⟨ms1, ex2, hf2, hk1, hex2h⟩, ?_⟩
  · intro k ms ex hf
    by_cases hk : k = "tag:" ++ tag
    · subst hk
      obtain ⟨hsub, hex⟩ := hold1 ms ex hf
      refine ⟨ms1, ex2, hf2, hsub, ?_⟩
      rw [← hex]
      exact hex2
    · exact ⟨ms, ex, (hoth2 k hk).trans hf, List.Subset.refl _, Or.inl rfl⟩
  · intro d e hf
    have hne : "tag:" ++ tag ≠ key := fun heq => hnostr d e (heq ▸ hf)
    exact ⟨(hoth2 key (Ne.symm hne)).trans hf, hne⟩

theorem healthy_mono {σ V : Type} (m n : Nat) (w : World σ V) (hmn : m ≤ n)
    (h : healthy n w = true) : healthy m w = true := by
  unfold healthy at h ⊢
  simp only [Bool.and_eq_true, List.all_eq_true] at h ⊢
  exact ⟨h.1, fun x hx => h.2 x (List.take_subset_take_left w.faults hmn hx)⟩

theorem afterTag_healthy {σ V : Type} (key : String) (expiration : Duration) (tag : String)
    (n : Nat) (w : World σ V) (h : healthy (n + 2) w = true) :
    healthy n (afterTag key expiration tag w) = true := by
  unfold afterTag
  have h1 := rdbSAdd_healthy ("tag:" ++ tag) key (n + 1) w h
  split
  · exact rdbExpire_healthy _ _ n _ h1
  · exact healthy_of_succ n _ h1

theorem tagLoop_cons_of_none {σ V : Type} (key : String) (expiration : Duration)
    (tag : String) (rest : List String) (w : World σ V)
    (h : (tagLoop key expiration (tag :: rest) w).1 = none) :
    (rdbSAdd ("tag:" ++ tag) key w).1 = none ∧
      tagLoop key expiration (tag :: rest) w =
        tagLoop key expiration rest (afterTag key expiration tag w) := by
  have heq : tagLoop key expiration (tag :: rest) w =
      match rdbSAdd ("tag:" ++ tag) key w with
      | (some err, w1) => (some err, w1)
      | (none, w1) =>
        tagLoop key expiration rest
          (if expiration > 0 then (rdbExpire ("tag:" ++ tag) expiration w1).2 else w1) := by
    rw [tagLoop]
  rw [heq] at h ⊢
  unfold afterTag
  rcases hs : rdbSAdd ("tag:" ++ tag) key w with ⟨r, w1⟩
  rw [hs] at h
  cases r with
  | some e => simp at h
  | none =>
    exact ⟨rfl, rfl⟩

/-- The loop of `SetWithTags`, when it ends without an error. -/
theorem tagLoop_facts {σ V : Type} (key : String) (expiration : Duration)
    (tags : List String) (w : World σ V)
    (h : (tagLoop key expiration tags w).1 = none) :
    (∀ k ms ex, find k w.store = some ⟨RValue.set ms, ex⟩ →
        ∃ ms' ex', find k (tagLoop key expiration tags w).2.store =
            some ⟨RValue.set ms', ex'⟩ ∧
          ms ⊆ ms' ∧ (ex' = ex ∨ (expiration > 0 ∧ ex' = formatSec expiration * Second))) ∧
      (∀ t ∈ tags, ∃ ms' ex', find ("tag:" ++ t) (tagLoop key expiration tags w).2.store =
          some ⟨RValue.set ms', ex'⟩ ∧ key ∈ ms' ∧
          (expiration > 0 → healthy (2 * tags.length) w = true → ex' = formatSec expiration * Second)) ∧
      (∀ d e, find key w.store = some ⟨RValue.str d, e⟩ →
        find key (tagLoop key expiration tags w).2.store = some ⟨RValue.str d, e⟩ ∧
          ∀ t ∈ tags, "tag:" ++ t ≠ key) := by
  induction tags generalizing w with
  | nil =>
    refine ⟨fun k ms ex hf => ⟨ms, ex, hf, List.Subset.refl _, Or.inl rfl⟩, ?_, ?_⟩
    · intro t ht
      cases ht
    · intro d e hf
      exact ⟨hf, fun t ht => by cases ht⟩
  | cons tag rest ih =>
    obtain ⟨hS, hstep⟩ := tagLoop_cons_of_none key expiration tag rest w h
    rw [hstep] at h ⊢
    obtain ⟨t1, ⟨ms0, ex0, hf0, hk0, hex0⟩, t3⟩ := afterTag_facts key expiration tag w hS
    obtain ⟨l1, l2, l3⟩ := ih (afterTag key expiration tag w) h
    refine ⟨?_, ?_, ?_⟩
    · intro k ms ex hf
      obtain ⟨ms1, ex1, hf1, hsub1, hex1⟩ := t1 k ms ex hf
      obtain ⟨ms2, ex2, hf2, hsub2, hex2⟩ := l1 k ms1 ex1 hf1
      refine ⟨ms2, ex2, hf2, fun x hx => hsub2 (hsub1 hx), ?_⟩
      rcases hex2 with h2 | h2
      · rw [h2]
        exact hex1
      · exact Or.inr h2
    · intro t ht
      rcases List.mem_cons.mp ht with rfl | hrest
      · obtain ⟨ms2, ex2, hf2, hsub2, hex2⟩ := l1 _ ms0 ex0 hf0
        refine ⟨ms2, ex2, hf2, hsub2 hk0, ?_⟩
        intro hpos hh
        have h0 : ex0 = formatSec expiration * Second :=
          hex0 hpos (healthy_mono 2 _ w (by simp) hh)
        rcases hex2 with h2 | h2
        · rw [h2, h0]
        · exact h2.2
      · obtain ⟨ms2, ex2, hf2, hk2, hex2⟩ := l2 t hrest
        refine ⟨ms2, ex2, hf2, hk2, ?_⟩
        intro hpos hh
        apply hex2 hpos
        apply afterTag_healthy
        have : 2 * (tag :: rest).length = 2 * rest.length + 2 := by simp; omega
        rw [this] at hh
        exact hh
    · intro d e hf
      obtain ⟨hf1, hne⟩ := t3 d e hf
      obtain ⟨hf2, hne2⟩ := l3 d e hf1
      refine ⟨hf2, ?_⟩
      intro t ht
      rcases List.mem_cons.mp ht with rfl | hrest
      · exact hne
      · exact hne2 t hrest

theorem Set_of_none {σ V : Type} (J : Codec V) (key : String) (value : V)
    (expiration : Duration) (w : World σ V) (h : (Set J key value expiration w).1 = none) :
    ∃ data, J.marshal value = Except.ok data ∧
      (issue (Cmd.set key data expiration) w).1 = none ∧
      Set J key value expiration w = (none, afterSet key data expiration w) := by
  unfold Set at h ⊢
  cases hm : J.marshal value with
  | error e => simp [hm] at h
  | ok data =>
    simp only [hm] at h ⊢
    rw [rdbSet_fst] at h
    exact ⟨data, rfl, h, rdbSet_of_ok _ _ _ _ h⟩

theorem SetWithTags_of_none {σ V : Type} (J : Codec V) (key : String) (value : V)
    (expiration : Duration) (tags : List String) (w : World σ V)
    (h : (SetWithTags J key value expiration tags w).1 = none) :
    ∃ data, J.marshal value = Except.ok data ∧
      (issue (Cmd.set key data expiration) w).1 = none ∧
      SetWithTags J key value expiration tags w =
        tagLoop key expiration tags (afterSet key data expiration w) := by
  unfold SetWithTags at h ⊢
  cases hs : (Set J key value expiration w).1 with
  | some e =>
    rw [show Set J key value expiration w = (some e, (Set J key value expiration w).2) from
      Prod.ext hs rfl] at h
    simp at h
  | none =>
    obtain ⟨data, hm, hi, heq⟩ := Set_of_none J key value expiration w hs
    exact ⟨data, hm, hi, by rw [heq]⟩

theorem KeepsTTL_refl (s : List (String × Entry)) : KeepsTTL s s := by
  intro k
  refine ⟨fun e he => ⟨e, he, rfl⟩, ?_⟩
  intro hn e' he'
  rw [hn] at he'
  cases he'

theorem KeepsTTL_trans (a b c : List (String × Entry)) (h1 : KeepsTTL a b)
    (h2 : KeepsTTL b c) : KeepsTTL a c := by
  intro k
  obtain ⟨p1, q1⟩ := h1 k
  obtain ⟨p2, q2⟩ := h2 k
  refine ⟨?_, ?_⟩
  · intro e he
    obtain ⟨e1, he1, hx1⟩ := p1 e he
    obtain ⟨e2, he2, hx2⟩ := p2 e1 he1
    exact ⟨e2, he2, hx2.trans hx1⟩
  · intro hn e' he'
    cases hb : find k b with
    | none => exact q2 hb e' he'
    | some e1 =>
      obtain ⟨e2, he2, hx2⟩ := p2 e1 hb
      rw [he'] at he2
      simp only [Option.some.injEq] at he2
      subst he2
      rw [hx2]
      exact q1 hn e1 hb

/-- `SADD` keeps every time to live, and a set that it creates has none. -/
theorem rdbSAdd_keepsTTL {σ V : Type} (tk m : String) (w : World σ V) :
    KeepsTTL w.store (rdbSAdd tk m w).2.store := by
  have hs := issue_store (Cmd.sadd tk m) w
  unfold rdbSAdd
  rcases hi : issue (Cmd.sadd tk m) w with ⟨r, w1⟩
  rw [hi] at hs
  simp only at hs
  cases r with
  | some e =>
    simp only
    rw [hs]
    exact KeepsTTL_refl _
  | none =>
    simp only
    rw [hs]
    rcases hf : find tk w.store with _ | ⟨v, ex⟩
    · simp only
      intro k
      by_cases hk : k = tk
      · subst hk
        refine ⟨?_, ?_⟩
        · intro e he
          rw [hf] at he
          cases he
        · intro _ e' he'
          rw [find_put_self] at he'
          simp only [Option.some.injEq] at he'
          subst he'
          rfl
      · rw [find_put_of_ne _ _ _ _ hk]
        exact KeepsTTL_refl _ k
    · cases v with
      | str d =>
        simp only
        rw [hs]
        exact KeepsTTL_refl _
      | set ms =>
        simp only
        split
        · rw [hs]
          exact KeepsTTL_refl _
        · simp only
          intro k
          by_cases hk : k = tk
          · subst hk
            refine ⟨?_, ?_⟩
            · intro e he
              rw [hf] at he
              simp only [Option.some.injEq] at he
              subst he
              exact ⟨_, find_put_self _ _ _, rfl⟩
            · intro hn
              rw [hf] at hn
              cases hn
          · rw [find_put_of_ne _ _ _ _ hk]
            exact KeepsTTL_refl _ k

/-- Without an `EXPIRE` (`expiration` not positive) the loop of `SetWithTags` keeps
every time to live, and the sets it creates have none. -/
theorem tagLoop_keepsTTL {σ V : Type} (key : String) (expiration : Duration)
    (tags : List String) (w : World σ V) (hle : expiration ≤ 0) :
    KeepsTTL w.store (tagLoop key expiration tags w).2.store := by
  induction tags generalizing w with
  | nil => exact KeepsTTL_refl _
  | cons tag rest ih =>
    rw [tagLoop]
    have h1 := rdbSAdd_keepsTTL ("tag:" ++ tag) key w
    rcases hs : rdbSAdd ("tag:" ++ tag) key w with ⟨r, w1⟩
    rw [hs] at h1
    cases r with
    | some e => exact h1
    | none =>
      simp only
      rw [if_neg (not_lt.mpr hle)]
      exact KeepsTTL_trans _ _ _ h1 (ih w1)

/-- C17 (as amended): after a `SetWithTags` that returns no error, `key` holds the
encoding of the value, written by `SET` with the duration `expiration`, and is a
member of the set `tag:<t>` for every `t` in `tags`. When `expiration` is positive
and the client carries out every command of the call, each of these tag sets has the
time to live that go-redis sends with `EXPIRE`, the whole seconds of `expiration`:
one second when `expiration` is below one second, `expiration` itself when it is a
whole number of seconds, and otherwise at most `expiration` and less than a second
below it. When `expiration` is not positive no `EXPIRE` is sent: a tag set that
existed before the call keeps the time to live it had, and a tag set that the call
creates has none. -/
theorem SetWithTags_tagged {σ V : Type} (J : Codec V) (key : String) (value : V)
    (expiration : Duration) (tags : List String) (w : World σ V)
    (h : (SetWithTags J key value expiration tags w).1 = none) :
    ∃ data, J.marshal value = Except.ok data ∧
      find key (SetWithTags J key value expiration tags w).2.store =
        some ⟨RValue.str data, expiration⟩ ∧
      ∀ t ∈ tags, ∃ ms ex,
        find ("tag:" ++ t) (SetWithTags J key value expiration tags w).2.store =
          some ⟨RValue.set ms, ex⟩ ∧
        key ∈ ms ∧
        (expiration > 0 → healthy (1 + 2 * tags.length) w = true →
          ex = formatSec expiration * Second ∧
          (expiration < Second → ex = Second) ∧
          (expiration % Second = 0 → ex = expiration) ∧
          (Second ≤ expiration → ex ≤ expiration ∧ expiration < ex + Second)) ∧
        (expiration ≤ 0 →
          (∀ ms0 ex0, find ("tag:" ++ t) w.store = some ⟨RValue.set ms0, ex0⟩ → ex = ex0) ∧
          (find ("tag:" ++ t) w.store = none → ex = 0)) := by
  obtain ⟨data, hm, hi, heq⟩ := SetWithTags_of_none J key value expiration tags w h
  rw [heq] at h ⊢
  obtain ⟨l1, l2, l3⟩ := tagLoop_facts key expiration tags _ h
  have hentry : find key (afterSet key data expiration w).store =
      some ⟨RValue.str data, expiration⟩ := find_put_self _ _ _
  obtain ⟨hkey, hne⟩ := l3 data expiration hentry
  refine ⟨data, hm, hkey, ?_⟩
  intro t ht
  obtain ⟨ms, ex, hf, hk, hex⟩ := l2 t ht
  have hbefore : find ("tag:" ++ t) (afterSet key data expiration w).store =
      find ("tag:" ++ t) w.store := find_put_of_ne key _ _ _ (hne t ht)
  refine ⟨ms, ex, hf, hk, ?_, ?_⟩
  · intro hpos hh
    have hval : ex = formatSec expiration * Second := by
      apply hex hpos
      have h1 : healthy (2 * tags.length + 1) w = true := by
        rw [Nat.add_comm]
        exact hh
      exact (healthy_congr _ _ _ rfl rfl).trans
        (issue_healthy (Cmd.set key data expiration) _ w h1).2
    refine ⟨hval, ?_, ?_, ?_⟩
    · intro hlt
      rw [hval, formatSec_of_lt expiration hpos hlt]
      exact Int.one_mul _
    · intro hw
      rw [hval]
      exact formatSec_whole expiration hpos hw
    · intro hge
      rw [hval]
      exact formatSec_truncates expiration hge
  · intro hle
    obtain ⟨p, q⟩ := tagLoop_keepsTTL key expiration tags (afterSet key data expiration w) hle
      ("tag:" ++ t)
    rw [hbefore] at p q
    refine ⟨?_, ?_⟩
    · intro ms0 ex0 hf0
      obtain ⟨e', he', hx⟩ := p _ hf0
      rw [hf] at he'
      simp only [Option.some.injEq] at he'
      subst he'
      exact hx
    · intro hn
      exact q hn _ hf

theorem SetWithTags_tagged_witness :
    (SetWithTags demoCodec "k" "v" (90 * Second) ["sale", "new"]
        (demoWorld [("tag:sale", ⟨RValue.set ["a"], 5 * Second⟩)])).1 = none ∧
    healthy (1 + 2 * ["sale", "new"].length)
        (demoWorld [("tag:sale", ⟨RValue.set ["a"], 5 * Second⟩)]) = true ∧
    (SetWithTags demoCodec "k" "v" (90 * Second) ["sale", "new"]
        (demoWorld [("tag:sale", ⟨RValue.set ["a"], 5 * Second⟩)])).2.store =
      [("tag:new", ⟨RValue.set ["k"], 90 * Second⟩),
        ("tag:sale", ⟨RValue.set ["a", "k"], 90 * Second⟩),
        ("k", ⟨RValue.str "#v", 90 * Second⟩)] ∧
    ∃ data, demoCodec.marshal "v" = Except.ok data ∧
      find "k" (SetWithTags demoCodec "k" "v" (90 * Second) ["sale", "new"]
          (demoWorld [("tag:sale", ⟨RValue.set ["a"], 5 * Second⟩)])).2.store =
        some ⟨RValue.str data, 90 * Second⟩ ∧
      ∀ t ∈ ["sale", "new"], ∃ ms ex,
        find ("tag:" ++ t) (SetWithTags demoCodec "k" "v" (90 * Second) ["sale", "new"]
            (demoWorld [("tag:sale", ⟨RValue.set ["a"], 5 * Second⟩)])).2.store =
          some ⟨RValue.set ms, ex⟩ ∧
        "k" ∈ ms ∧
        (90 * Second > 0 → healthy (1 + 2 * ["sale", "new"].length)
            (demoWorld [("tag:sale", ⟨RValue.set ["a"], 5 * Second⟩)]) = true →
          ex = formatSec (90 * Second) * Second ∧
          (90 * Second < Second → ex = Second) ∧
          (90 * Second % Second = 0 → ex = 90 * Second) ∧
          (Second ≤ 90 * Second → ex ≤ 90 * Second ∧ 90 * Second < ex + Second)) ∧
        (90 * Second ≤ 0 →
          (∀ ms0 ex0,
            find ("tag:" ++ t) (demoWorld [("tag:sale", ⟨RValue.set ["a"], 5 * Second⟩)]).store =
              some ⟨RValue.set ms0, ex0⟩ → ex = ex0) ∧
          (find ("tag:" ++ t) (demoWorld [("tag:sale", ⟨RValue.set ["a"], 5 * Second⟩)]).store =
            none → ex = 0)) :=
  ⟨by decide, by decide, by decide,
    SetWithTags_tagged demoCodec "k" "v" (90 * Second) ["sale", "new"]
      (demoWorld [("tag:sale", ⟨RValue.set ["a"], 5 * Second⟩)]) (by decide)⟩

/-- C17, the claim as stated fails, in two ways. With an expiration of 1500
milliseconds the call succeeds and the entry is written with 1500 milliseconds,
while `EXPIRE` is sent with one whole second, so the tag set has a time to live of
one second and expires before the entry. With an expiration of 0 and a tag set that
an earlier call left with a time to live of 60 seconds, the call succeeds, the entry
has no expiry and the tag set keeps its 60 seconds. -/
theorem SetWithTags_ttl_counterexample :
    (SetWithTags demoCodec "k" "v" (1500 * Millisecond) ["sale"] (demoWorld [])).1 = none ∧
    find "k"
        (SetWithTags demoCodec "k" "v" (1500 * Millisecond) ["sale"] (demoWorld [])).2.store =
      some ⟨RValue.str "#v", 1500 * Millisecond⟩ ∧
    find "tag:sale"
        (SetWithTags demoCodec "k" "v" (1500 * Millisecond) ["sale"] (demoWorld [])).2.store =
      some ⟨RValue.set ["k"], 1 * Second⟩ ∧
    1 * Second < 1500 * Millisecond ∧
    (SetWithTags demoCodec "a" "v" (60 * Second) ["sale"] (demoWorld [])).1 = none ∧
    (SetWithTags demoCodec "k" "v" 0 ["sale"]
        (SetWithTags demoCodec "a" "v" (60 * Second) ["sale"] (demoWorld [])).2).1 = none ∧
    find "k" (SetWithTags demoCodec "k" "v" 0 ["sale"]
        (SetWithTags demoCodec "a" "v" (60 * Second) ["sale"] (demoWorld [])).2).2.store =
      some ⟨RValue.str "#v", 0⟩ ∧
    find "tag:sale" (SetWithTags demoCodec "k" "v" 0 ["sale"]
        (SetWithTags demoCodec "a" "v" (60 * Second) ["sale"] (demoWorld [])).2).2.store =
      some ⟨RValue.set ["a", "k"], 60 * Second⟩ := by
  decide

/-! ## Round trip -/

/-- C19 (as amended): when `Set(key, v, ttl)` returns no error and the client carries
out the next read, a following `GetWithCacheAside(key, dest, fetchFunc, ttl)` takes
the hit path: it does not run `fetchFunc`, leaves the store as `Set` left it, and
returns the error and the content of `dest` that decoding the encoding of `v` into
`dest` gives. So it returns no error with `v` in `dest` exactly when the codec
decodes the encoding of `v` into `dest` as `v`. -/
theorem Set_then_GetWithCacheAside {σ V : Type} (J : Codec V) (key : String) (v dest : V)
    (fetchFunc : σ → Except Error V × σ) (ttl : Duration) (w : World σ V)
    (hset : (Set J key v ttl w).1 = none)
    (hh : healthy 1 (Set J key v ttl w).2 = true) :
    ∃ data, J.marshal v = Except.ok data ∧
      (GetWithCacheAside J key dest fetchFunc ttl (Set J key v ttl w).2).1 =
        (J.unmarshal data dest).2 ∧
      (GetWithCacheAside J key dest fetchFunc ttl (Set J key v ttl w).2).2.1 =
        (J.unmarshal data dest).1 ∧
      fetchCount (GetWithCacheAside J key dest fetchFunc ttl (Set J key v ttl w).2).2.2.trace =
        fetchCount (Set J key v ttl w).2.trace ∧
      (GetWithCacheAside J key dest fetchFunc ttl (Set J key v ttl w).2).2.2.store =
        (Set J key v ttl w).2.store ∧
      (((GetWithCacheAside J key dest fetchFunc ttl (Set J key v ttl w).2).1 = none ∧
          (GetWithCacheAside J key dest fetchFunc ttl (Set J key v ttl w).2).2.1 = v) ↔
        J.unmarshal data dest = (v, none)) := by
  obtain ⟨data, hm, _, heq⟩ := Set_of_none J key v ttl w hset
  rw [heq] at hh ⊢
  simp only at hh ⊢
  have hf : find key (afterSet key data ttl w).store = some ⟨RValue.str data, ttl⟩ :=
    find_put_self _ _ _
  have hr : (rdbGet key (afterSet key data ttl w)).1 = Except.ok data := by
    rw [rdbGet_of_ok key _ (issue_healthy (Cmd.get key) 0 _ hh).1]
    simp [getReply, hf]
  rw [GetWithCacheAside_of_ok J key dest fetchFunc ttl _ data hr]
  refine ⟨data, hm, rfl, rfl, ?_, ?_, ?_⟩
  · simp [RecordCacheHit, issue_trace, fetchCount_append, fetchCount]
  · simp [RecordCacheHit, issue_store]
  · simp only
    constructor
    · rintro ⟨h1, h2⟩
      exact Prod.ext h2 h1
    · intro h
      rw [h]
      exact ⟨rfl, rfl⟩

theorem Set_then_GetWithCacheAside_witness :
    (Set demoCodec "k" "v" (5 * Minute) (demoWorld [])).1 = none ∧
    healthy 1 (Set demoCodec "k" "v" (5 * Minute) (demoWorld [])).2 = true ∧
    demoCodec.unmarshal "#v" "" = ("v", none) ∧
    ∃ data, demoCodec.marshal "v" = Except.ok data ∧
      (GetWithCacheAside demoCodec "k" "" demoFetch (5 * Minute)
          (Set demoCodec "k" "v" (5 * Minute) (demoWorld [])).2).1 =
        (demoCodec.unmarshal data "").2 ∧
      (GetWithCacheAside demoCodec "k" "" demoFetch (5 * Minute)
          (Set demoCodec "k" "v" (5 * Minute) (demoWorld [])).2).2.1 =
        (demoCodec.unmarshal data "").1 ∧
      fetchCount (GetWithCacheAside demoCodec "k" "" demoFetch (5 * Minute)
          (Set demoCodec "k" "v" (5 * Minute) (demoWorld [])).2).2.2.trace =
        fetchCount (Set demoCodec "k" "v" (5 * Minute) (demoWorld [])).2.trace ∧
      (GetWithCacheAside demoCodec "k" "" demoFetch (5 * Minute)
          (Set demoCodec "k" "v" (5 * Minute) (demoWorld [])).2).2.2.store =
        (Set demoCodec "k" "v" (5 * Minute) (demoWorld [])).2.store ∧
      (((GetWithCacheAside demoCodec "k" "" demoFetch (5 * Minute)
            (Set demoCodec "k" "v" (5 * Minute) (demoWorld [])).2).1 = none ∧
          (GetWithCacheAside demoCodec "k" "" demoFetch (5 * Minute)
            (Set demoCodec "k" "v" (5 * Minute) (demoWorld [])).2).2.1 = "v") ↔
        demoCodec.unmarshal data "" = ("v", none)) :=
  ⟨by decide, by decide, by decide,
    Set_then_GetWithCacheAside demoCodec "k" "v" "" demoFetch (5 * Minute) (demoWorld [])
      (by decide) (by decide)⟩

/-- C19, the claim as stated fails: the `int64` value `2 ^ 53 + 1` is serializable,
`Set` stores its decimal encoding, and `GetWithCacheAside` with a destination of type
`interface{}` (as in `GetRecommendationsWithCacheAside`) takes the hit path without
running `fetchFunc` and returns no error, but `dest` then holds the `float64` value
`2 ^ 53`, which is not the value that was stored. -/
theorem Set_then_GetWithCacheAside_counterexample :
    jsonInterface.marshal (GoValue.int64 9007199254740993) = Except.ok "9007199254740993" ∧
    (Set jsonInterface "recommendations:1" (GoValue.int64 9007199254740993) (1 * Hour)
        goWorld).1 = none ∧
    (GetWithCacheAside jsonInterface "recommendations:1" GoValue.null goFetch (1 * Hour)
        (Set jsonInterface "recommendations:1" (GoValue.int64 9007199254740993) (1 * Hour)
          goWorld).2).1 = none ∧
    (GetWithCacheAside jsonInterface "recommendations:1" GoValue.null goFetch (1 * Hour)
        (Set jsonInterface "recommendations:1" (GoValue.int64 9007199254740993) (1 * Hour)
          goWorld).2).2.1 = GoValue.float64 9007199254740992 ∧
    fetchCount (GetWithCacheAside jsonInterface "recommendations:1" GoValue.null goFetch
        (1 * Hour)
        (Set jsonInterface "recommendations:1" (GoValue.int64 9007199254740993) (1 * Hour)
          goWorld).2).2.2.trace = 0 ∧
    GoValue.float64 9007199254740992 ≠ GoValue.int64 9007199254740993 := by
  refine ⟨rfl, ?_, ?_, ?_, ?_, ?_⟩ <;> decide

/-! ## Invalidation by strategy -/

theorem InvalidateWithStrategy_flash {σ V : Type} (w : World σ V) :
    InvalidateWithStrategy "flash-sales" w =
      match Delete "flash_sales" (RecordCacheInvalidation "flash-sales" w) with
      | (some err, w1) => (some err, w1)
      | (none, w1) => rdbPublish "cache_invalidated" "flash_sales" w1 := by
  unfold InvalidateWithStrategy
  simp only
  rw [if_neg (by decide), if_neg (by decide)]
  exact if_pos trivial

theorem rdbDel_trace {σ V : Type} (keys : List String) (w : World σ V) :
    (rdbDel keys w).2.trace = w.trace ++ [Event.redis (Cmd.del keys)] := by
  have ht := issue_trace (Cmd.del keys) w
  unfold rdbDel
  rcases hi : issue (Cmd.del keys) w with ⟨r, w1⟩
  rw [hi] at ht
  simp only at ht
  cases r with
  | some e => exact ht
  | none =>
    simp only
    split <;> exact ht

/-- C20: for `InvalidateWithStrategy("flash-sales")`. When the deletion of
`flash_sales` fails, its error is returned, the store is as before and no `PUBLISH`
is sent (the events are the counter and the `DEL`). When the deletion succeeds, the
`PUBLISH` on `cache_invalidated` is sent after the `DEL`, the call returns what the
`PUBLISH` returns, and whatever that is (also an error) the key `flash_sales` is
absent and every other key is bound as before. -/
theorem InvalidateWithStrategy_flash_sales {σ V : Type} (w : World σ V) :
    (∀ e, (Delete "flash_sales" (RecordCacheInvalidation "flash-sales" w)).1 = some e →
        (InvalidateWithStrategy "flash-sales" w).1 = some e ∧
        (InvalidateWithStrategy "flash-sales" w).2.store = w.store ∧
        (InvalidateWithStrategy "flash-sales" w).2.trace =
          w.trace ++ [Event.metric "cache_invalidations_total" "flash-sales",
            Event.redis (Cmd.del ["flash_sales"])]) ∧
      ((Delete "flash_sales" (RecordCacheInvalidation "flash-sales" w)).1 = none →
        (InvalidateWithStrategy "flash-sales" w).1 =
          (rdbPublish "cache_invalidated" "flash_sales"
            (Delete "flash_sales" (RecordCacheInvalidation "flash-sales" w)).2).1 ∧
        (InvalidateWithStrategy "flash-sales" w).2.trace =
          w.trace ++ [Event.metric "cache_invalidations_total" "flash-sales",
            Event.redis (Cmd.del ["flash_sales"]),
            Event.redis (Cmd.publish "cache_invalidated" "flash_sales")] ∧
        find "flash_sales" (InvalidateWithStrategy "flash-sales" w).2.store = none ∧
        ∀ k, k ≠ "flash_sales" →
          find k (InvalidateWithStrategy "flash-sales" w).2.store = find k w.store) := by
  rw [InvalidateWithStrategy_flash]
  have htr := rdbDel_trace ["flash_sales"] (RecordCacheInvalidation "flash-sales" w)
  refine ⟨?_, ?_⟩
  · intro e he
    have hst := rdbDel_store_of_some ["flash_sales"] _ e he
    unfold Delete at he ⊢
    rw [show rdbDel ["flash_sales"] (RecordCacheInvalidation "flash-sales" w) =
      (some e, (rdbDel ["flash_sales"] (RecordCacheInvalidation "flash-sales" w)).2) from
        Prod.ext he rfl]
    refine ⟨rfl, hst, ?_⟩
    simp only [htr]
    simp [RecordCacheInvalidation]
  · intro hn
    have hst := rdbDel_store_of_none ["flash_sales"] _ hn
    unfold Delete at hn ⊢
    rw [show rdbDel ["flash_sales"] (RecordCacheInvalidation "flash-sales" w) =
      (none, (rdbDel ["flash_sales"] (RecordCacheInvalidation "flash-sales" w)).2) from
        Prod.ext hn rfl]
    simp only
    unfold rdbPublish
    refine ⟨trivial, ?_, ?_, ?_⟩
    · rw [issue_trace, htr]
      simp [RecordCacheInvalidation]
    · rw [issue_store, hst]
      exact find_erase_of_mem _ _ _ (by simp)
    · intro k hk
      rw [issue_store, hst]
      exact find_erase_of_not_mem _ _ _ (by simpa using hk)

theorem InvalidateWithStrategy_flash_sales_witness :
    (Delete "flash_sales" (RecordCacheInvalidation "flash-sales"
        ({ demoWorld [("flash_sales", ⟨RValue.str "x", 5⟩)] with
          faults := [none, some "broken pipe"] } : World Nat String))).1 = none ∧
    (InvalidateWithStrategy "flash-sales"
        ({ demoWorld [("flash_sales", ⟨RValue.str "x", 5⟩)] with
          faults := [none, some "broken pipe"] } : World Nat String)).1 =
      some (Error.store "broken pipe") ∧
    find "flash_sales" (InvalidateWithStrategy "flash-sales"
        ({ demoWorld [("flash_sales", ⟨RValue.str "x", 5⟩)] with
          faults := [none, some "broken pipe"] } : World Nat String)).2.store = none :=
  ⟨by decide, by decide,
    ((InvalidateWithStrategy_flash_sales
        ({ demoWorld [("flash_sales", ⟨RValue.str "x", 5⟩)] with
          faults := [none, some "broken pipe"] } : World Nat String)).2 (by decide)).2.2.1⟩

/-! ## Concurrent callers -/

/-- `GetWithCacheAside` is its read followed by its second part. -/
theorem GetWithCacheAside_eq_phases {σ V : Type} (J : Codec V) (key : String) (dest : V)
    (fetchFunc : σ → Except Error V × σ) (ttl : Duration) (w : World σ V) :
    GetWithCacheAside J key dest fetchFunc ttl w =
      cacheAsideFinish J key dest fetchFunc ttl (cacheAsideRead J key dest w).1
        (cacheAsideRead J key dest w).2 := by
  unfold GetWithCacheAside cacheAsideRead
  rcases rdbGet key w with ⟨res, w1⟩
  cases res with
  | ok val => rfl
  | error e => cases e <;> rfl

theorem GetWithCacheAside_miss_eq {σ V : Type} (J : Codec V) (key : String) (dest : V)
    (fetchFunc : σ → Except Error V × σ) (ttl : Duration) (w : World σ V) (d : V)
    (data : String) (hh : healthy 2 w = true) (hk : find key w.store = none)
    (hf : (fetchFunc w.src).1 = Except.ok d) (hm : J.marshal d = Except.ok data) :
    GetWithCacheAside J key dest fetchFunc ttl w =
      ((J.unmarshal data dest).2, (J.unmarshal data dest).1,
        afterMiss key fetchFunc data ttl w) := by
  have h1 := issue_healthy (Cmd.get key) 1 w hh
  have hr := rdbGet_nil_of_absent key w (healthy_of_succ 1 w hh) hk
  rw [GetWithCacheAside_of_nil J key dest fetchFunc ttl w hr]
  have hsrc : (RecordCacheMiss "cache-aside" (issue (Cmd.get key) w).2).src = w.src := by
    simp [RecordCacheMiss, issue_src]
  have hc : (callFetch fetchFunc (RecordCacheMiss "cache-aside" (issue (Cmd.get key) w).2)).1 =
      Except.ok d := by
    simp [callFetch, hsrc, hf]
  rw [show callFetch fetchFunc (RecordCacheMiss "cache-aside" (issue (Cmd.get key) w).2) =
    (Except.ok d,
      (callFetch fetchFunc (RecordCacheMiss "cache-aside" (issue (Cmd.get key) w).2)).2) from
      Prod.ext hc rfl]
  simp only [hm]
  have h3 : (issue (Cmd.set key data ttl)
      (callFetch fetchFunc (RecordCacheMiss "cache-aside" (issue (Cmd.get key) w).2)).2).1 =
      none :=
    (issue_healthy _ 0 _ (by simpa [healthy, callFetch, RecordCacheMiss] using h1.2)).1
  rw [rdbSet_of_ok _ _ _ _ h3]
  simp [afterMiss, callFetch, RecordCacheMiss, issue_store]

theorem afterMiss_facts {σ V : Type} (key : String) (fetchFunc : σ → Except Error V × σ)
    (data : String) (ttl : Duration) (n : Nat) (w : World σ V)
    (hh : healthy (n + 2) w = true) :
    find key (afterMiss key fetchFunc data ttl w).store = some ⟨RValue.str data, ttl⟩ ∧
      healthy n (afterMiss key fetchFunc data ttl w) = true ∧
      fetchCount (afterMiss key fetchFunc data ttl w).trace = fetchCount w.trace + 1 := by
  have h1 := issue_healthy (Cmd.get key) (n + 1) w hh
  have h2 : healthy (n + 1)
      (callFetch fetchFunc (RecordCacheMiss "cache-aside" (issue (Cmd.get key) w).2)).2 =
      true := (healthy_congr _ _ _ rfl rfl).trans h1.2
  refine ⟨find_put_self _ _ _, ?_, ?_⟩
  · exact (healthy_congr _ _ _ rfl rfl).trans (issue_healthy (Cmd.set key data ttl) n _ h2).2
  · simp [afterMiss, callFetch, RecordCacheMiss, issue_trace, fetchCount_append, fetchCount]

theorem GetWithCacheAside_hit_eq {σ V : Type} (J : Codec V) (key : String) (dest : V)
    (fetchFunc : σ → Except Error V × σ) (ttl : Duration) (w : World σ V)
    (data : String) (ex : Duration) (hh : healthy 1 w = true)
    (hk : find key w.store = some ⟨RValue.str data, ex⟩) :
    GetWithCacheAside J key dest fetchFunc ttl w =
      ((J.unmarshal data dest).2, (J.unmarshal data dest).1,
        RecordCacheHit "cache-aside" (issue (Cmd.get key) w).2) := by
  have hr : (rdbGet key w).1 = Except.ok data := by
    rw [rdbGet_of_ok key w (issue_healthy (Cmd.get key) 0 w hh).1]
    simp [getReply, hk]
  exact GetWithCacheAside_of_ok J key dest fetchFunc ttl w data hr

theorem sequentialCalls_hits {σ V : Type} (J : Codec V) (key : String) (dest : V)
    (fetchFunc : σ → Except Error V × σ) (ttl : Duration) (data : String) (ex : Duration)
    (n : Nat) (w : World σ V) (hh : healthy n w = true)
    (hk : find key w.store = some ⟨RValue.str data, ex⟩) :
    (sequentialCalls J key dest fetchFunc ttl n w).1 =
        List.replicate n ((J.unmarshal data dest).2, (J.unmarshal data dest).1) ∧
      fetchCount (sequentialCalls J key dest fetchFunc ttl n w).2.trace =
        fetchCount w.trace := by
  induction n generalizing w with
  | zero => exact ⟨rfl, rfl⟩
  | succ m ih =>
    have h1 := healthy_mono 1 (m + 1) w (by omega) hh
    have heq := GetWithCacheAside_hit_eq J key dest fetchFunc ttl w data ex h1 hk
    have hh2 : healthy m (RecordCacheHit "cache-aside" (issue (Cmd.get key) w).2) = true :=
      (healthy_congr _ _ _ rfl rfl).trans (issue_healthy (Cmd.get key) m w hh).2
    have hk2 : find key (RecordCacheHit "cache-aside" (issue (Cmd.get key) w).2).store =
        some ⟨RValue.str data, ex⟩ := by
      simpa [RecordCacheHit, issue_store] using hk
    obtain ⟨ih1, ih2⟩ := ih _ hh2 hk2
    rw [sequentialCalls]
    dsimp only
    rw [heq]
    refine ⟨?_, ?_⟩
    · rw [ih1, List.replicate_succ]
    · rw [ih2]
      simp [RecordCacheHit, issue_trace, fetchCount_append, fetchCount]

/-- C18 (as amended): on a key that is absent from the store, when `n + 1` callers
invoke `GetWithCacheAside` one after the other, the client carries out their
commands, and the first run of `fetchFunc` succeeds with a value that has an encoding
`data`: `fetchFunc` runs exactly once, and every caller gets what decoding `data` into
its `dest` gives. -/
theorem sequentialCalls_single_fetch {σ V : Type} (J : Codec V) (key : String) (dest : V)
    (fetchFunc : σ → Except Error V × σ) (ttl : Duration) (n : Nat) (w : World σ V) (d : V)
    (data : String) (hh : healthy (n + 2) w = true) (hk : find key w.store = none)
    (hf : (fetchFunc w.src).1 = Except.ok d) (hm : J.marshal d = Except.ok data) :
    fetchCount (sequentialCalls J key dest fetchFunc ttl (n + 1) w).2.trace =
        fetchCount w.trace + 1 ∧
      (sequentialCalls J key dest fetchFunc ttl (n + 1) w).1 =
        List.replicate (n + 1) ((J.unmarshal data dest).2, (J.unmarshal data dest).1) := by
  have heq := GetWithCacheAside_miss_eq J key dest fetchFunc ttl w d data
    (healthy_mono 2 (n + 2) w (by omega) hh) hk hf hm
  obtain ⟨hst, hh2, hfc⟩ := afterMiss_facts key fetchFunc data ttl n w hh
  obtain ⟨ih1, ih2⟩ := sequentialCalls_hits J key dest fetchFunc ttl data ttl n _ hh2 hst
  rw [sequentialCalls]
  dsimp only
  rw [heq]
  refine ⟨?_, ?_⟩
  · rw [ih2, hfc]
  · rw [ih1, List.replicate_succ]

theorem sequentialCalls_single_fetch_witness :
    healthy (2 + 2) (demoWorld []) = true ∧ find "k" (demoWorld []).store = none ∧
    (demoFetch (demoWorld []).src).1 = Except.ok "v0" ∧
    demoCodec.marshal "v0" = Except.ok "#v0" ∧
    fetchCount (sequentialCalls demoCodec "k" "" demoFetch 5 (2 + 1) (demoWorld [])).2.trace =
        fetchCount (demoWorld []).trace + 1 ∧
      (sequentialCalls demoCodec "k" "" demoFetch 5 (2 + 1) (demoWorld [])).1 =
        List.replicate (2 + 1)
          ((demoCodec.unmarshal "#v0" "").2, (demoCodec.unmarshal "#v0" "").1) :=
  ⟨by decide, by decide, rfl, rfl,
    sequentialCalls_single_fetch demoCodec "k" "" demoFetch 5 2 (demoWorld []) "v0" "#v0"
      (by decide) (by decide) rfl rfl⟩

/-- C18, the claim as stated fails: two callers of `GetWithCacheAside` for a key that
was never written, both reading the cache before either writes to it, both miss and
both run `fetchFunc`; here the fetch runs twice and the callers get different
results. -/
theorem GetWithCacheAside_overlap_counterexample :
    find "k" (demoWorld []).store = none ∧
    fetchCount (overlappedCalls demoCodec "k" "" demoFetch 5 2 (demoWorld [])).2.trace = 2 ∧
    (overlappedCalls demoCodec "k" "" demoFetch 5 2 (demoWorld [])).1 =
      [(none, "v0"), (none, "v1")] := by
  decide

/-! ## Failed refresh-ahead calls -/

theorem SetWithRefreshAhead_of_error {σ V : Type} (J : Codec V) (key : String)
    (refreshFunc : σ → Except Error V × σ) (ttl refreshBefore : Duration) (w : World σ V)
    (e : Error) (h : (SetWithRefreshAhead J key refreshFunc ttl refreshBefore w).1 = some e) :
    (SetWithRefreshAhead J key refreshFunc ttl refreshBefore w).2.tickers =
        (stopPrevious key w).tickers ∧
      (SetWithRefreshAhead J key refreshFunc ttl refreshBefore w).2.routines = w.routines ∧
      (SetWithRefreshAhead J key refreshFunc ttl refreshBefore w).2.refreshers =
        w.refreshers := by
  have hT : (callFetch refreshFunc (stopPrevious key w)).2.tickers =
      (stopPrevious key w).tickers := rfl
  have hR : (callFetch refreshFunc (stopPrevious key w)).2.routines = w.routines :=
    stopPrevious_routines key w
  have hF : (callFetch refreshFunc (stopPrevious key w)).2.refreshers = w.refreshers :=
    stopPrevious_refreshers key w
  unfold SetWithRefreshAhead at h ⊢
  dsimp only at h ⊢
  rcases hc : callFetch refreshFunc (stopPrevious key w) with ⟨res, w2⟩
  rw [hc] at hT hR hF h
  simp only at hT hR hF
  cases res with
  | error e1 => exact ⟨hT, hR, hF⟩
  | ok d =>
    simp only at h ⊢
    cases hm : J.marshal d with
    | error e1 => exact ⟨hT, hR, hF⟩
    | ok data =>
      rw [hm] at h
      simp only at h ⊢
      have hT3 := rdbSet_tickers key data ttl w2
      have hR3 := rdbSet_routines key data ttl w2
      have hF3 := rdbSet_refreshers key data ttl w2
      rcases hs : rdbSet key data ttl w2 with ⟨r, w3⟩
      rw [hs] at hT3 hR3 hF3 h
      simp only at hT3 hR3 hF3
      cases r with
      | some e1 => exact ⟨hT3.trans hT, hR3.trans hR, hF3.trans hF⟩
      | none =>
        simp only at h
        split at h <;> simp at h

theorem SetWithRefreshAhead_fetch_error {σ V : Type} (J : Codec V) (key : String)
    (refreshFunc : σ → Except Error V × σ) (ttl refreshBefore : Duration) (w : World σ V)
    (e : Error) (hf : (refreshFunc w.src).1 = Except.error e) :
    (SetWithRefreshAhead J key refreshFunc ttl refreshBefore w).1 = some e := by
  unfold SetWithRefreshAhead
  dsimp only
  have hf2 : (callFetch refreshFunc (stopPrevious key w)).1 = Except.error e := by
    simp [callFetch, stopPrevious_src, hf]
  rw [show callFetch refreshFunc (stopPrevious key w) =
    (Except.error e, afterRefresh key refreshFunc w) from Prod.ext hf2 rfl]

theorem SetWithRefreshAhead_marshal_error {σ V : Type} (J : Codec V) (key : String)
    (refreshFunc : σ → Except Error V × σ) (ttl refreshBefore : Duration) (w : World σ V)
    (d : V) (e : Error) (hf : (refreshFunc w.src).1 = Except.ok d)
    (hm : J.marshal d = Except.error e) :
    (SetWithRefreshAhead J key refreshFunc ttl refreshBefore w).1 = some e := by
  unfold SetWithRefreshAhead
  dsimp only
  have hf2 : (callFetch refreshFunc (stopPrevious key w)).1 = Except.ok d := by
    simp [callFetch, stopPrevious_src, hf]
  rw [show callFetch refreshFunc (stopPrevious key w) =
    (Except.ok d, afterRefresh key refreshFunc w) from Prod.ext hf2 rfl]
  simp only [hm]

theorem SetWithRefreshAhead_store_error {σ V : Type} (J : Codec V) (key : String)
    (refreshFunc : σ → Except Error V × σ) (ttl refreshBefore : Duration) (w : World σ V)
    (d : V) (data : String) (e : Error) (hf : (refreshFunc w.src).1 = Except.ok d)
    (hm : J.marshal d = Except.ok data)
    (hi : (issue (Cmd.set key data ttl) (afterRefresh key refreshFunc w)).1 = some e) :
    (SetWithRefreshAhead J key refreshFunc ttl refreshBefore w).1 = some e := by
  unfold SetWithRefreshAhead
  dsimp only
  have hf2 : (callFetch refreshFunc (stopPrevious key w)).1 = Except.ok d := by
    simp [callFetch, stopPrevious_src, hf]
  rw [show callFetch refreshFunc (stopPrevious key w) =
    (Except.ok d, afterRefresh key refreshFunc w) from Prod.ext hf2 rfl]
  simp only [hm]
  rw [rdbSet_of_err _ _ _ _ e hi]

/-- C26: `SetWithRefreshAhead` returns the error of a failing `refreshFunc`, of a
failing encoding and of a failing initial `SET`; and whenever it returns an error, no
ticker and no goroutine was created and the registry is as before, while the ticker
that was registered for `key` has been stopped and is still the registered one, so
`key` has no active schedule afterwards. -/
theorem SetWithRefreshAhead_failure {σ V : Type} (J : Codec V) (key : String)
    (refreshFunc : σ → Except Error V × σ) (ttl refreshBefore : Duration) (w : World σ V) :
    (∀ e, (refreshFunc w.src).1 = Except.error e →
        (SetWithRefreshAhead J key refreshFunc ttl refreshBefore w).1 = some e) ∧
      (∀ d e, (refreshFunc w.src).1 = Except.ok d → J.marshal d = Except.error e →
        (SetWithRefreshAhead J key refreshFunc ttl refreshBefore w).1 = some e) ∧
      (∀ d data e, (refreshFunc w.src).1 = Except.ok d → J.marshal d = Except.ok data →
        (issue (Cmd.set key data ttl) (afterRefresh key refreshFunc w)).1 = some e →
        (SetWithRefreshAhead J key refreshFunc ttl refreshBefore w).1 = some e) ∧
      (∀ e, (SetWithRefreshAhead J key refreshFunc ttl refreshBefore w).1 = some e →
        (SetWithRefreshAhead J key refreshFunc ttl refreshBefore w).2.tickers.length =
          w.tickers.length ∧
        (SetWithRefreshAhead J key refreshFunc ttl refreshBefore w).2.routines = w.routines ∧
        (SetWithRefreshAhead J key refreshFunc ttl refreshBefore w).2.refreshers =
          w.refreshers ∧
        (∀ old t, find key w.refreshers = some old → w.tickers[old]? = some t →
          (SetWithRefreshAhead J key refreshFunc ttl refreshBefore w).2.tickers[old]? =
            some { t with active := false }) ∧
        (∀ j, find key w.refreshers ≠ some j →
          (SetWithRefreshAhead J key refreshFunc ttl refreshBefore w).2.tickers[j]? =
            w.tickers[j]?) ∧
        activeSchedule key (SetWithRefreshAhead J key refreshFunc ttl refreshBefore w).2 =
          false) := by
  refine ⟨fun e hf => SetWithRefreshAhead_fetch_error J key refreshFunc ttl refreshBefore w e hf,
    fun d e hf hm =>
      SetWithRefreshAhead_marshal_error J key refreshFunc ttl refreshBefore w d e hf hm,
    fun d data e hf hm hi =>
      SetWithRefreshAhead_store_error J key refreshFunc ttl refreshBefore w d data e hf hm hi,
    ?_⟩
  intro e he
  obtain ⟨hT, hR, hF⟩ := SetWithRefreshAhead_of_error J key refreshFunc ttl refreshBefore w e he
  refine ⟨?_, hR, hF, ?_, ?_, ?_⟩
  · rw [hT, stopPrevious_tickers_length]
  · intro old t hreg ht
    rw [hT, stopPrevious_registered key w old hreg, ht]
    rfl
  · intro j hj
    rw [hT, stopPrevious_other key w j hj]
  · unfold activeSchedule
    rw [hF, hT]
    cases hreg : find key w.refreshers with
    | none => rfl
    | some id =>
      simp only
      rw [stopPrevious_registered key w id hreg]
      cases w.tickers[id]? <;> rfl

theorem SetWithRefreshAhead_failure_witness :
    activeSchedule "k" (SetWithRefreshAhead demoCodec "k" demoFetch 10 4 (demoWorld [])).2 =
        true ∧
    (SetWithRefreshAhead demoCodec "k" failFetch 10 4
        (SetWithRefreshAhead demoCodec "k" demoFetch 10 4 (demoWorld [])).2).1 =
      some (Error.source "db down") ∧
    (SetWithRefreshAhead demoCodec "k" failFetch 10 4
        (SetWithRefreshAhead demoCodec "k" demoFetch 10 4 (demoWorld [])).2).2.refreshers =
      [("k", 0)] ∧
    (SetWithRefreshAhead demoCodec "k" failFetch 10 4
        (SetWithRefreshAhead demoCodec "k" demoFetch 10 4 (demoWorld [])).2).2.tickers =
      [⟨6, false⟩] ∧
    activeSchedule "k" (SetWithRefreshAhead demoCodec "k" failFetch 10 4
        (SetWithRefreshAhead demoCodec "k" demoFetch 10 4 (demoWorld [])).2).2 = false :=
  ⟨by decide, by decide, by decide, by decide,
    ((SetWithRefreshAhead_failure demoCodec "k" failFetch 10 4
        (SetWithRefreshAhead demoCodec "k" demoFetch 10 4 (demoWorld [])).2).2.2.2
      (Error.source "db down") (by decide)).2.2.2.2.2⟩

/-! ## Bestsellers with refresh-ahead -/

theorem Get_world {σ V : Type} (J : Codec V) (key : String) (dest : V) (w : World σ V) :
    (Get J key dest w).2.2 = (issue (Cmd.get key) w).2 := by
  have hs := rdbGet_snd key w
  unfold Get
  rcases hg : rdbGet key w with ⟨res, w1⟩
  rw [hg] at hs
  simp only at hs
  cases res <;> exact hs

theorem Get_of_absent {σ V : Type} (J : Codec V) (key : String) (dest : V) (w : World σ V)
    (hh : healthy 1 w = true) (hk : find key w.store = none) :
    Get J key dest w = (some Error.redisNil, dest, (issue (Cmd.get key) w).2) := by
  have hr := rdbGet_nil_of_absent key w hh hk
  have hs := rdbGet_snd key w
  unfold Get
  rcases hg : rdbGet key w with ⟨res, w1⟩
  rw [hg] at hr hs
  simp only at hr hs
  subst hr hs
  rfl

theorem stopPrevious_fetchCount {σ V : Type} (key : String) (w : World σ V) :
    fetchCount (stopPrevious key w).trace = fetchCount w.trace := by
  unfold stopPrevious
  split
  · simp [fetchCount_append, fetchCount]
  · rfl

/-- The state after a `SetWithRefreshAhead` that stores `data` and installs a
schedule. -/
theorem SetWithRefreshAhead_installed {σ V : Type} (J : Codec V) (key : String)
    (refreshFunc : σ → Except Error V × σ) (ttl refreshBefore : Duration) (w : World σ V)
    (d : V) (data : String) (n : Nat) (hpos : durSub ttl refreshBefore > 0)
    (hh : healthy (n + 1) w = true) (hf : (refreshFunc w.src).1 = Except.ok d)
    (hm : J.marshal d = Except.ok data) :
    (SetWithRefreshAhead J key refreshFunc ttl refreshBefore w).1 = none ∧
      find key (SetWithRefreshAhead J key refreshFunc ttl refreshBefore w).2.store =
        some ⟨RValue.str data, ttl⟩ ∧
      find key (SetWithRefreshAhead J key refreshFunc ttl refreshBefore w).2.refreshers =
        some w.tickers.length ∧
      (SetWithRefreshAhead J key refreshFunc ttl refreshBefore w).2.tickers[w.tickers.length]? =
        some ⟨durSub ttl refreshBefore, true⟩ ∧
      fetchCount (SetWithRefreshAhead J key refreshFunc ttl refreshBefore w).2.trace =
        fetchCount w.trace + 1 ∧
      healthy n (SetWithRefreshAhead J key refreshFunc ttl refreshBefore w).2 = true := by
  have hi0 := issue_healthy (Cmd.set key data ttl) n (afterRefresh key refreshFunc w)
    ((afterRefresh_healthy key refreshFunc (n + 1) w).trans hh)
  rw [SetWithRefreshAhead_of_stored J key refreshFunc ttl refreshBefore w d data hf hm hi0.1,
    if_pos hpos]
  have hlen : (afterStore key refreshFunc data ttl w).tickers.length = w.tickers.length := by
    rw [afterStore_tickers, stopPrevious_tickers_length]
  refine ⟨rfl, ?_, ?_, ?_, ?_, ?_⟩
  · exact find_put_self _ _ _
  · simp only [hlen]
    exact find_put_self _ _ _
  · rw [← hlen]
    simp
  · simp only [afterStore_trace]
    simp [fetchCount_append, fetchCount, stopPrevious_fetchCount]
  · exact (healthy_congr n _ _ rfl rfl).trans hi0.2

theorem GetTTLForDataType_pos (dataType : String) : GetTTLForDataType dataType > 0 := by
  unfold GetTTLForDataType
  repeat' split
  all_goals decide

/-- C30: `GetTTLForDataType` is positive on every string, 5 minutes on every
unlisted one and 1 hour on `bestsellers`. On a miss of `bestsellers` with a client
that carries out the three commands, a `fetchFunc` that succeeds with `d` and an
encoding `data` of `d`, `GetBestsellersWithRefreshAhead` runs `fetchFunc` once, stores
`data` under `bestsellers` with time to live 1 hour, registers a new active ticker of
period 50 minutes, and returns what decoding `data` gives. On a hit (the first `Get`
returns no error) it returns what that `Get` returned and neither runs `fetchFunc`
nor touches tickers, registry or goroutines. -/
theorem GetBestsellersWithRefreshAhead_ttl {σ V : Type} (J : Codec V) (zero : V)
    (fetchFunc : σ → Except Error V × σ) (w : World σ V) :
    (∀ s, GetTTLForDataType s > 0) ∧
      (∀ s, s ∉ ["bestsellers", "recommendations", "flash_sales", "user_profile",
          "top_comments", "cart"] → GetTTLForDataType s = 5 * Minute) ∧
      GetTTLForDataType "bestsellers" = 1 * Hour ∧
      (∀ d data, find "bestsellers" w.store = none → healthy 3 w = true →
        (fetchFunc w.src).1 = Except.ok d → J.marshal d = Except.ok data →
        find "bestsellers" (GetBestsellersWithRefreshAhead J zero fetchFunc w).2.2.store =
            some ⟨RValue.str data, 1 * Hour⟩ ∧
          find "bestsellers" (GetBestsellersWithRefreshAhead J zero fetchFunc w).2.2.refreshers =
            some w.tickers.length ∧
          (GetBestsellersWithRefreshAhead J zero fetchFunc w).2.2.tickers[w.tickers.length]? =
            some ⟨50 * Minute, true⟩ ∧
          fetchCount (GetBestsellersWithRefreshAhead J zero fetchFunc w).2.2.trace =
            fetchCount w.trace + 1 ∧
          (GetBestsellersWithRefreshAhead J zero fetchFunc w).1 = (J.unmarshal data zero).2 ∧
          (GetBestsellersWithRefreshAhead J zero fetchFunc w).2.1 =
            (J.unmarshal data zero).1) ∧
      ((Get J "bestsellers" zero w).1 = none →
        GetBestsellersWithRefreshAhead J zero fetchFunc w = Get J "bestsellers" zero w ∧
          fetchCount (GetBestsellersWithRefreshAhead J zero fetchFunc w).2.2.trace =
            fetchCount w.trace ∧
          (GetBestsellersWithRefreshAhead J zero fetchFunc w).2.2.tickers = w.tickers ∧
          (GetBestsellersWithRefreshAhead J zero fetchFunc w).2.2.refreshers = w.refreshers ∧
          (GetBestsellersWithRefreshAhead J zero fetchFunc w).2.2.routines = w.routines) := by
  refine ⟨GetTTLForDataType_pos, ?_, by decide, ?_, ?_⟩
  · intro s hs
    simp only [List.mem_cons, List.mem_singleton, List.not_mem_nil, or_false, not_or] at hs
    obtain ⟨h1, h2, h3, h4, h5, h6⟩ := hs
    unfold GetTTLForDataType
    rw [if_neg h1, if_neg h2, if_neg h3, if_neg h4, if_neg h5, if_neg h6]
  · intro d data hk hh hf hm
    have h1 := issue_healthy (Cmd.get "bestsellers") 2 w hh
    have hget := Get_of_absent J "bestsellers" zero w (healthy_mono 1 3 w (by omega) hh) hk
    have hf1 : (fetchFunc (issue (Cmd.get "bestsellers") w).2.src).1 = Except.ok d := by
      rw [issue_src]
      exact hf
    have hpos : durSub (GetTTLForDataType "bestsellers") (10 * Minute) > 0 := by decide
    obtain ⟨hnone, hst, hreg, htick, hfc, hh2⟩ :=
      SetWithRefreshAhead_installed J "bestsellers" fetchFunc (GetTTLForDataType "bestsellers")
        (10 * Minute) (issue (Cmd.get "bestsellers") w).2 d data 1 hpos h1.2 hf1 hm
    have heq : GetBestsellersWithRefreshAhead J zero fetchFunc w =
        Get J "bestsellers" zero
          (SetWithRefreshAhead J "bestsellers" fetchFunc (GetTTLForDataType "bestsellers")
            (10 * Minute) (issue (Cmd.get "bestsellers") w).2).2 := by
      unfold GetBestsellersWithRefreshAhead
      dsimp only
      rw [hget]
      simp only
      rw [show SetWithRefreshAhead J "bestsellers" fetchFunc (GetTTLForDataType "bestsellers")
          (10 * Minute) (issue (Cmd.get "bestsellers") w).2 =
        (none, (SetWithRefreshAhead J "bestsellers" fetchFunc (GetTTLForDataType "bestsellers")
          (10 * Minute) (issue (Cmd.get "bestsellers") w).2).2) from Prod.ext hnone rfl]
    rw [heq]
    obtain ⟨hg1, hg2⟩ := Get_of_entry J "bestsellers" zero _ data _ hh2 hst
    rw [issue_tickers] at hreg htick
    have httl : GetTTLForDataType "bestsellers" = 1 * Hour := by decide
    have hper : durSub (GetTTLForDataType "bestsellers") (10 * Minute) = 50 * Minute := by
      decide
    rw [httl] at hst
    rw [hper] at htick
    refine ⟨?_, ?_, ?_, ?_, hg1, hg2⟩
    · rw [Get_world, issue_store]
      exact hst
    · rw [Get_world, issue_refreshers]
      exact hreg
    · rw [Get_world, issue_tickers]
      exact htick
    · rw [Get_world, issue_trace, fetchCount_append, hfc, issue_trace, fetchCount_append]
      simp [fetchCount]
  · intro hhit
    have heq : GetBestsellersWithRefreshAhead J zero fetchFunc w = Get J "bestsellers" zero w := by
      unfold GetBestsellersWithRefreshAhead
      dsimp only
      rcases hg : Get J "bestsellers" zero w with ⟨e, res, w1⟩
      rw [hg] at hhit
      simp only at hhit
      subst hhit
      rfl
    rw [heq, Get_world]
    refine ⟨rfl, ?_, issue_tickers _ w, issue_refreshers _ w, issue_routines _ w⟩
    rw [issue_trace, fetchCount_append]
    simp [fetchCount]

theorem GetBestsellersWithRefreshAhead_ttl_witness :
    find "bestsellers" (demoWorld []).store = none ∧ healthy 3 (demoWorld []) = true ∧
    (demoFetch (demoWorld []).src).1 = Except.ok "v0" ∧
    demoCodec.marshal "v0" = Except.ok "#v0" ∧
    (find "bestsellers"
          (GetBestsellersWithRefreshAhead demoCodec "" demoFetch (demoWorld [])).2.2.store =
        some ⟨RValue.str "#v0", 1 * Hour⟩ ∧
      find "bestsellers"
          (GetBestsellersWithRefreshAhead demoCodec "" demoFetch
            (demoWorld [])).2.2.refreshers =
        some (demoWorld []).tickers.length ∧
      (GetBestsellersWithRefreshAhead demoCodec "" demoFetch
          (demoWorld [])).2.2.tickers[(demoWorld []).tickers.length]? =
        some ⟨50 * Minute, true⟩ ∧
      fetchCount (GetBestsellersWithRefreshAhead demoCodec "" demoFetch
          (demoWorld [])).2.2.trace =
        fetchCount (demoWorld []).trace + 1 ∧
      (GetBestsellersWithRefreshAhead demoCodec "" demoFetch (demoWorld [])).1 =
        (demoCodec.unmarshal "#v0" "").2 ∧
      (GetBestsellersWithRefreshAhead demoCodec "" demoFetch (demoWorld [])).2.1 =
        (demoCodec.unmarshal "#v0" "").1) :=
  ⟨by decide, by decide, rfl, rfl,
    (GetBestsellersWithRefreshAhead_ttl demoCodec "" demoFetch (demoWorld [])).2.2.2.1
      "v0" "#v0" (by decide) (by decide) rfl rfl⟩

/-! ## Store failures that are not surfaced -/

/-- C21, evaluated at a failing input: `bestsellers` is cached and the first read of
`GetBestsellersWithRefreshAhead` fails with a timeout (an error other than
`redis.Nil`). The call does not report the error: it runs `fetchFunc`, overwrites
the entry, installs a schedule of 50 minutes and returns the fetched value with a
nil error. -/
theorem GetBestsellersWithRefreshAhead_read_error_evaluation :
    (Get demoCodec "bestsellers" ""
        ({ demoWorld [("bestsellers", ⟨RValue.str "#cached", 1 * Hour⟩)] with
          faults := [some "i/o timeout"] } : World Nat String)).1 =
      some (Error.store "i/o timeout") ∧
    (GetBestsellersWithRefreshAhead demoCodec "" demoFetch
        ({ demoWorld [("bestsellers", ⟨RValue.str "#cached", 1 * Hour⟩)] with
          faults := [some "i/o timeout"] } : World Nat String)).1 = none ∧
    (GetBestsellersWithRefreshAhead demoCodec "" demoFetch
        ({ demoWorld [("bestsellers", ⟨RValue.str "#cached", 1 * Hour⟩)] with
          faults := [some "i/o timeout"] } : World Nat String)).2.1 = "v0" ∧
    fetchCount (GetBestsellersWithRefreshAhead demoCodec "" demoFetch
        ({ demoWorld [("bestsellers", ⟨RValue.str "#cached", 1 * Hour⟩)] with
          faults := [some "i/o timeout"] } : World Nat String)).2.2.trace = 1 ∧
    (GetBestsellersWithRefreshAhead demoCodec "" demoFetch
        ({ demoWorld [("bestsellers", ⟨RValue.str "#cached", 1 * Hour⟩)] with
          faults := [some "i/o timeout"] } : World Nat String)).2.2.tickers =
      [⟨50 * Minute, true⟩] := by
  decide

/-- C22, evaluated at a failing input: the key is absent, `fetchFunc` succeeds and
the client fails the `SET` of the miss path with `connection refused`.
`GetWithCacheAside` sends the `SET`, drops its error and returns nil with the fetched
value in `dest`; the store holds no entry for the key. -/
theorem GetWithCacheAside_write_error_evaluation :
    find "k" (demoWorld []).store = none ∧
    (rdbSet "k" "#v0" 5
        (callFetch demoFetch (RecordCacheMiss "cache-aside"
          (issue (Cmd.get "k")
            ({ demoWorld [] with faults := [none, some "connection refused"] } :
              World Nat String)).2)).2).1 =
      some (Error.store "connection refused") ∧
    (GetWithCacheAside demoCodec "k" "" demoFetch 5
        ({ demoWorld [] with faults := [none, some "connection refused"] } :
          World Nat String)).1 = none ∧
    (GetWithCacheAside demoCodec "k" "" demoFetch 5
        ({ demoWorld [] with faults := [none, some "connection refused"] } :
          World Nat String)).2.1 = "v0" ∧
    (GetWithCacheAside demoCodec "k" "" demoFetch 5
        ({ demoWorld [] with faults := [none, some "connection refused"] } :
          World Nat String)).2.2.store = [] := by
  decide


/-! ## The time to live of a tag set over several calls -/

theorem rdbSAdd_frame {σ V : Type} (tk m k : String) (w : World σ V) (hk : k ≠ tk) :
    find k (rdbSAdd tk m w).2.store = find k w.store := by
  have hs := issue_store (Cmd.sadd tk m) w
  unfold rdbSAdd
  rcases hi : issue (Cmd.sadd tk m) w with ⟨r, w1⟩
  rw [hi] at hs
  simp only at hs
  cases r with
  | some e => simp only; rw [hs]
  | none =>
    simp only
    rcases hf : find tk w1.store with _ | ⟨v, ex⟩
    · simp only
      rw [find_put_of_ne _ _ _ _ hk, hs]
    · cases v with
      | str d => simp only; rw [hs]
      | set ms =>
        simp only
        split
        · rw [hs]
        · simp only
          rw [find_put_of_ne _ _ _ _ hk, hs]

theorem rdbExpire_frame {σ V : Type} (tk : String) (ex : Duration) (k : String)
    (w : World σ V) (hk : k ≠ tk) :
    find k (rdbExpire tk ex w).2.store = find k w.store := by
  have hs := issue_store (Cmd.expire tk ex) w
  unfold rdbExpire
  rcases hi : issue (Cmd.expire tk ex) w with ⟨r, w1⟩
  rw [hi] at hs
  simp only at hs
  cases r with
  | some e => simp only; rw [hs]
  | none =>
    simp only
    rcases hf : find tk w1.store with _ | e
    · simp only; rw [hs]
    · simp only
      split
      · simp only
        rw [find_erase_of_not_mem _ _ _ (by simpa using hk), hs]
      · simp only
        rw [find_put_of_ne _ _ _ _ hk, hs]

/-- The loop of `SetWithTags` touches no key other than the tag sets it names. -/
theorem tagLoop_frame {σ V : Type} (key : String) (expiration : Duration)
    (tags : List String) (k : String) (w : World σ V)
    (hk : ∀ t ∈ tags, k ≠ "tag:" ++ t) :
    find k (tagLoop key expiration tags w).2.store = find k w.store := by
  induction tags generalizing w with
  | nil => rfl
  | cons tag rest ih =>
    have hne : k ≠ "tag:" ++ tag := hk tag (List.mem_cons_self _ _)
    have hrest : ∀ t ∈ rest, k ≠ "tag:" ++ t := fun t ht => hk t (List.mem_cons_of_mem _ ht)
    rw [tagLoop]
    rcases hs : rdbSAdd ("tag:" ++ tag) key w with ⟨r, w1⟩
    have h1 : find k w1.store = find k w.store := by
      have := rdbSAdd_frame ("tag:" ++ tag) key k w hne
      rw [hs] at this
      exact this
    cases r with
    | some e => exact h1
    | none =>
      simp only
      rw [ih _ hrest]
      split
      · rw [rdbExpire_frame _ _ _ _ hne, h1]
      · exact h1


/-- C24 (as amended): after a `SetWithTags` that returns no error, with a positive
`expiration` and a client that carries out every command of the call, every tag set
named in the call keeps its earlier members, contains `key` and has, whatever time to
live it had before, the time to live that go-redis sends with `EXPIRE`: the whole
seconds of `expiration` (one second when `expiration` is below one second), which is
`expiration` itself when `expiration` is a whole number of seconds. Every key other
than `key` and the named tag sets, so every earlier member of a tag set, keeps the
entry and the time to live it had before the call. The time to live of a tag set is
thus that of the latest call that names it, shorter or longer than that of earlier
members. -/
theorem SetWithTags_latest_ttl {σ V : Type} (J : Codec V) (key : String) (value : V)
    (expiration : Duration) (tags : List String) (w : World σ V)
    (h : (SetWithTags J key value expiration tags w).1 = none)
    (hpos : expiration > 0)
    (hh : healthy (1 + 2 * tags.length) w = true) :
    (∃ data, find key (SetWithTags J key value expiration tags w).2.store =
        some ⟨RValue.str data, expiration⟩) ∧
      (∀ t ∈ tags, ∃ ms,
        find ("tag:" ++ t) (SetWithTags J key value expiration tags w).2.store =
          some ⟨RValue.set ms, formatSec expiration * Second⟩ ∧
        key ∈ ms ∧
        (∀ ms0 ex0, find ("tag:" ++ t) w.store = some ⟨RValue.set ms0, ex0⟩ → ms0 ⊆ ms)) ∧
      (expiration < Second → formatSec expiration * Second = Second) ∧
      (expiration % Second = 0 → formatSec expiration * Second = expiration) ∧
      (∀ k, k ≠ key → (∀ t ∈ tags, k ≠ "tag:" ++ t) →
        find k (SetWithTags J key value expiration tags w).2.store = find k w.store) := by
  obtain ⟨data, hm, hi, heq⟩ := SetWithTags_of_none J key value expiration tags w h
  rw [heq] at h ⊢
  obtain ⟨l1, l2, l3⟩ := tagLoop_facts key expiration tags _ h
  have hentry : find key (afterSet key data expiration w).store =
      some ⟨RValue.str data, expiration⟩ := find_put_self _ _ _
  obtain ⟨hkey, hne⟩ := l3 data expiration hentry
  have hh2 : healthy (2 * tags.length) (afterSet key data expiration w) = true := by
    have h1 : healthy (2 * tags.length + 1) w = true := by
      rw [Nat.add_comm]
      exact hh
    exact (healthy_congr _ _ _ rfl rfl).trans
      (issue_healthy (Cmd.set key data expiration) _ w h1).2
  refine ⟨⟨data, hkey⟩, ?_, ?_, ?_, ?_⟩
  · intro t ht
    obtain ⟨ms, ex, hf, hk, hex⟩ := l2 t ht
    have hexp : ex = formatSec expiration * Second := hex hpos hh2
    subst hexp
    refine ⟨ms, hf, hk, ?_⟩
    intro ms0 ex0 hf0
    have hf1 : find ("tag:" ++ t) (afterSet key data expiration w).store =
        some ⟨RValue.set ms0, ex0⟩ :=
      (find_put_of_ne key _ _ _ (hne t ht)).trans hf0
    obtain ⟨ms2, ex2, hf2, hsub, _⟩ := l1 _ ms0 ex0 hf1
    rw [hf] at hf2
    simp only [Option.some.injEq, Entry.mk.injEq, RValue.set.injEq] at hf2
    rw [hf2.1]
    exact hsub
  · intro hlt
    rw [formatSec_of_lt expiration hpos hlt]
    exact Int.one_mul _
  · intro hw
    exact formatSec_whole expiration hpos hw
  · intro k hk hkt
    rw [tagLoop_frame key expiration tags k _ hkt]
    exact find_put_of_ne key k _ _ hk

theorem SetWithTags_latest_ttl_witness :
    (SetWithTags demoCodec "k2" "v" (10 * Second) ["sale"]
        (demoWorld [("tag:sale", ⟨RValue.set ["k1"], 100 * Second⟩),
          ("k1", ⟨RValue.str "#v", 100 * Second⟩)])).1 = none ∧
    10 * Second > 0 ∧
    healthy (1 + 2 * ["sale"].length)
        (demoWorld [("tag:sale", ⟨RValue.set ["k1"], 100 * Second⟩),
          ("k1", ⟨RValue.str "#v", 100 * Second⟩)]) = true ∧
    ((∃ data, find "k2" (SetWithTags demoCodec "k2" "v" (10 * Second) ["sale"]
          (demoWorld [("tag:sale", ⟨RValue.set ["k1"], 100 * Second⟩),
            ("k1", ⟨RValue.str "#v", 100 * Second⟩)])).2.store =
        some ⟨RValue.str data, 10 * Second⟩) ∧
      (∀ t ∈ ["sale"], ∃ ms,
        find ("tag:" ++ t) (SetWithTags demoCodec "k2" "v" (10 * Second) ["sale"]
            (demoWorld [("tag:sale", ⟨RValue.set ["k1"], 100 * Second⟩),
              ("k1", ⟨RValue.str "#v", 100 * Second⟩)])).2.store =
          some ⟨RValue.set ms, formatSec (10 * Second) * Second⟩ ∧
        "k2" ∈ ms ∧
        (∀ ms0 ex0, find ("tag:" ++ t)
            (demoWorld [("tag:sale", ⟨RValue.set ["k1"], 100 * Second⟩),
              ("k1", ⟨RValue.str "#v", 100 * Second⟩)]).store = some ⟨RValue.set ms0, ex0⟩ →
          ms0 ⊆ ms)) ∧
      (10 * Second < Second → formatSec (10 * Second) * Second = Second) ∧
      (10 * Second % Second = 0 → formatSec (10 * Second) * Second = 10 * Second) ∧
      (∀ k, k ≠ "k2" → (∀ t ∈ ["sale"], k ≠ "tag:" ++ t) →
        find k (SetWithTags demoCodec "k2" "v" (10 * Second) ["sale"]
            (demoWorld [("tag:sale", ⟨RValue.set ["k1"], 100 * Second⟩),
              ("k1", ⟨RValue.str "#v", 100 * Second⟩)])).2.store =
          find k (demoWorld [("tag:sale", ⟨RValue.set ["k1"], 100 * Second⟩),
            ("k1", ⟨RValue.str "#v", 100 * Second⟩)]).store)) :=
  ⟨by decide, by decide, by decide,
    SetWithTags_latest_ttl demoCodec "k2" "v" (10 * Second) ["sale"]
      (demoWorld [("tag:sale", ⟨RValue.set ["k1"], 100 * Second⟩),
        ("k1", ⟨RValue.str "#v", 100 * Second⟩)])
      (by decide) (by decide) (by decide)⟩

/-- C24, the claim as stated fails: `k1` is tagged with `sale` and an expiration of
100 seconds, then `k2` is tagged with `sale` and an expiration of 10 seconds. Both
calls succeed; afterwards `k1` is a member of `tag:sale` and still has its 100
seconds, while the tag set has a time to live of 10 seconds. -/
theorem SetWithTags_sequence_counterexample :
    (SetWithTags demoCodec "k1" "v" (100 * Second) ["sale"] (demoWorld [])).1 = none ∧
    (SetWithTags demoCodec "k2" "v" (10 * Second) ["sale"]
        (SetWithTags demoCodec "k1" "v" (100 * Second) ["sale"] (demoWorld [])).2).1 = none ∧
    find "k1" (SetWithTags demoCodec "k2" "v" (10 * Second) ["sale"]
        (SetWithTags demoCodec "k1" "v" (100 * Second) ["sale"] (demoWorld [])).2).2.store =
      some ⟨RValue.str "#v", 100 * Second⟩ ∧
    find "tag:sale" (SetWithTags demoCodec "k2" "v" (10 * Second) ["sale"]
        (SetWithTags demoCodec "k1" "v" (100 * Second) ["sale"] (demoWorld [])).2).2.store =
      some ⟨RValue.set ["k1", "k2"], 10 * Second⟩ ∧
    10 * Second < 100 * Second := by
  decide

/-! ## The dispatch of `InvalidateWithStrategy` -/

theorem find_none_of_not_mem {β : Type} (k : String) (s : List (String × β))
    (h : k ∉ s.map Prod.fst) : find k s = none := by
  induction s with
  | nil => rfl
  | cons p rest ih =>
    obtain ⟨k', e⟩ := p
    simp only [List.map_cons, List.mem_cons, not_or] at h
    have hne : ¬ k' = k := fun heq => h.1 heq.symm
    simp only [find, hne, if_false]
    exact ih h.2

theorem find_erase {β : Type} (ks : List String) (k : String) (s : List (String × β)) :
    find k (erase ks s) = if k ∈ ks then none else find k s := by
  by_cases h : k ∈ ks
  · rw [if_pos h]
    exact find_erase_of_mem ks k s h
  · rw [if_neg h]
    exact find_erase_of_not_mem ks k s h

theorem find_erase_keysReply (pattern k : String) (s : List (String × Entry)) :
    find k (erase (keysReply pattern s) s) =
      if globMatch pattern.data k.data = true then none else find k s := by
  rw [find_erase]
  unfold keysReply
  by_cases hg : globMatch pattern.data k.data = true
  · rw [if_pos hg]
    by_cases hm : k ∈ s.map Prod.fst
    · rw [if_pos (List.mem_filter.mpr ⟨hm, by simpa using hg⟩)]
    · rw [if_neg (fun hc => hm (List.mem_filter.mp hc).1)]
      exact find_none_of_not_mem k s hm
  · rw [if_neg hg]
    rw [if_neg (fun hc => hg (by simpa using (List.mem_filter.mp hc).2))]

/-- `Delete` on a client that carries the command out. -/
theorem Delete_of_healthy {σ V : Type} (key : String) (w : World σ V)
    (hh : healthy 1 w = true) :
    (Delete key w).1 = none ∧ (Delete key w).2.store = erase [key] w.store ∧
      (Delete key w).2.trace = w.trace ++ [Event.redis (Cmd.del [key])] ∧
      ∀ n, healthy (n + 1) w = true → healthy n (Delete key w).2 = true := by
  have hi := issue_healthy (Cmd.del [key]) 0 w hh
  unfold Delete
  rw [rdbDel_of_ok [key] w hi.1 (by simp)]
  refine ⟨rfl, rfl, ?_, ?_⟩
  · simp only
    rw [issue_trace]
  · intro n hn
    exact (healthy_congr n _ _ rfl rfl).trans (issue_healthy (Cmd.del [key]) n w hn).2

/-- `DeletePattern` on a client that carries its commands out. -/
theorem DeletePattern_of_healthy {σ V : Type} (pattern : String) (w : World σ V)
    (hh : healthy 2 w = true) :
    (DeletePattern pattern w).1 = none ∧
      (DeletePattern pattern w).2.store = erase (keysReply pattern w.store) w.store ∧
      (DeletePattern pattern w).2.trace =
        w.trace ++ Event.redis (Cmd.keys pattern) ::
          (if (keysReply pattern w.store).length > 0 then
            [Event.redis (Cmd.del (keysReply pattern w.store))] else []) := by
  have hi := issue_healthy (Cmd.keys pattern) 1 w hh
  have hs := issue_store (Cmd.keys pattern) w
  have ht := issue_trace (Cmd.keys pattern) w
  unfold DeletePattern rdbKeys
  rcases hiq : issue (Cmd.keys pattern) w with ⟨r, w1⟩
  rw [hiq] at hi hs ht
  simp only at hi hs ht
  obtain ⟨hr, hh1⟩ := hi
  subst hr
  simp only
  have hk : (List.filter (fun k => globMatch pattern.data k.data) (w1.store.map Prod.fst)) =
      keysReply pattern w.store := by
    unfold keysReply
    rw [hs]
  rw [hk]
  by_cases hlen : (keysReply pattern w.store).length > 0
  · rw [if_pos hlen, if_pos hlen]
    have hne : keysReply pattern w.store ≠ [] := by
      intro he
      rw [he] at hlen
      simp at hlen
    have hi2 := issue_healthy (Cmd.del (keysReply pattern w.store)) 0 w1 hh1
    rw [rdbDel_of_ok _ w1 hi2.1 hne]
    refine ⟨rfl, ?_, ?_⟩
    · simp only
      rw [hs]
    · simp only
      rw [issue_trace, ht]
      simp
  · rw [if_neg hlen, if_neg hlen]
    refine ⟨rfl, ?_, ?_⟩
    · simp only
      rw [hs]
      have he : keysReply pattern w.store = [] := by
        cases hq : keysReply pattern w.store with
        | nil => rfl
        | cons a b => rw [hq] at hlen; simp at hlen
      rw [he, erase_no_keys]
    · simp only
      rw [ht]

theorem RecordCacheInvalidation_healthy {σ V : Type} (label : String) (n : Nat)
    (w : World σ V) (hh : healthy n w = true) :
    healthy n (RecordCacheInvalidation label w) = true :=
  (healthy_congr n _ _ rfl rfl).trans hh

/-- C28: on a client that carries out the commands of the call,
`InvalidateWithStrategy` returns no error and does the following to the store and
sends the following commands. `bestsellers`: the key `bestsellers` is removed, one
`DEL`. `recommendations`: the keys matching `recommendations:*` are removed, by
`KEYS` and, if there are any, one `DEL`. `flash-sales`: the key `flash_sales` is
removed, by one `DEL`, followed by a `PUBLISH` of `flash_sales` on
`cache_invalidated`. `profile`: the keys matching `profile:*` are removed, as for
`recommendations`. Every other string `s` (so also `flash_sales`): the key `s` is
removed, by one `DEL`, and nothing is published. Every key not named is bound as
before. -/
theorem InvalidateWithStrategy_dispatch {σ V : Type} (w : World σ V)
    (hh : healthy 2 w = true) :
    ((InvalidateWithStrategy "bestsellers" w).1 = none ∧
      (∀ k, find k (InvalidateWithStrategy "bestsellers" w).2.store =
        if k = "bestsellers" then none else find k w.store) ∧
      (InvalidateWithStrategy "bestsellers" w).2.trace =
        w.trace ++ [Event.metric "cache_invalidations_total" "bestsellers",
          Event.redis (Cmd.del ["bestsellers"])]) ∧
    ((InvalidateWithStrategy "recommendations" w).1 = none ∧
      (∀ k, find k (InvalidateWithStrategy "recommendations" w).2.store =
        if globMatch "recommendations:*".data k.data = true then none else find k w.store) ∧
      (InvalidateWithStrategy "recommendations" w).2.trace =
        w.trace ++ Event.metric "cache_invalidations_total" "recommendations" ::
          Event.redis (Cmd.keys "recommendations:*") ::
          (if (keysReply "recommendations:*" w.store).length > 0 then
            [Event.redis (Cmd.del (keysReply "recommendations:*" w.store))] else [])) ∧
    ((InvalidateWithStrategy "flash-sales" w).1 = none ∧
      (∀ k, find k (InvalidateWithStrategy "flash-sales" w).2.store =
        if k = "flash_sales" then none else find k w.store) ∧
      (InvalidateWithStrategy "flash-sales" w).2.trace =
        w.trace ++ [Event.metric "cache_invalidations_total" "flash-sales",
          Event.redis (Cmd.del ["flash_sales"]),
          Event.redis (Cmd.publish "cache_invalidated" "flash_sales")]) ∧
    ((InvalidateWithStrategy "profile" w).1 = none ∧
      (∀ k, find k (InvalidateWithStrategy "profile" w).2.store =
        if globMatch "profile:*".data k.data = true then none else find k w.store) ∧
      (InvalidateWithStrategy "profile" w).2.trace =
        w.trace ++ Event.metric "cache_invalidations_total" "profile" ::
          Event.redis (Cmd.keys "profile:*") ::
          (if (keysReply "profile:*" w.store).length > 0 then
            [Event.redis (Cmd.del (keysReply "profile:*" w.store))] else [])) ∧
    (∀ s : String, s ≠ "bestsellers" → s ≠ "recommendations" → s ≠ "flash-sales" →
      s ≠ "profile" →
      (InvalidateWithStrategy s w).1 = none ∧
      (∀ k, find k (InvalidateWithStrategy s w).2.store =
        if k = s then none else find k w.store) ∧
      (InvalidateWithStrategy s w).2.trace =
        w.trace ++ [Event.metric "cache_invalidations_total" s,
          Event.redis (Cmd.del [s])]) := by
  have hdel : ∀ (label key : String),
      (Delete key (RecordCacheInvalidation label w)).1 = none ∧
      (∀ k, find k (Delete key (RecordCacheInvalidation label w)).2.store =
        if k = key then none else find k w.store) ∧
      (Delete key (RecordCacheInvalidation label w)).2.trace =
        w.trace ++ [Event.metric "cache_invalidations_total" label,
          Event.redis (Cmd.del [key])] := by
    intro label key
    obtain ⟨h1, h2, h3, _⟩ := Delete_of_healthy key (RecordCacheInvalidation label w)
      (RecordCacheInvalidation_healthy label 1 w (healthy_of_succ 1 w hh))
    refine ⟨h1, ?_, ?_⟩
    · intro k
      rw [h2, find_erase]
      simp [RecordCacheInvalidation]
    · rw [h3]
      simp [RecordCacheInvalidation]
  have hpat : ∀ (label pattern : String),
      (DeletePattern pattern (RecordCacheInvalidation label w)).1 = none ∧
      (∀ k, find k (DeletePattern pattern (RecordCacheInvalidation label w)).2.store =
        if globMatch pattern.data k.data = true then none else find k w.store) ∧
      (DeletePattern pattern (RecordCacheInvalidation label w)).2.trace =
        w.trace ++ Event.metric "cache_invalidations_total" label ::
          Event.redis (Cmd.keys pattern) ::
          (if (keysReply pattern w.store).length > 0 then
            [Event.redis (Cmd.del (keysReply pattern w.store))] else []) := by
    intro label pattern
    obtain ⟨h1, h2, h3⟩ := DeletePattern_of_healthy pattern (RecordCacheInvalidation label w)
      (RecordCacheInvalidation_healthy label 2 w hh)
    refine ⟨h1, ?_, ?_⟩
    · intro k
      rw [h2]
      exact find_erase_keysReply pattern k w.store
    · rw [h3]
      simp [RecordCacheInvalidation]
  refine ⟨?_, ?_, ?_, ?_, ?_⟩
  · have heq : InvalidateWithStrategy "bestsellers" w =
        Delete "bestsellers" (RecordCacheInvalidation "bestsellers" w) := by
      unfold InvalidateWithStrategy
      simp only
      exact if_pos trivial
    rw [heq]
    exact hdel "bestsellers" "bestsellers"
  · have heq : InvalidateWithStrategy "recommendations" w =
        DeletePattern "recommendations:*" (RecordCacheInvalidation "recommendations" w) := by
      unfold InvalidateWithStrategy
      simp only
      rw [if_neg (by decide)]
      exact if_pos trivial
    rw [heq]
    exact hpat "recommendations" "recommendations:*"
  · rw [InvalidateWithStrategy_flash]
    obtain ⟨h1, h2, h3⟩ := hdel "flash-sales" "flash_sales"
    rw [show Delete "flash_sales" (RecordCacheInvalidation "flash-sales" w) =
      (none, (Delete "flash_sales" (RecordCacheInvalidation "flash-sales" w)).2) from
        Prod.ext h1 rfl]
    simp only
    unfold rdbPublish
    have hh1 : healthy 1 (Delete "flash_sales" (RecordCacheInvalidation "flash-sales" w)).2 =
        true :=
      (Delete_of_healthy "flash_sales" (RecordCacheInvalidation "flash-sales" w)
        (RecordCacheInvalidation_healthy "flash-sales" 1 w (healthy_of_succ 1 w hh))).2.2.2 1
        (RecordCacheInvalidation_healthy "flash-sales" 2 w hh)
    refine ⟨(issue_healthy _ 0 _ hh1).1, ?_, ?_⟩
    · intro k
      rw [issue_store]
      exact h2 k
    · rw [issue_trace, h3]
      simp
  · have heq : InvalidateWithStrategy "profile" w =
        DeletePattern "profile:*" (RecordCacheInvalidation "profile" w) := by
      unfold InvalidateWithStrategy
      simp only
      rw [if_neg (by decide), if_neg (by decide), if_neg (by decide)]
      exact if_pos trivial
    rw [heq]
    exact hpat "profile" "profile:*"
  · intro s h1 h2 h3 h4
    have heq : InvalidateWithStrategy s w = Delete s (RecordCacheInvalidation s w) := by
      unfold InvalidateWithStrategy
      simp only
      rw [if_neg h1, if_neg h2, if_neg h3, if_neg h4]
    rw [heq]
    exact hdel s s

theorem InvalidateWithStrategy_dispatch_witness :
    healthy 2 (demoWorld [("flash_sales", ⟨RValue.str "#f", 5⟩),
        ("profile:1", ⟨RValue.str "#p", 5⟩), ("user:profile:1", ⟨RValue.str "#u", 5⟩)]) =
      true ∧
    (InvalidateWithStrategy "profile"
        (demoWorld [("flash_sales", ⟨RValue.str "#f", 5⟩),
          ("profile:1", ⟨RValue.str "#p", 5⟩), ("user:profile:1", ⟨RValue.str "#u", 5⟩)])
      ).2.store =
      [("flash_sales", ⟨RValue.str "#f", 5⟩), ("user:profile:1", ⟨RValue.str "#u", 5⟩)] ∧
    (InvalidateWithStrategy "flash_sales"
        (demoWorld [("flash_sales", ⟨RValue.str "#f", 5⟩),
          ("profile:1", ⟨RValue.str "#p", 5⟩), ("user:profile:1", ⟨RValue.str "#u", 5⟩)])
      ).2.store =
      [("profile:1", ⟨RValue.str "#p", 5⟩), ("user:profile:1", ⟨RValue.str "#u", 5⟩)] ∧
    ((InvalidateWithStrategy "flash_sales"
        (demoWorld [("flash_sales", ⟨RValue.str "#f", 5⟩),
          ("profile:1", ⟨RValue.str "#p", 5⟩), ("user:profile:1", ⟨RValue.str "#u", 5⟩)])
      ).1 = none ∧
      (∀ k, find k (InvalidateWithStrategy "flash_sales"
          (demoWorld [("flash_sales", ⟨RValue.str "#f", 5⟩),
            ("profile:1", ⟨RValue.str "#p", 5⟩), ("user:profile:1", ⟨RValue.str "#u", 5⟩)])
        ).2.store =
        if k = "flash_sales" then none else
          find k (demoWorld [("flash_sales", ⟨RValue.str "#f", 5⟩),
            ("profile:1", ⟨RValue.str "#p", 5⟩),
            ("user:profile:1", ⟨RValue.str "#u", 5⟩)]).store) ∧
      (InvalidateWithStrategy "flash_sales"
          (demoWorld [("flash_sales", ⟨RValue.str "#f", 5⟩),
            ("profile:1", ⟨RValue.str "#p", 5⟩), ("user:profile:1", ⟨RValue.str "#u", 5⟩)])
        ).2.trace =
        (demoWorld [("flash_sales", ⟨RValue.str "#f", 5⟩),
            ("profile:1", ⟨RValue.str "#p", 5⟩),
            ("user:profile:1", ⟨RValue.str "#u", 5⟩)]).trace ++
          [Event.metric "cache_invalidations_total" "flash_sales",
            Event.redis (Cmd.del ["flash_sales"])]) :=
  ⟨by decide, by decide, by decide,
    (InvalidateWithStrategy_dispatch
      (demoWorld [("flash_sales", ⟨RValue.str "#f", 5⟩),
        ("profile:1", ⟨RValue.str "#p", 5⟩), ("user:profile:1", ⟨RValue.str "#u", 5⟩)])
      (by decide)).2.2.2.2 "flash_sales" (by decide) (by decide) (by decide) (by decide)⟩

end Cache

namespace Hub

/-! ## The hub -/

theorem adjust_length (f : WSClient → WSClient) (i : Nat) (cs : List WSClient) :
    (adjust f i cs).length = cs.length := by
  induction cs generalizing i with
  | nil => cases i <;> rfl
  | cons c rest ih =>
    cases i with
    | zero => rfl
    | succ n => simp [adjust, ih]

theorem adjust_getElem_self (f : WSClient → WSClient) (i : Nat) (cs : List WSClient) :
    (adjust f i cs)[i]? = (cs[i]?).map f := by
  induction cs generalizing i with
  | nil => cases i <;> rfl
  | cons c rest ih =>
    cases i with
    | zero => simp [adjust]
    | succ n => simp [adjust, ih]

theorem adjust_getElem_of_ne (f : WSClient → WSClient) (i j : Nat) (cs : List WSClient)
    (h : j ≠ i) : (adjust f i cs)[j]? = cs[j]? := by
  induction cs generalizing i j with
  | nil => cases i <;> rfl
  | cons c rest ih =>
    cases i with
    | zero =>
      cases j with
      | zero => exact absurd rfl h
      | succ m => simp [adjust]
    | succ n =>
      cases j with
      | zero => simp [adjust]
      | succ m => simpa [adjust] using ih n m (by omega)

theorem adjust_eq_self (f : WSClient → WSClient) (i : Nat) (cs : List WSClient)
    (h : ∀ c, cs[i]? = some c → f c = c) : adjust f i cs = cs := by
  induction cs generalizing i with
  | nil => cases i <;> rfl
  | cons c rest ih =>
    cases i with
    | zero =>
      have := h c (by simp)
      simp [adjust, this]
    | succ n =>
      have := ih n (fun c hc => h c (by simpa using hc))
      simp [adjust, this]

theorem adjust_of_none (f : WSClient → WSClient) (i : Nat) (cs : List WSClient)
    (h : cs[i]? = none) : adjust f i cs = cs := by
  apply adjust_eq_self
  intro c hc
  rw [h] at hc
  cases hc

theorem deliver_of_not_live (message : String) (c : WSClient) (h : c.live = false) :
    deliver message c = c := by
  unfold deliver
  rw [h]
  simp

theorem visit_clients_of_ne (message : String) (i j : Nat) (h : WSHub) (hne : j ≠ i) :
    (visit message i h).clients[j]? = h.clients[j]? := by
  unfold visit
  split
  · rfl
  · split
    · split
      · rfl
      · exact adjust_getElem_of_ne _ i j h.clients hne
    · rfl

theorem visit_clients_self (message : String) (i : Nat) (h : WSHub) :
    (visit message i h).clients[i]? = h.clients[i]? ∨
      (visit message i h).clients[i]? = (h.clients[i]?).map (deliver message) := by
  unfold visit
  split
  · exact Or.inl rfl
  · split
    · split
      · exact Or.inl rfl
      · exact Or.inr (adjust_getElem_self _ i h.clients)
    · exact Or.inl rfl

theorem visit_of_open (message : String) (i : Nat) (h : WSHub) (hp : h.panicked = false)
    (hopen : ∀ c, h.clients[i]? = some c → c.live = true → c.closed = false) :
    (visit message i h).panicked = false ∧
      (visit message i h).clients[i]? = (h.clients[i]?).map (deliver message) := by
  unfold visit
  rw [hp]
  simp only [Bool.false_eq_true, if_false]
  cases hc : h.clients[i]? with
  | none => exact ⟨hp, hc⟩
  | some c =>
    simp only
    have hno : (c.live && c.closed) = false := by
      cases hl : c.live with
      | false => rfl
      | true => rw [hopen c hc hl]; rfl
    rw [hno]
    simp only [Bool.false_eq_true, if_false]
    refine ⟨trivial, ?_⟩
    rw [adjust_getElem_self, hc]

theorem broadcastLoop_not_mem (message : String) (order : List Nat) (h : WSHub) (j : Nat)
    (hj : j ∉ order) : (broadcastLoop message order h).clients[j]? = h.clients[j]? := by
  induction order generalizing h with
  | nil => rfl
  | cons i rest ih =>
    rw [broadcastLoop]
    rw [ih _ (fun hm => hj (List.mem_cons_of_mem _ hm))]
    exact visit_clients_of_ne message i j h (fun heq => hj (heq ▸ List.mem_cons_self _ _))

/-- Whatever the state of the hub, a broadcast leaves every client as it is or as the
`select` on its queue leaves it: nothing is enqueued twice. -/
theorem broadcastLoop_general (message : String) (order : List Nat) (h : WSHub)
    (hn : order.Nodup) (j : Nat) :
    (broadcastLoop message order h).clients[j]? = h.clients[j]? ∨
      (broadcastLoop message order h).clients[j]? =
        (h.clients[j]?).map (deliver message) := by
  induction order generalizing h with
  | nil => exact Or.inl rfl
  | cons i rest ih =>
    obtain ⟨hi, hrest⟩ := List.nodup_cons.mp hn
    rw [broadcastLoop]
    by_cases hji : j = i
    · subst hji
      rw [broadcastLoop_not_mem message rest _ j hi]
      exact visit_clients_self message j h
    · rw [← visit_clients_of_ne message i j h hji]
      exact ih _ hrest

/-- A broadcast in a hub whose live clients have open queues, in any order without
repetition: no panic, and exactly the visited clients go through the `select`. -/
theorem broadcastLoop_open (message : String) (order : List Nat) (h : WSHub)
    (hp : h.panicked = false) (hn : order.Nodup)
    (hopen : ∀ i ∈ order, ∀ c, h.clients[i]? = some c → c.live = true → c.closed = false) :
    (broadcastLoop message order h).panicked = false ∧
      ∀ j, (broadcastLoop message order h).clients[j]? =
        if j ∈ order then (h.clients[j]?).map (deliver message) else h.clients[j]? := by
  induction order generalizing h with
  | nil => exact ⟨hp, fun j => by simp [broadcastLoop]⟩
  | cons i rest ih =>
    obtain ⟨hi, hrest⟩ := List.nodup_cons.mp hn
    obtain ⟨hp1, hself⟩ := visit_of_open message i h hp (hopen i (List.mem_cons_self _ _))
    have hopen1 : ∀ k ∈ rest, ∀ c, (visit message i h).clients[k]? = some c →
        c.live = true → c.closed = false := by
      intro k hk c hc
      have hki : k ≠ i := fun heq => hi (heq ▸ hk)
      rw [visit_clients_of_ne message i k h hki] at hc
      exact hopen k (List.mem_cons_of_mem _ hk) c hc
    obtain ⟨hp2, hcl⟩ := ih (visit message i h) hp1 hrest hopen1
    rw [broadcastLoop]
    refine ⟨hp2, ?_⟩
    intro j
    rw [hcl j]
    by_cases hji : j = i
    · subst hji
      rw [if_neg hi, if_pos (List.mem_cons_self _ _)]
      exact hself
    · rw [visit_clients_of_ne message i j h hji]
      by_cases hjr : j ∈ rest
      · rw [if_pos hjr, if_pos (List.mem_cons_of_mem _ hjr)]
      · rw [if_neg hjr, if_neg (fun hm => (List.mem_cons.mp hm).elim hji hjr)]

theorem broadcastLoop_length (message : String) (order : List Nat) (h : WSHub) :
    (broadcastLoop message order h).clients.length = h.clients.length := by
  induction order generalizing h with
  | nil => rfl
  | cons i rest ih =>
    rw [broadcastLoop, ih]
    unfold visit
    split
    · rfl
    · split
      · split
        · rfl
        · exact adjust_length _ _ _
      · rfl

theorem liveClients_nodup (h : WSHub) : (liveClients h).Nodup :=
  List.Nodup.filter _ (List.nodup_range _)

theorem mem_liveClients (h : WSHub) (i : Nat) :
    i ∈ liveClients h ↔ ∃ c, h.clients[i]? = some c ∧ c.live = true := by
  unfold liveClients
  rw [List.mem_filter, List.mem_range]
  constructor
  · rintro ⟨_, hl⟩
    cases hc : h.clients[i]? with
    | none => rw [hc] at hl; cases hl
    | some c =>
      rw [hc] at hl
      exact ⟨c, rfl, hl⟩
  · rintro ⟨c, hc, hl⟩
    refine ⟨?_, ?_⟩
    · by_contra hge
      have := List.getElem?_eq_none (not_lt.mp hge)
      rw [hc] at this
      cases this
    · rw [hc]
      exact hl

/-- A broadcast in a hub whose live clients have open queues, visiting the live set
in any order: every client goes through the `select` on its queue, once. -/
theorem broadcastLoop_of_open (message : String) (h : WSHub) (order : List Nat)
    (hp : h.panicked = false)
    (hopen : ∀ c ∈ h.clients, c.live = true → c.closed = false)
    (hperm : order.Perm (liveClients h)) :
    broadcastLoop message order h = { h with clients := h.clients.map (deliver message) } := by
  have hn : order.Nodup := hperm.nodup_iff.mpr (liveClients_nodup h)
  obtain ⟨hp2, hcl⟩ := broadcastLoop_open message order h hp hn
    (fun i _ c hc hl => hopen c (List.getElem?_mem hc) hl)
  have hclients : (broadcastLoop message order h).clients = h.clients.map (deliver message) := by
    apply List.ext_getElem?
    intro j
    rw [hcl j, List.getElem?_map]
    by_cases hj : j ∈ order
    · rw [if_pos hj]
    · rw [if_neg hj]
      cases hc : h.clients[j]? with
      | none => rfl
      | some c =>
        have hl : c.live = false := by
          cases hlive : c.live with
          | false => rfl
          | true =>
            exact absurd (hperm.mem_iff.mpr ((mem_liveClients h j).mpr ⟨c, hc, hlive⟩)) hj
        simp only [Option.map_some']
        rw [deliver_of_not_live message c hl]
  have heta : broadcastLoop message order h =
      ⟨(broadcastLoop message order h).clients, (broadcastLoop message order h).panicked⟩ := rfl
  rw [heta, hclients, hp2, ← hp]

theorem broadcastStep_of_open (message : String) (h : WSHub) (hp : h.panicked = false)
    (hopen : ∀ c ∈ h.clients, c.live = true → c.closed = false) :
    broadcastStep message h = { h with clients := h.clients.map (deliver message) } :=
  broadcastLoop_of_open message h (liveClients h) hp hopen (List.Perm.refl _)

theorem registerStep_clients_of_ne (i j : Nat) (h : WSHub) (hne : i ≠ j) :
    (registerStep j h).clients[i]? = h.clients[i]? := by
  unfold registerStep
  split
  · rfl
  · exact adjust_getElem_of_ne _ j i h.clients hne

theorem unregisterStep_clients_of_not_live (i j : Nat) (h : WSHub) (c : WSClient)
    (hc : h.clients[i]? = some c) (hl : c.live = false) :
    (unregisterStep j h).clients[i]? = some c := by
  unfold unregisterStep
  split
  · exact hc
  · split
    · rename_i cj hcj
      split
      · rename_i hlive
        have hne : i ≠ j := by
          intro heq
          subst heq
          rw [hc] at hcj
          simp only [Option.some.injEq] at hcj
          subst hcj
          rw [hl] at hlive
          exact absurd hlive (by decide)
        split
        · exact hc
        · exact (adjust_getElem_of_ne _ j i h.clients hne).trans hc
      · exact hc
    · exact hc

theorem broadcastStep_clients_of_not_live (i : Nat) (message : String) (h : WSHub)
    (c : WSClient) (hc : h.clients[i]? = some c) (hl : c.live = false) :
    (broadcastStep message h).clients[i]? = some c := by
  unfold broadcastStep
  rcases broadcastLoop_general message (liveClients h) h (liveClients_nodup h) i with hg | hg
  · exact hg.trans hc
  · rw [hg, hc]
    simp only [Option.map_some']
    rw [deliver_of_not_live message c hl]

theorem step_clients_of_not_live (e : HubEvent) (i : Nat) (h : WSHub) (c : WSClient)
    (hc : h.clients[i]? = some c) (hl : c.live = false) (he : e ≠ HubEvent.register i) :
    (step e h).clients[i]? = some c := by
  cases e with
  | register j =>
    have hne : i ≠ j := fun heq => he (heq ▸ rfl)
    exact (registerStep_clients_of_ne i j h hne).trans hc
  | unregister j => exact unregisterStep_clients_of_not_live i j h c hc hl
  | broadcast m => exact broadcastStep_clients_of_not_live i m h c hc hl

theorem run_clients_of_not_live (events : List HubEvent) (i : Nat) (h : WSHub) (c : WSClient)
    (hc : h.clients[i]? = some c) (hl : c.live = false)
    (he : HubEvent.register i ∉ events) :
    (WSHub.run events h).clients[i]? = some c := by
  induction events generalizing h with
  | nil => exact hc
  | cons e rest ih =>
    have hhead : e ≠ HubEvent.register i := fun heq => he (heq ▸ List.mem_cons_self _ _)
    have htail : HubEvent.register i ∉ rest := fun hmem => he (List.mem_cons_of_mem _ hmem)
    exact ih (step e h) (step_clients_of_not_live e i h c hc hl hhead) htail

theorem registerStep_of_live (i : Nat) (h : WSHub) (c : WSClient)
    (hc : h.clients[i]? = some c) (hl : c.live = true) : registerStep i h = h := by
  unfold registerStep
  split
  · rfl
  · have : adjust (fun c => { c with live := true }) i h.clients = h.clients := by
      apply adjust_eq_self
      intro c2 hc2
      rw [hc] at hc2
      simp only [Option.some.injEq] at hc2
      subst hc2
      cases c
      simp only at hl
      subst hl
      rfl
    rw [this]

/-- C15: for every hub, client and sequence of events processed by `WSHub.run`.
A client that is not in the live set is left exactly as it is (nothing is enqueued
to it, it stays out of the live set) by every sequence of events that does not
register it again. Unregistering a registered client removes it from the live set
and closes its queue. Registering a client that is already in the live set changes
nothing in the hub, and a broadcast that follows leaves its queue either with the one
message appended or without it (when the client is dropped or the step panics),
never with two copies; the message is appended when the queue is not full and no
registered client has a closed queue. -/
theorem run_respects_membership (events : List HubEvent) (h : WSHub) (i : Nat) (c : WSClient)
    (message : String) :
    (h.clients[i]? = some c → c.live = false → HubEvent.register i ∉ events →
        (WSHub.run events h).clients[i]? = some c) ∧
      (h.panicked = false → h.clients[i]? = some c → c.live = true → c.closed = false →
        (unregisterStep i h).clients[i]? = some { c with live := false, closed := true }) ∧
      (h.clients[i]? = some c → c.live = true →
        registerStep i h = h ∧
        ((broadcastStep message (registerStep i h)).clients[i]? =
            some { c with send := c.send ++ [message] } ∨
          (broadcastStep message (registerStep i h)).clients[i]? = some c ∨
          (broadcastStep message (registerStep i h)).clients[i]? =
            some { c with live := false, closed := true }) ∧
        (h.panicked = false → (∀ x ∈ h.clients, x.live = true → x.closed = false) →
          c.send.length < c.capacity →
          (broadcastStep message (registerStep i h)).clients[i]? =
            some { c with send := c.send ++ [message] })) := by
  refine ⟨fun hc hl he => run_clients_of_not_live events i h c hc hl he, ?_, ?_⟩
  · intro hp hc hl hcl
    unfold unregisterStep
    simp only [hp, hc, hl, hcl, Bool.false_eq_true, if_false, if_true]
    rw [adjust_getElem_self, hc]
    rfl
  · intro hc hl
    have hreg := registerStep_of_live i h c hc hl
    rw [hreg]
    refine ⟨rfl, ?_, ?_⟩
    · unfold broadcastStep
      rcases broadcastLoop_general message (liveClients h) h (liveClients_nodup h) i with
        hg | hg
      · exact Or.inr (Or.inl (hg.trans hc))
      · rw [hg, hc]
        simp only [Option.map_some']
        by_cases hlt : c.send.length < c.capacity
        · exact Or.inl (by simp [deliver, hl, hlt])
        · exact Or.inr (Or.inr (by simp [deliver, hl, hlt]))
    · intro hp hopen hlt
      rw [broadcastStep_of_open message h hp hopen]
      simp only [List.getElem?_map, hc, Option.map_some']
      simp [deliver, hl, hlt]

theorem run_respects_membership_witness :
    (WSHub.run [HubEvent.unregister 0, HubEvent.broadcast "m", HubEvent.register 1,
          HubEvent.broadcast "n"]
        ⟨[⟨[], 2, false, 1, true⟩, ⟨[], 2, false, 2, true⟩], false⟩).clients =
      [⟨[], 2, true, 1, false⟩, ⟨["m", "n"], 2, false, 2, true⟩] ∧
    (WSHub.run [HubEvent.broadcast "m", HubEvent.unregister 1, HubEvent.broadcast "n"]
        ⟨[⟨[], 2, true, 1, false⟩, ⟨[], 2, false, 2, true⟩], false⟩).clients[0]? =
      some ⟨[], 2, true, 1, false⟩ :=
  ⟨by decide,
    (run_respects_membership
      [HubEvent.broadcast "m", HubEvent.unregister 1, HubEvent.broadcast "n"]
      ⟨[⟨[], 2, true, 1, false⟩, ⟨[], 2, false, 2, true⟩], false⟩ 0 ⟨[], 2, true, 1, false⟩
      "x").1 rfl rfl (by decide)⟩


/-! ## Safety of `run` -/

theorem Safe_mem (h : WSHub) (hs : Safe h) :
    ∀ c ∈ h.clients, c.live = true → c.closed = false := by
  intro c hc hl
  obtain ⟨i, hi⟩ := List.mem_iff_getElem?.mp hc
  exact hs.2 i c hi hl

theorem registerStep_safe (j : Nat) (regs : List Nat) (h : WSHub) (hs : Safe h)
    (hf : Fresh (j :: regs) h) (hj : j ∉ regs) :
    Safe (registerStep j h) ∧ Fresh regs (registerStep j h) := by
  have hreg : registerStep j h =
      { h with clients := adjust (fun c => { c with live := true }) j h.clients } := by
    unfold registerStep
    rw [hs.1]
    simp
  rw [hreg]
  refine ⟨⟨hs.1, ?_⟩, ?_⟩
  · intro i c hc hl
    by_cases hij : i = j
    · subst hij
      simp only at hc
      rw [adjust_getElem_self] at hc
      cases hci : h.clients[i]? with
      | none => rw [hci] at hc; simp at hc
      | some c0 =>
        rw [hci] at hc
        simp only [Option.map_some', Option.some.injEq] at hc
        subst hc
        exact (hf i (List.mem_cons_self _ _) c0 hci).2
    · simp only at hc
      rw [adjust_getElem_of_ne _ j i h.clients hij] at hc
      exact hs.2 i c hc hl
  · intro i hi c hc
    have hij : i ≠ j := fun heq => hj (heq ▸ hi)
    simp only at hc
    rw [adjust_getElem_of_ne _ j i h.clients hij] at hc
    exact hf i (List.mem_cons_of_mem _ hi) c hc

theorem unregisterStep_safe (j : Nat) (regs : List Nat) (h : WSHub) (hs : Safe h)
    (hf : Fresh regs h) :
    Safe (unregisterStep j h) ∧ Fresh regs (unregisterStep j h) := by
  unfold unregisterStep
  rw [hs.1]
  simp only [Bool.false_eq_true, if_false]
  cases hcj : h.clients[j]? with
  | none => exact ⟨hs, hf⟩
  | some cj =>
    simp only
    by_cases hl : cj.live = true
    · rw [if_pos hl]
      have hopen : cj.closed = false := hs.2 j cj hcj hl
      rw [hopen]
      simp only [Bool.false_eq_true, if_false]
      refine ⟨⟨rfl, ?_⟩, ?_⟩
      · intro i c hc hlc
        by_cases hij : i = j
        · subst hij
          simp only at hc
          rw [adjust_getElem_self, hcj] at hc
          simp only [Option.map_some', Option.some.injEq] at hc
          subst hc
          simp at hlc
        · simp only at hc
          rw [adjust_getElem_of_ne _ j i h.clients hij] at hc
          exact hs.2 i c hc hlc
      · intro i hi c hc
        have hij : i ≠ j := by
          intro heq
          subst heq
          have := (hf i hi cj hcj).1
          rw [hl] at this
          cases this
        simp only at hc
        rw [adjust_getElem_of_ne _ j i h.clients hij] at hc
        exact hf i hi c hc
    · rw [if_neg hl]
      exact ⟨hs, hf⟩

theorem deliver_open (message : String) (c : WSClient)
    (h : c.live = true → c.closed = false) :
    (deliver message c).live = true → (deliver message c).closed = false := by
  unfold deliver
  by_cases hl : c.live = true
  · rw [if_pos hl]
    split
    · intro _
      exact h hl
    · intro hcon
      simp at hcon
  · rw [if_neg hl]
    exact h

theorem broadcastStep_safe (message : String) (regs : List Nat) (h : WSHub) (hs : Safe h)
    (hf : Fresh regs h) :
    Safe (broadcastStep message h) ∧ Fresh regs (broadcastStep message h) := by
  rw [broadcastStep_of_open message h hs.1 (Safe_mem h hs)]
  refine ⟨⟨hs.1, ?_⟩, ?_⟩
  · intro i c hc
    simp only [List.getElem?_map] at hc
    cases hci : h.clients[i]? with
    | none => rw [hci] at hc; simp at hc
    | some c0 =>
      rw [hci] at hc
      simp only [Option.map_some', Option.some.injEq] at hc
      subst hc
      exact deliver_open message c0 (hs.2 i c0 hci)
  · intro i hi c hc
    simp only [List.getElem?_map] at hc
    cases hci : h.clients[i]? with
    | none => rw [hci] at hc; simp at hc
    | some c0 =>
      rw [hci] at hc
      simp only [Option.map_some', Option.some.injEq] at hc
      have h0 := hf i hi c0 hci
      rw [deliver_of_not_live message c0 h0.1] at hc
      subst hc
      exact h0

theorem run_safe (events : List HubEvent) (h : WSHub) (hs : Safe h)
    (hf : Fresh (registrations events) h) (hn : (registrations events).Nodup) :
    Safe (WSHub.run events h) := by
  induction events generalizing h with
  | nil => exact hs
  | cons e rest ih =>
    cases e with
    | register j =>
      have hn2 := List.nodup_cons.mp hn
      obtain ⟨s1, f1⟩ := registerStep_safe j (registrations rest) h hs hf hn2.1
      exact ih _ s1 f1 hn2.2
    | unregister j =>
      obtain ⟨s1, f1⟩ := unregisterStep_safe j (registrations rest) h hs hf
      exact ih _ s1 f1 hn
    | broadcast m =>
      obtain ⟨s1, f1⟩ := broadcastStep_safe m (registrations rest) h hs hf
      exact ih _ s1 f1 hn

theorem unregisterStep_of_not_live (i : Nat) (h : WSHub) (c : WSClient)
    (hc : h.clients[i]? = some c) (hl : c.live = false) : unregisterStep i h = h := by
  unfold unregisterStep
  rw [hc]
  simp [hl]

/-- C25: for every sequence of register, unregister and broadcast events processed
by `WSHub.run` from a hub that has not panicked and whose live clients have open
queues, in which no client is registered twice and every client that gets registered
is new to the hub (not in the live set, with an open queue): `run` does not panic,
that is, it never sends on a closed queue and never closes a queue a second time;
afterwards every client in the live set has an open queue; and unregistering a client
that is not in the live set changes nothing. -/
theorem run_never_panics (events : List HubEvent) (h : WSHub)
    (hp : h.panicked = false)
    (hopen : ∀ c ∈ h.clients, c.live = true → c.closed = false)
    (hnew : ∀ i ∈ registrations events, ∀ c, h.clients[i]? = some c →
      c.live = false ∧ c.closed = false)
    (honce : (registrations events).Nodup) :
    (WSHub.run events h).panicked = false ∧
      (∀ c ∈ (WSHub.run events h).clients, c.live = true → c.closed = false) ∧
      ∀ i c, (WSHub.run events h).clients[i]? = some c → c.live = false →
        unregisterStep i (WSHub.run events h) = WSHub.run events h := by
  have hs : Safe h := ⟨hp, fun i c hc hl => hopen c (List.getElem?_mem hc) hl⟩
  have hsafe := run_safe events h hs hnew honce
  exact ⟨hsafe.1, Safe_mem _ hsafe, fun i c hc hl => unregisterStep_of_not_live i _ c hc hl⟩

theorem run_never_panics_witness :
    (WSHub.run [HubEvent.register 0, HubEvent.broadcast "a", HubEvent.register 1,
          HubEvent.broadcast "b", HubEvent.unregister 0, HubEvent.unregister 0,
          HubEvent.broadcast "c", HubEvent.unregister 1]
        ⟨[⟨[], 1, false, 1, false⟩, ⟨[], 2, false, 2, false⟩], false⟩) =
      ⟨[⟨["a"], 1, true, 1, false⟩, ⟨["b", "c"], 2, true, 2, false⟩], false⟩ ∧
    (WSHub.run [HubEvent.register 0, HubEvent.broadcast "a", HubEvent.register 1,
          HubEvent.broadcast "b", HubEvent.unregister 0, HubEvent.unregister 0,
          HubEvent.broadcast "c", HubEvent.unregister 1]
        ⟨[⟨[], 1, false, 1, false⟩, ⟨[], 2, false, 2, false⟩], false⟩).panicked = false ∧
      (∀ c ∈ (WSHub.run [HubEvent.register 0, HubEvent.broadcast "a", HubEvent.register 1,
          HubEvent.broadcast "b", HubEvent.unregister 0, HubEvent.unregister 0,
          HubEvent.broadcast "c", HubEvent.unregister 1]
        ⟨[⟨[], 1, false, 1, false⟩, ⟨[], 2, false, 2, false⟩], false⟩).clients,
        c.live = true → c.closed = false) ∧
      ∀ i c, (WSHub.run [HubEvent.register 0, HubEvent.broadcast "a", HubEvent.register 1,
          HubEvent.broadcast "b", HubEvent.unregister 0, HubEvent.unregister 0,
          HubEvent.broadcast "c", HubEvent.unregister 1]
        ⟨[⟨[], 1, false, 1, false⟩, ⟨[], 2, false, 2, false⟩], false⟩).clients[i]? = some c →
        c.live = false →
        unregisterStep i (WSHub.run [HubEvent.register 0, HubEvent.broadcast "a",
            HubEvent.register 1, HubEvent.broadcast "b", HubEvent.unregister 0,
            HubEvent.unregister 0, HubEvent.broadcast "c", HubEvent.unregister 1]
          ⟨[⟨[], 1, false, 1, false⟩, ⟨[], 2, false, 2, false⟩], false⟩) =
        WSHub.run [HubEvent.register 0, HubEvent.broadcast "a", HubEvent.register 1,
            HubEvent.broadcast "b", HubEvent.unregister 0, HubEvent.unregister 0,
            HubEvent.broadcast "c", HubEvent.unregister 1]
          ⟨[⟨[], 1, false, 1, false⟩, ⟨[], 2, false, 2, false⟩], false⟩ :=
  ⟨by decide,
    run_never_panics [HubEvent.register 0, HubEvent.broadcast "a", HubEvent.register 1,
        HubEvent.broadcast "b", HubEvent.unregister 0, HubEvent.unregister 0,
        HubEvent.broadcast "c", HubEvent.unregister 1]
      ⟨[⟨[], 1, false, 1, false⟩, ⟨[], 2, false, 2, false⟩], false⟩
      (by decide) (by decide) (by decide) (by decide)⟩

/-! ## The broadcast step on the states that `run` reaches -/

/-- C14: for every state that the hub reaches, that is the state after `WSHub.run`
has processed any sequence of events in which no client is registered twice and
every client that gets registered is new (outside the live set, with an open queue),
from a hub that has not panicked and whose live clients have open queues, and for
every message: one broadcast step gives the same hub in whatever order the loop
visits the live set, does not panic, and treats each client as follows. A registered
client whose queue is not full gets the message appended to its queue; a registered
client whose queue is full is removed from the live set and its queue is closed;
every other client is untouched, so a client that is registered after the step has
nothing enqueued for the message. -/
theorem broadcastStep_delivers (events : List HubEvent) (h0 : WSHub) (message : String)
    (order : List Nat)
    (hp : h0.panicked = false)
    (hopen : ∀ c ∈ h0.clients, c.live = true → c.closed = false)
    (hnew : ∀ i ∈ registrations events, ∀ c, h0.clients[i]? = some c →
      c.live = false ∧ c.closed = false)
    (honce : (registrations events).Nodup)
    (hord : order.Perm (liveClients (WSHub.run events h0))) :
    broadcastLoop message order (WSHub.run events h0) =
        broadcastStep message (WSHub.run events h0) ∧
      (broadcastStep message (WSHub.run events h0)).panicked = false ∧
      (broadcastStep message (WSHub.run events h0)).clients.length =
        (WSHub.run events h0).clients.length ∧
      ∀ i c, (WSHub.run events h0).clients[i]? = some c →
        (c.live = true → c.send.length < c.capacity →
          (broadcastStep message (WSHub.run events h0)).clients[i]? =
            some { c with send := c.send ++ [message] }) ∧
        (c.live = true → ¬ c.send.length < c.capacity →
          (broadcastStep message (WSHub.run events h0)).clients[i]? =
            some { c with live := false, closed := true }) ∧
        (c.live = false →
          (broadcastStep message (WSHub.run events h0)).clients[i]? = some c ∧
            (registerStep i (broadcastStep message (WSHub.run events h0))).clients[i]? =
              some { c with live := true }) := by
  have hs0 : Safe h0 := ⟨hp, fun i c hc hl => hopen c (List.getElem?_mem hc) hl⟩
  have hsafe := run_safe events h0 hs0 hnew honce
  have hp1 := hsafe.1
  have hopen1 := Safe_mem _ hsafe
  generalize WSHub.run events h0 = h at hord hp1 hopen1 ⊢
  rw [broadcastLoop_of_open message h order hp1 hopen1 hord,
    broadcastStep_of_open message h hp1 hopen1]
  refine ⟨rfl, hp1, by simp, ?_⟩
  intro i c hc
  have hmap : (h.clients.map (deliver message))[i]? = some (deliver message c) := by
    rw [List.getElem?_map, hc]
    rfl
  refine ⟨?_, ?_, ?_⟩
  · intro hl hlt
    simp only [hmap, deliver, hl, hlt, if_true]
  · intro hl hfull
    simp only [hmap, deliver, hl, hfull, if_true, if_false]
  · intro hl
    have hd : deliver message c = c := deliver_of_not_live message c hl
    refine ⟨by simp only [hmap, hd], ?_⟩
    unfold registerStep
    simp only [hp1, Bool.false_eq_true, if_false]
    rw [adjust_getElem_self, hmap, hd]
    rfl

theorem broadcastStep_delivers_witness :
    (WSHub.run [HubEvent.register 0, HubEvent.register 1, HubEvent.broadcast "a"]
        ⟨[⟨[], 2, false, 1, false⟩, ⟨[], 1, false, 2, false⟩, ⟨[], 2, false, 3, false⟩],
          false⟩) =
      ⟨[⟨["a"], 2, false, 1, true⟩, ⟨["a"], 1, false, 2, true⟩, ⟨[], 2, false, 3, false⟩],
        false⟩ ∧
    (broadcastLoop "m" [1, 0]
        (WSHub.run [HubEvent.register 0, HubEvent.register 1, HubEvent.broadcast "a"]
          ⟨[⟨[], 2, false, 1, false⟩, ⟨[], 1, false, 2, false⟩, ⟨[], 2, false, 3, false⟩],
            false⟩)) =
      ⟨[⟨["a", "m"], 2, false, 1, true⟩, ⟨["a"], 1, true, 2, false⟩,
          ⟨[], 2, false, 3, false⟩], false⟩ ∧
    broadcastLoop "m" [1, 0]
        (WSHub.run [HubEvent.register 0, HubEvent.register 1, HubEvent.broadcast "a"]
          ⟨[⟨[], 2, false, 1, false⟩, ⟨[], 1, false, 2, false⟩, ⟨[], 2, false, 3, false⟩],
            false⟩) =
      broadcastStep "m"
        (WSHub.run [HubEvent.register 0, HubEvent.register 1, HubEvent.broadcast "a"]
          ⟨[⟨[], 2, false, 1, false⟩, ⟨[], 1, false, 2, false⟩, ⟨[], 2, false, 3, false⟩],
            false⟩) :=
  ⟨by decide, by decide,
    (broadcastStep_delivers
      [HubEvent.register 0, HubEvent.register 1, HubEvent.broadcast "a"]
      ⟨[⟨[], 2, false, 1, false⟩, ⟨[], 1, false, 2, false⟩, ⟨[], 2, false, 3, false⟩],
        false⟩ "m" [1, 0] rfl (by decide) (by decide) (by decide) (by decide)).1⟩

end Hub

namespace Backend

/-! ## The invalidation handler -/

theorem writeTo_of_open (message : WSMessage) (conn : Conn) (hl : conn.live = true)
    (hb : conn.broken = false) (hc : conn.closed = false) :
    writeTo message conn = { conn with written := conn.written ++ [message] } := by
  simp [writeTo, hl, hb, hc]

/-- C16 (as amended): for every state of the server, cache type and time, after
`Server.invalidateCacheHandler` every registered connection that accepts the write
(so each of three registered subscribers) has received one more message, whose type
is `cache_invalidated` and whose data has the field `cache` equal to the cache type
(`bestsellers` when that is invalidated) and no field `key`. -/
theorem invalidateCacheHandler_notifies {σ V : Type} (cacheType : String) (now : Nat)
    (s : Server σ V) (i : Nat) (conn : Conn) (hi : s.wsClients[i]? = some conn)
    (hl : conn.live = true) (hb : conn.broken = false) (hc : conn.closed = false) :
    ∃ m, (invalidateCacheHandler cacheType now s).2.wsClients[i]? =
          some { conn with written := conn.written ++ [m] } ∧
      m.type = "cache_invalidated" ∧
      Cache.find "cache" m.data = some (JValue.str cacheType) ∧
      Cache.find "key" m.data = none := by
  refine ⟨⟨"cache_invalidated",
    [("cache", JValue.str cacheType), ("timestamp", JValue.time now),
      ("message", JValue.str "Cache invalidated")]⟩, ?_, rfl, ?_, ?_⟩
  · unfold invalidateCacheHandler broadcastMessage
    simp only [List.getElem?_map, hi, Option.map_some']
    rw [writeTo_of_open _ conn hl hb hc]
  · simp [Cache.find]
  · simp [Cache.find]

theorem invalidateCacheHandler_notifies_witness :
    demoServer.wsClients[2]? = some demoConn ∧
    ∃ m, (invalidateCacheHandler "bestsellers" 7 demoServer).2.wsClients[2]? =
          some { demoConn with written := demoConn.written ++ [m] } ∧
      m.type = "cache_invalidated" ∧
      Cache.find "cache" m.data = some (JValue.str "bestsellers") ∧
      Cache.find "key" m.data = none :=
  ⟨rfl, invalidateCacheHandler_notifies "bestsellers" 7 demoServer 2 demoConn rfl rfl rfl rfl⟩

/-- C16, the claim as stated fails: with three subscribers registered, invalidating
`bestsellers` through the handler deletes the key and makes each of the three
receive one message of type `cache_invalidated` whose data has no field `key`; the
cache type is in the field `cache`. -/
theorem invalidateCacheHandler_key_counterexample :
    Cache.find "bestsellers" (invalidateCacheHandler "bestsellers" 7 demoServer).2.cache.store =
        none ∧
    (invalidateCacheHandler "bestsellers" 7 demoServer).2.wsClients.map
        (fun conn => conn.written.map
          (fun m => (m.type, Cache.find "key" m.data, Cache.find "cache" m.data))) =
      [[("cache_invalidated", none, some (JValue.str "bestsellers"))],
        [("cache_invalidated", none, some (JValue.str "bestsellers"))],
        [("cache_invalidated", none, some (JValue.str "bestsellers"))]] := by
  decide

/-! ## The notification is sent whatever the invalidation returned -/

/-- C27: for every cache type, time and state of the server (so every set of
connections), `Server.invalidateCacheHandler` first runs `InvalidateWithStrategy` on
the cache and then broadcasts one message, of type `cache_invalidated` and with the
field `cache` equal to the cache type, whether the invalidation returned an error
(status 500) or not (status 200): every registered connection that accepts the write
gets exactly this one message appended, and every other connection gets nothing. -/
theorem invalidateCacheHandler_broadcasts_once {σ V : Type} (cacheType : String) (now : Nat)
    (s : Server σ V) :
    ∃ m : WSMessage, m.type = "cache_invalidated" ∧
      Cache.find "cache" m.data = some (JValue.str cacheType) ∧
      (invalidateCacheHandler cacheType now s).2.cache =
        (Cache.InvalidateWithStrategy cacheType s.cache).2 ∧
      (invalidateCacheHandler cacheType now s).2.wsClients = s.wsClients.map (writeTo m) ∧
      (invalidateCacheHandler cacheType now s).1 =
        (if (Cache.InvalidateWithStrategy cacheType s.cache).1 = none then 200 else 500) ∧
      ∀ conn : Conn,
        (conn.live = true ∧ conn.broken = false ∧ conn.closed = false →
          (writeTo m conn).written = conn.written ++ [m]) ∧
        (¬ (conn.live = true ∧ conn.broken = false ∧ conn.closed = false) →
          (writeTo m conn).written = conn.written) := by
  refine ⟨⟨"cache_invalidated",
    [("cache", JValue.str cacheType), ("timestamp", JValue.time now),
      ("message", JValue.str "Cache invalidated")]⟩, rfl, ?_, rfl, rfl, ?_, ?_⟩
  · simp [Cache.find]
  · unfold invalidateCacheHandler
    simp only
    cases (Cache.InvalidateWithStrategy cacheType s.cache).1 <;> simp
  · intro conn
    constructor
    · rintro ⟨hl, hb, hc⟩
      rw [writeTo_of_open _ conn hl hb hc]
    · intro hn
      unfold writeTo
      by_cases hl : conn.live = true
      · rw [if_pos hl]
        have : (conn.broken || conn.closed) = true := by
          cases hb : conn.broken <;> cases hc : conn.closed <;> simp_all
        rw [if_pos this]
      · rw [if_neg hl]

theorem invalidateCacheHandler_broadcasts_once_witness :
    (Cache.InvalidateWithStrategy "bestsellers"
        ({ demoServer.cache with faults := [some "connection refused"] })).1 =
      some (Cache.Error.store "connection refused") ∧
    (invalidateCacheHandler "bestsellers" 7
        ({ demoServer with
          cache := { demoServer.cache with faults := [some "connection refused"] } })).1 =
      500 ∧
    (invalidateCacheHandler "bestsellers" 7
        ({ demoServer with
          cache := { demoServer.cache with faults := [some "connection refused"] } })
      ).2.wsClients.map (fun conn => conn.written.map (fun m => m.type)) =
      [["cache_invalidated"], ["cache_invalidated"], ["cache_invalidated"]] ∧
    ∃ m : WSMessage, m.type = "cache_invalidated" ∧
      Cache.find "cache" m.data = some (JValue.str "bestsellers") ∧
      (invalidateCacheHandler "bestsellers" 7
          ({ demoServer with
            cache := { demoServer.cache with faults := [some "connection refused"] } })
        ).2.cache =
        (Cache.InvalidateWithStrategy "bestsellers"
          ({ demoServer with
            cache := { demoServer.cache with faults := [some "connection refused"] } }
          ).cache).2 ∧
      (invalidateCacheHandler "bestsellers" 7
          ({ demoServer with
            cache := { demoServer.cache with faults := [some "connection refused"] } })
        ).2.wsClients =
        ({ demoServer with
            cache := { demoServer.cache with faults := [some "connection refused"] } }
          ).wsClients.map (writeTo m) ∧
      (invalidateCacheHandler "bestsellers" 7
          ({ demoServer with
            cache := { demoServer.cache with faults := [some "connection refused"] } })).1 =
        (if (Cache.InvalidateWithStrategy "bestsellers"
            ({ demoServer with
              cache := { demoServer.cache with faults := [some "connection refused"] } }
            ).cache).1 = none then 200 else 500) ∧
      ∀ conn : Conn,
        (conn.live = true ∧ conn.broken = false ∧ conn.closed = false →
          (writeTo m conn).written = conn.written ++ [m]) ∧
        (¬ (conn.live = true ∧ conn.broken = false ∧ conn.closed = false) →
          (writeTo m conn).written = conn.written) :=
  ⟨by decide, by decide, by decide,
    invalidateCacheHandler_broadcasts_once "bestsellers" 7
      ({ demoServer with
        cache := { demoServer.cache with faults := [some "connection refused"] } })⟩

end Backend

namespace Demo

open Cache

/-! ## The demo getters and the profile handler -/

/-- C23, evaluated at a failing input: the first read of the cache fails with a
timeout (an error other than `redis.Nil`). Each of the five getters of the demo
returns the empty value with a nil error, without a query of the database. -/
theorem getters_read_error_evaluation :
    (rdbGet "bestsellers"
        ({ demoWorld [] with faults := [some "i/o timeout"] } : World Nat String)).1 =
      Except.error (Error.store "i/o timeout") ∧
    ((GetBestsellers demoCodec "" demoFetch
          ({ demoWorld [] with faults := [some "i/o timeout"] } : World Nat String)).1,
      (GetBestsellers demoCodec "" demoFetch
          ({ demoWorld [] with faults := [some "i/o timeout"] } : World Nat String)).2.1,
      fetchCount (GetBestsellers demoCodec "" demoFetch
          ({ demoWorld [] with faults := [some "i/o timeout"] } : World Nat String)).2.2.trace) =
      (none, "", 0) ∧
    ((GetFlashSales demoCodec "" demoFetch
          ({ demoWorld [] with faults := [some "i/o timeout"] } : World Nat String)).1,
      (GetFlashSales demoCodec "" demoFetch
          ({ demoWorld [] with faults := [some "i/o timeout"] } : World Nat String)).2.1,
      fetchCount (GetFlashSales demoCodec "" demoFetch
          ({ demoWorld [] with faults := [some "i/o timeout"] } : World Nat String)).2.2.trace) =
      (none, "", 0) ∧
    ((GetUserProfile demoCodec "" 1 demoFirst
          ({ demoWorld [] with faults := [some "i/o timeout"] } : World Nat String)).1,
      (GetUserProfile demoCodec "" 1 demoFirst
          ({ demoWorld [] with faults := [some "i/o timeout"] } : World Nat String)).2.1,
      fetchCount (GetUserProfile demoCodec "" 1 demoFirst
          ({ demoWorld [] with faults := [some "i/o timeout"] } : World Nat String)).2.2.trace) =
      (none, "", 0) ∧
    ((GetTopComments demoCodec "" demoFetch
          ({ demoWorld [] with faults := [some "i/o timeout"] } : World Nat String)).1,
      (GetTopComments demoCodec "" demoFetch
          ({ demoWorld [] with faults := [some "i/o timeout"] } : World Nat String)).2.1,
      fetchCount (GetTopComments demoCodec "" demoFetch
          ({ demoWorld [] with faults := [some "i/o timeout"] } : World Nat String)).2.2.trace) =
      (none, "", 0) ∧
    ((GetRecommendations demoCodec "" 1 demoFetch
          ({ demoWorld [] with faults := [some "i/o timeout"] } : World Nat String)).1,
      (GetRecommendations demoCodec "" 1 demoFetch
          ({ demoWorld [] with faults := [some "i/o timeout"] } : World Nat String)).2.1,
      fetchCount (GetRecommendations demoCodec "" 1 demoFetch
          ({ demoWorld [] with faults := [some "i/o timeout"] } : World Nat String)).2.2.trace) =
      (none, "", 0) := by
  refine ⟨rfl, ?_⟩
  decide

/-- C29, evaluated at a failing input: the profile of user 1 is cached under the key
that `GetUserProfile(1)` reads and populates, `user:profile:1`. The handler succeeds
and deletes `user_profile:1`; the cached entry is still there, and the next
`GetUserProfile(1)` is a hit that returns the cached profile without a query of the
database. -/
theorem invalidateUserProfileHandler_evaluation :
    find "user:profile:1" (GetUserProfile demoCodec "" 1 demoFirst (demoWorld [])).2.2.store =
      some ⟨RValue.str "#alice", 30 * Minute⟩ ∧
    find "user_profile:1" (GetUserProfile demoCodec "" 1 demoFirst (demoWorld [])).2.2.store =
      none ∧
    (invalidateUserProfileHandler
        ({ cache := demoWorld [("user:profile:1", ⟨RValue.str "#stale", 30 * Minute⟩)],
           hub := ⟨[], false⟩ } : Server Nat String)).1 = 200 ∧
    (invalidateUserProfileHandler
        ({ cache := demoWorld [("user:profile:1", ⟨RValue.str "#stale", 30 * Minute⟩)],
           hub := ⟨[], false⟩ } : Server Nat String)).2.cache.trace =
      [Event.redis (Cmd.del ["user_profile:1"])] ∧
    find "user:profile:1" (invalidateUserProfileHandler
        ({ cache := demoWorld [("user:profile:1", ⟨RValue.str "#stale", 30 * Minute⟩)],
           hub := ⟨[], false⟩ } : Server Nat String)).2.cache.store =
      some ⟨RValue.str "#stale", 30 * Minute⟩ ∧
    (GetUserProfile demoCodec "" 1 demoFirst
        (invalidateUserProfileHandler
          ({ cache := demoWorld [("user:profile:1", ⟨RValue.str "#stale", 30 * Minute⟩)],
             hub := ⟨[], false⟩ } : Server Nat String)).2.cache).2.1 = "stale" ∧
    fetchCount (GetUserProfile demoCodec "" 1 demoFirst
        (invalidateUserProfileHandler
          ({ cache := demoWorld [("user:profile:1", ⟨RValue.str "#stale", 30 * Minute⟩)],
             hub := ⟨[], false⟩ } : Server Nat String)).2.cache).2.2.trace = 0 := by
  refine ⟨?_, ?_, ?_, ?_, ?_, ?_, ?_⟩ <;> first | decide | rfl

end Demo
